import Mathlib

/-!
# Text style builder (`core/src/style/textStyleBuilder.cpp`)

A shallow embedding of `Tangram::TextStyleBuilder`: the per-tile scratch
buffer, parameter resolution (`applyRule`), text transforms, shaping and
quad emission (`prepareLabel`), label assembly (`addLabel`) and the
per-geometry entry points.

Conventions of the embedding.
* A `float` or `double` value is a `FloatVal` (IEEE 754): a NaN, a signed
  infinity, the negative zero or a finite rational number. Every arithmetic
  operation rounds its exact result to nearest, ties to even, in the format of
  its operands (`binary32` for `float`, `binary64` for `double`), with overflow
  to infinity and gradual underflow; no intermediate result is kept in a wider
  format. An input may be any rational number, the representable ones
  included; every result of an operation is representable. NaN payloads are
  not represented.
* A float-to-integer conversion truncates toward zero and is reduced to the
  width of the target. C++ leaves it undefined when the truncated value does
  not fit the target or the operand is a NaN or an infinity; the model wraps in
  the first case and gives 0 in the second.
* `uint32_t`, `int` and `size_t` arithmetic wraps explicitly.
* A `std::string` is the list of its `char` values.
* Collaborators whose code lives in other files (the shaping engine, the
  glyph batch, the font context, hashing, the property parsers, `glm`) are
  fields of `Env`.
* An operation returns `none` where the C++ dereferences a null handle or
  reads a vector out of bounds.
-/

namespace Tangram

/-! ## IEEE 754 arithmetic -/

/-- The power `2 ^ k` for an integer exponent `k`. -/
def pow2 (k : Int) : ℚ :=
  if 0 ≤ k then ((2 ^ k.toNat : Nat) : ℚ) else 1 / ((2 ^ (-k).toNat : Nat) : ℚ)

/-- The binary logarithm with `fuel` halvings left. -/
def log2Fuel : Nat → Nat → Nat
  | 0, _ => 0
  | fuel + 1, n => if n < 2 then 0 else log2Fuel fuel (n / 2) + 1

/-- The binary logarithm of a natural number, rounded down (0 at 0). -/
def natLog2 (n : Nat) : Nat := log2Fuel n n

/-- The exponent `e` of a positive rational `q`: `2 ^ e ≤ q < 2 ^ (e + 1)`. -/
def floorLog2 (q : ℚ) : Int :=
  let d : Int := (natLog2 q.num.natAbs : Int) - (natLog2 q.den : Int)
  if pow2 d ≤ q then d else d - 1

/-- Rounding to the nearest integer, a tie going to the even one. -/
def roundHalfEven (x : ℚ) : Int :=
  if x - ⌊x⌋ < 1 / 2 then ⌊x⌋
  else if 1 / 2 < x - ⌊x⌋ then ⌊x⌋ + 1
  else if ⌊x⌋ % 2 = 0 then ⌊x⌋ else ⌊x⌋ + 1

/-- A binary floating-point format: the precision in bits and the exponent
range of the normal numbers. -/
structure FloatFormat where
  prec : Nat
  emin : Int
  emax : Int
deriving DecidableEq, Repr

/-- The format of `float`. -/
def binary32 : FloatFormat := ⟨24, -126, 127⟩

/-- The format of `double`. -/
def binary64 : FloatFormat := ⟨53, -1022, 1023⟩

/-- Rounding of a magnitude to the nearest multiple of the unit in the last
place, ties to even; below `2 ^ emin` the unit is that of the subnormal
numbers. The exponent is not bounded above. -/
def roundMag (fmt : FloatFormat) (m : ℚ) : ℚ :=
  if m ≤ 0 then 0
  else
    let e := max (floorLog2 m) fmt.emin
    let u := pow2 (e - ((fmt.prec : Int) - 1))
    (roundHalfEven (m / u) : ℚ) * u

/-- Rounding to nearest, ties to even, of a rational number. -/
def roundRat (fmt : FloatFormat) (q : ℚ) : ℚ :=
  if q < 0 then -(roundMag fmt (-q)) else roundMag fmt q

/-- A floating-point datum: a NaN, an infinity with its sign, the negative
zero, or a finite number (`fin 0` is the positive zero). -/
inductive FloatVal where
  | nan
  | inf (neg : Bool)
  | nzero
  | fin (q : ℚ)
deriving DecidableEq, Repr

namespace FloatVal

/-- Whether the datum is a NaN. -/
def isNaN : FloatVal → Bool
  | nan => true
  | _ => false

/-- Whether the datum is an infinity. -/
def isInf : FloatVal → Bool
  | inf _ => true
  | _ => false

/-- Whether the datum is one of the two zeros. -/
def isZero : FloatVal → Bool
  | nzero => true
  | fin q => decide (q = 0)
  | _ => false

/-- The sign bit of a datum that is not a NaN. -/
def signBit : FloatVal → Bool
  | nan => false
  | inf s => s
  | nzero => true
  | fin q => decide (q < 0)

/-- The number a finite datum stands for. -/
def val : FloatVal → ℚ
  | fin q => q
  | _ => 0

/-- The zero with the given sign bit. -/
def zero (neg : Bool) : FloatVal := if neg then nzero else fin 0

/-- The datum an operation delivers for the exact result `q`: `q` rounded to
the format, an infinity when the rounded magnitude exceeds the largest finite
number, and the zero with sign bit `neg` when it is zero. -/
def ofRat (fmt : FloatFormat) (neg : Bool) (q : ℚ) : FloatVal :=
  if pow2 (fmt.emax + 1) ≤ |roundRat fmt q| then inf (decide (q < 0))
  else if roundRat fmt q = 0 then zero neg
  else fin (roundRat fmt q)

/-- Conversion to the format `fmt` (exact when the format is wider). -/
def round (fmt : FloatFormat) (a : FloatVal) : FloatVal :=
  if a.isNaN || a.isInf || a.isZero then a else ofRat fmt a.signBit a.val

/-- The product `a * b` in the format `fmt`. -/
def mul (fmt : FloatFormat) (a b : FloatVal) : FloatVal :=
  if a.isNaN || b.isNaN then nan
  else if a.isInf || b.isInf then
    (if a.isZero || b.isZero then nan else inf (xor a.signBit b.signBit))
  else ofRat fmt (xor a.signBit b.signBit) (a.val * b.val)

/-- The quotient `a / b` in the format `fmt`. -/
def div (fmt : FloatFormat) (a b : FloatVal) : FloatVal :=
  if a.isNaN || b.isNaN then nan
  else if a.isInf then (if b.isInf then nan else inf (xor a.signBit b.signBit))
  else if b.isInf then zero (xor a.signBit b.signBit)
  else if b.isZero then (if a.isZero then nan else inf (xor a.signBit b.signBit))
  else ofRat fmt (xor a.signBit b.signBit) (a.val / b.val)

/-- The sum `a + b` in the format `fmt`. -/
def add (fmt : FloatFormat) (a b : FloatVal) : FloatVal :=
  if a.isNaN || b.isNaN then nan
  else if a.isInf then (if b.isInf && (a.signBit != b.signBit) then nan else a)
  else if b.isInf then b
  else if a.isZero && b.isZero then zero (a.signBit && b.signBit)
  else ofRat fmt (decide (a.val + b.val < 0)) (a.val + b.val)

/-- The negation `-a`. -/
def neg : FloatVal → FloatVal
  | nan => nan
  | inf s => inf (!s)
  | nzero => fin 0
  | fin q => if q = 0 then nzero else fin (-q)

/-- The difference `a - b` in the format `fmt`. -/
def sub (fmt : FloatFormat) (a b : FloatVal) : FloatVal := add fmt a (neg b)

/-- The function `fabsf`. -/
def abs : FloatVal → FloatVal
  | nan => nan
  | inf _ => inf false
  | nzero => fin 0
  | fin q => fin |q|

/-- The comparison `a < b`; false when either side is a NaN. -/
def lt (a b : FloatVal) : Bool :=
  if a.isNaN || b.isNaN then false
  else if a.isInf then a.signBit && !(b.isInf && b.signBit)
  else if b.isInf then !b.signBit
  else decide (a.val < b.val)

/-- The comparison `a <= b`; false when either side is a NaN. -/
def le (a b : FloatVal) : Bool :=
  if a.isNaN || b.isNaN then false
  else if a.isInf then a.signBit || (b.isInf && !b.signBit)
  else if b.isInf then !b.signBit
  else decide (a.val ≤ b.val)

/-- The function `std::min`: `(b < a) ? b : a`. -/
def stdMin (a b : FloatVal) : FloatVal := if lt b a then b else a

/-- The function `std::max`: `(a < b) ? b : a`. -/
def stdMax (a b : FloatVal) : FloatVal := if lt a b then b else a

end FloatVal

instance : LT FloatVal := ⟨fun a b => FloatVal.lt a b = true⟩

instance : LE FloatVal := ⟨fun a b => FloatVal.le a b = true⟩

instance (a b : FloatVal) : Decidable (a < b) :=
  inferInstanceAs (Decidable (FloatVal.lt a b = true))

instance (a b : FloatVal) : Decidable (a ≤ b) :=
  inferInstanceAs (Decidable (FloatVal.le a b = true))

instance (n : Nat) : OfNat FloatVal n := ⟨FloatVal.fin n⟩

instance : NatCast FloatVal := ⟨fun n => FloatVal.fin n⟩

/-! ## Data model -/

/-- A `std::string`, as the sequence of its `char` values. -/
abbrev Str := List Nat

/-- The type `glm::vec2`. -/
structure Vec2 where
  x : FloatVal
  y : FloatVal
deriving DecidableEq, Repr

/-- The type `glm::vec4`. -/
structure Vec4 where
  x : FloatVal
  y : FloatVal
  z : FloatVal
  w : FloatVal
deriving DecidableEq, Repr

/-- A `Point` is a `glm::vec3`. -/
structure Point where
  x : FloatVal
  y : FloatVal
  z : FloatVal
deriving DecidableEq, Repr

/-- A `Line` is a `std::vector<Point>`. -/
abbrev Line := List Point

/-- A `Polygon` is a `std::vector<Line>`. -/
abbrev Polygon := List Line

/-- The conversion `glm::vec2(_point)`: the first two coordinates. -/
def Point.toVec2 (p : Point) : Vec2 := ⟨p.x, p.y⟩

/-- The difference `p1 - p2` of two `glm::vec2`. -/
def Vec2.sub (a b : Vec2) : Vec2 :=
  ⟨FloatVal.sub binary32 a.x b.x, FloatVal.sub binary32 a.y b.y⟩

/-- The product `v * s` of a `glm::vec2` and a scalar. -/
def Vec2.scale (v : Vec2) (s : FloatVal) : Vec2 :=
  ⟨FloatVal.mul binary32 v.x s, FloatVal.mul binary32 v.y s⟩

/-- The enumeration `Label::Type`, as far as this file uses it. -/
inductive LabelType where
  | point
  | line
deriving DecidableEq, Repr

/-- The enumeration `TextLabelProperty::Transform`. -/
inductive Transform where
  | none
  | capitalize
  | uppercase
  | lowercase
deriving DecidableEq, Repr

/-- The enumeration `TextLabelProperty::Align`. -/
inductive Align where
  | right
  | left
  | center
deriving DecidableEq, Repr

/-- The enumeration `LabelProperty::Anchor`. -/
inductive Anchor where
  | center
  | top
  | bottom
  | left
  | right
  | top_left
  | top_right
  | bottom_left
  | bottom_right
deriving DecidableEq, Repr

/-- A font handle (`alf::Font`): an identity and the size it was created for. -/
structure Font where
  id : Nat
  size : FloatVal
deriving DecidableEq, Repr

/-- Modelled from the spec: the feature property dictionary (`Properties`,
declared in `data/propertyItem.h`), an association list of keys and string
values. -/
structure Properties where
  items : List (Str × Str)
deriving DecidableEq, Repr

/-- Modelled from the spec: `Properties::getString`, "empty if absent". -/
def Properties.getString (props : Properties) (key : Str) : Str :=
  match props.items.find? (fun kv => kv.1 == key) with
  | some kv => kv.2
  | none => []

/-- The type `Label::Options`, with the fields `applyRule` writes. -/
structure LabelOptions where
  offset : Vec2
  priority : Nat
  collide : Bool
  hideTransitionTime : FloatVal
  selectTransitionTime : FloatVal
  showTransitionTime : FloatVal
  repeatGroup : Nat
  repeatDistance : FloatVal
  properties : Option Properties
  buffer : FloatVal
  paramHash : Nat
deriving DecidableEq, Repr

/-- The type `TextStyle::Parameters`. The `font` handle is null (`none`) in a
default-constructed value. -/
structure Parameters where
  font : Option Font
  text : Str
  interactive : Bool
  fontSize : FloatVal
  blurSpread : FloatVal
  labelOptions : LabelOptions
  wordWrap : Bool
  maxLineWidth : Nat
  transform : Transform
  align : Align
  anchor : Anchor
  fill : Nat
  strokeColor : Nat
  strokeWidth : FloatVal
deriving DecidableEq, Repr

/-- A draw rule (`DrawRule`), seen through the accessors `applyRule` calls:
one optional value per style parameter key, whether the text source is a
JavaScript function, and the hash of the parameter set. -/
structure DrawRule where
  text_source : Option Str
  text_source_isJSFunction : Bool
  font_family : Option Str
  font_weight : Option Str
  font_style : Option Str
  font_size : Option FloatVal
  font_fill : Option Nat
  offset : Option Vec2
  font_stroke_color : Option Nat
  font_stroke_width : Option FloatVal
  priority : Option Nat
  collide : Option Bool
  transition_hide_time : Option FloatVal
  transition_selected_time : Option FloatVal
  transition_show_time : Option FloatVal
  text_wrap : Option Nat
  repeat_group : Option Str
  repeat_distance : Option FloatVal
  interactive : Option Bool
  anchor : Option Str
  transform : Option Str
  align : Option Str
  paramSetHash : Nat
deriving DecidableEq, Repr

/-- The type `alf::Rect`. -/
structure Rect where
  x1 : FloatVal
  y1 : FloatVal
  x2 : FloatVal
  y2 : FloatVal
deriving DecidableEq, Repr

/-- The type `alf::AtlasGlyph`, flattened: the atlas page and the texture
rectangle of the glyph. -/
structure AtlasGlyph where
  atlas : Nat
  u1 : Nat
  v1 : Nat
  u2 : Nat
  v2 : Nat
deriving DecidableEq, Repr

/-- One corner of a glyph quad: position and texture coordinate. -/
structure TextVertex where
  pos : Vec2
  uv : Nat × Nat
deriving DecidableEq, Repr

/-- The type `GlyphQuad`: the atlas page and four corners. -/
structure GlyphQuad where
  atlas : Nat
  v0 : TextVertex
  v1 : TextVertex
  v2 : TextVertex
  v3 : TextVertex
deriving DecidableEq, Repr

/-- The type `TextLabel::FontMetrics`. -/
structure FontMetrics where
  ascender : FloatVal
  descender : FloatVal
  lineHeight : FloatVal
deriving DecidableEq, Repr

/-- The type `Range`: `start` and `length`, both `int`. -/
structure Range where
  start : Int
  length : Int
deriving DecidableEq, Repr

/-- The arguments `addLabel` hands to the `TextLabel` constructor (the
back-reference to the owning `TextLabels` is left out). -/
structure TextLabel where
  transform : Vec2 × Vec2
  type : LabelType
  options : LabelOptions
  anchor : Anchor
  fill : Nat
  stroke : Nat
  fontScale : Nat
  dim : Vec2
  metrics : FontMetrics
  nLines : Int
  quadsLocalOrigin : Vec2
  quadRange : Range
deriving DecidableEq, Repr

/-- The members of `TextStyleBuilder::ScratchBuffer`. -/
structure ScratchBuffer where
  quads : List GlyphQuad
  labels : List TextLabel
  bbox : Vec2
  quadsLocalOrigin : Vec2
  numLines : Int
  metrics : FontMetrics
  numQuads : Int
  fill : Nat
  stroke : Nat
  fontScale : Nat
  yMin : FloatVal
  xMin : FloatVal
deriving DecidableEq, Repr

/-- Modelled from the spec: the output mesh (`TextLabels`, declared in
`labels/textLabels.h`), "the ordered label sequence plus the quad buffer
snapshot". -/
structure TextLabels where
  labels : List TextLabel
  quads : List GlyphQuad
deriving DecidableEq, Repr

/-- The mutable members of `TextStyleBuilder`. `m_textLabels` is a
`std::unique_ptr`, null (`none`) before `setup` and after `build`. -/
structure TextStyleBuilder where
  m_tileSize : FloatVal
  m_scratch : ScratchBuffer
  m_textLabels : Option TextLabels
deriving DecidableEq, Repr

/-- A shaped line (`alf::LineLayout`): its shapes (glyph ids), the scale set
by `setScale`, and the unscaled vertical metrics. -/
structure LineLayout where
  shapes : List Nat
  scale : FloatVal
  height : FloatVal
  ascent : FloatVal
  descent : FloatVal
deriving DecidableEq, Repr

/-- One call of the mesh callback `drawGlyph` made by the glyph batch. -/
structure GlyphDraw where
  rect : Rect
  glyph : AtlasGlyph
deriving DecidableEq, Repr

/-- The collaborators and constants of the builder that are declared in other
files of the repository. -/
structure Env where
  /-- The value `m_style.pixelScale()`. -/
  pixelScale : FloatVal
  /-- The member `m_pixelScale`. -/
  m_pixelScale : FloatVal
  /-- The member `m_sdf`. -/
  m_sdf : Bool
  /-- The value `ctx->maxStrokeWidth()`. -/
  maxStrokeWidth : FloatVal
  /-- The constant `position_scale` of the text vertex. -/
  position_scale : FloatVal
  /-- The constant `View::s_pixelsPerTile`. -/
  s_pixelsPerTile : FloatVal
  /-- The value `std::numeric_limits<float>::max()`. -/
  floatMax : FloatVal
  /-- The member initialisers of `TextStyle::Parameters`, declared in
  `textStyle.h`. -/
  defaultParameters : Parameters
  /-- The `aabb` of a default-constructed `LineWrap`. -/
  defaultAabb : Vec4
  /-- The call `ctx->getFont(family, style, weight, size)`. -/
  getFont : Str → Str → Str → FloatVal → Font
  /-- The call `hash_combine(seed, string)`, returning the new seed. -/
  hash_combine : Nat → Str → Nat
  /-- The functor `std::hash<TextStyle::Parameters>`. -/
  hashParameters : Parameters → Nat
  /-- The parser `LabelProperty::anchor`; `none` when it returns false. -/
  parseAnchor : Str → Option Anchor
  /-- The parser `TextLabelProperty::transform`. -/
  parseTransform : Str → Option Transform
  /-- The parser `TextLabelProperty::align`. -/
  parseAlign : Str → Option Align
  /-- The call `m_shaper.shape(font, text)`. -/
  shape : Font → Str → LineLayout
  /-- The accessor `line.height()`. -/
  lineHeight : LineLayout → FloatVal
  /-- The accessor `line.ascent()`. -/
  lineAscent : LineLayout → FloatVal
  /-- The accessor `line.descent()`. -/
  lineDescent : LineLayout → FloatVal
  /-- The call `m_batch.draw(line, position, metrics)`: the `drawGlyph` calls
  it makes, in order, and the updated bounding box. -/
  draw : LineLayout → Vec2 → Vec4 → List GlyphDraw × Vec4
  /-- The call `drawWithLineWrapping(line, batch, maxLineWidth, minWidth,
  align, pixelScale)`: the `drawGlyph` calls it makes and the bounding box of
  the returned `LineWrap`. -/
  drawWithLineWrapping : LineLayout → Nat → Nat → Align → FloatVal → List GlyphDraw × Vec4
  /-- The function `glm::length`. -/
  length : Vec2 → FloatVal
  /-- The function `centroid` of `util/geom.h`. -/
  centroid : Polygon → Vec2

/-! ## Text transforms -/

/-- The call `std::toupper(c, loc)` in the classic locale: only `a`..`z`
change. -/
def toupper (c : Nat) : Nat := if 97 ≤ c ∧ c ≤ 122 then c - 32 else c

/-- The call `std::tolower(c, loc)` in the classic locale: only `A`..`Z`
change. -/
def tolower (c : Nat) : Nat := if 65 ≤ c ∧ c ≤ 90 then c + 32 else c

/-- The read `text[i]`; at `i = text.size()` it yields the terminator `0`. -/
def charAt (text : Str) (i : Nat) : Nat := text.getD i 0

/-- The loop `for (size_t i = lo; i < hi; ++i) body`. -/
def forRange {σ : Type} (lo hi : Nat) (body : σ → Nat → σ) (init : σ) : σ :=
  (List.range' lo (hi - lo)).foldl body init

/-- The body of the capitalize loop:
`if (text[i - 1] == ' ') text[i] = toupper(text[i])`. -/
def capitalizeBody (text : Str) (i : Nat) : Str :=
  if charAt text (i - 1) = 32 then text.set i (toupper (charAt text i)) else text

/-- The function `TextStyleBuilder::applyTextTransform`. -/
def applyTextTransform (params : Parameters) (s : Str) : Str :=
  let text := s
  match params.transform with
  | Transform.capitalize =>
    let text := text.set 0 (toupper (charAt text 0))
    if text.length > 1 then forRange 1 text.length capitalizeBody text else text
  | Transform.lowercase =>
    forRange 0 text.length (fun t i => t.set i (tolower (charAt t i))) text
  | Transform.uppercase =>
    forRange 0 text.length (fun t i => t.set i (toupper (charAt t i))) text
  | Transform.none => text

/-! ## Numeric conversions -/

/-- Truncation of a rational number toward zero. -/
def truncToInt (q : ℚ) : Int := if 0 ≤ q then ⌊q⌋ else ⌈q⌉

/-- Conversion of a `float` to an integer type: truncation toward zero (0 for
a NaN or an infinity, where the conversion is undefined). -/
def FloatVal.toInt (a : FloatVal) : Int := truncToInt a.val

/-- Reduction of an integer to `uint32_t`. -/
def toUInt32 (n : Int) : Nat := (n % 2 ^ 32).toNat

/-- Reduction of an integer to `uint8_t`. -/
def toUInt8 (n : Int) : Nat := (n % 2 ^ 8).toNat

/-- Reduction of an integer to `size_t` (64 bits). -/
def toSizeT (n : Int) : Nat := (n % 2 ^ 64).toNat

/-- Reduction of an integer to `int` (32 bits, two's complement). -/
def toInt32 (n : Int) : Int := (n + 2 ^ 31) % 2 ^ 32 - 2 ^ 31

/-- The stroke attribute of `prepareLabel`:
`uint32_t strokeAttrib = std::max(std::min(strokeWidth / ctx->maxStrokeWidth() * 255.f, 255.f), 0.f)`. -/
def strokeAttrib (strokeWidth maxStrokeWidth : FloatVal) : Nat :=
  toUInt32 (FloatVal.toInt (FloatVal.stdMax (FloatVal.stdMin
    (FloatVal.mul binary32 (FloatVal.div binary32 strokeWidth maxStrokeWidth) 255) 255) 0))

/-- The packed stroke of `prepareLabel`, in `uint32_t` arithmetic:
`(_params.strokeColor & 0x00ffffff) + (strokeAttrib << 24)`. -/
def packStroke (strokeColor attrib : Nat) : Nat :=
  ((strokeColor &&& 0x00ffffff) + (attrib <<< 24) % 2 ^ 32) % 2 ^ 32

/-- The font scale attribute of `prepareLabel`, a `uint8_t`:
`m_scratch.fontScale = std::min(fontScale * 64.f, 255.f)`. -/
def fontScaleAttrib (fontScale : FloatVal) : Nat :=
  toUInt8 (FloatVal.toInt (FloatVal.stdMin (FloatVal.mul binary32 fontScale 64) 255))

/-! ## Scratch buffer -/

/-- The method `ScratchBuffer::reset`. -/
def ScratchBuffer.reset (env : Env) (s : ScratchBuffer) : ScratchBuffer :=
  { s with
    yMin := env.floatMax
    xMin := env.floatMax
    bbox := ⟨0, 0⟩
    numLines := 1
    numQuads := 0 }

/-- The quad `drawGlyph` pushes: four corners, positions scaled by
`position_scale`, texture coordinates from the atlas glyph. -/
def glyphQuad (env : Env) (d : GlyphDraw) : GlyphQuad :=
  let q := d.rect
  let g := d.glyph
  { atlas := g.atlas
    v0 := ⟨(Vec2.mk q.x1 q.y1).scale env.position_scale, (g.u1, g.v1)⟩
    v1 := ⟨(Vec2.mk q.x1 q.y2).scale env.position_scale, (g.u1, g.v2)⟩
    v2 := ⟨(Vec2.mk q.x2 q.y1).scale env.position_scale, (g.u2, g.v1)⟩
    v3 := ⟨(Vec2.mk q.x2 q.y2).scale env.position_scale, (g.u2, g.v2)⟩ }

/-- The method `ScratchBuffer::drawGlyph`. The `int` counter `numQuads++`
wraps in two's complement. -/
def ScratchBuffer.drawGlyph (env : Env) (s : ScratchBuffer) (d : GlyphDraw) : ScratchBuffer :=
  { s with
    numQuads := toInt32 (s.numQuads + 1)
    quads := s.quads ++ [glyphQuad env d] }

/-- The method `ScratchBuffer::clear`. -/
def ScratchBuffer.clear (s : ScratchBuffer) : ScratchBuffer :=
  { s with quads := [], labels := [] }

/-! ## Parameter resolution -/

/-- The string `"name"`. -/
def key_name : Str := [110, 97, 109, 101]

/-- The string `"400"`. -/
def defaultWeight : Str := [52, 48, 48]

/-- The string `"normal"`. -/
def defaultStyle : Str := [110, 111, 114, 109, 97, 108]

/-- The string `"default"`. -/
def defaultFamily : Str := [100, 101, 102, 97, 117, 108, 116]

/-- A default-constructed `TextStyle::Parameters` (`TextStyle::Parameters p;`):
the member initialisers come from `env`; the font handle is null and the text
is empty, as their types construct them. -/
def Parameters.default (env : Env) : Parameters :=
  { env.defaultParameters with font := none, text := [] }

/-- The anchor switch of `applyRule`, taken when `TextLabelProperty::align`
fails. -/
def alignFromAnchor (anchor : Anchor) (align : Align) : Align :=
  match anchor with
  | Anchor.top_left | Anchor.left | Anchor.bottom_left => Align.right
  | Anchor.top_right | Anchor.right | Anchor.bottom_right => Align.left
  | Anchor.top | Anchor.bottom | Anchor.center => align

/-- The text resolution of `applyRule` (the `text_source` block). -/
def resolveText (rule : DrawRule) (props : Properties) (p : Parameters) : Parameters :=
  let p := { p with text := rule.text_source.getD p.text }
  if !rule.text_source_isJSFunction then
    if p.text = [] then { p with text := props.getString key_name }
    else { p with text := props.getString p.text }
  else p

/-- The font lookup of `applyRule` (family, weight, style, size, `getFont`). -/
def resolveFont (env : Env) (rule : DrawRule) (p : Parameters) : Parameters :=
  let fontFamily := rule.font_family.getD defaultFamily
  let fontWeight := rule.font_weight.getD defaultWeight
  let fontStyle := rule.font_style.getD defaultStyle
  let p := { p with fontSize := rule.font_size.getD p.fontSize }
  { p with
    font := some (env.getFont fontFamily fontStyle fontWeight
      (FloatVal.mul binary32 p.fontSize env.pixelScale)) }

/-- The scalar reads of `applyRule`, from `font_fill` to `text_wrap`. Each
`_rule.get(key, field)` leaves the field alone when the rule lacks the key. -/
def resolveScalars (rule : DrawRule) (p : Parameters) : Parameters :=
  let o := p.labelOptions
  let o := { o with offset := rule.offset.getD o.offset }
  let o := { o with priority := rule.priority.getD o.priority }
  let o := { o with collide := rule.collide.getD o.collide }
  let o := { o with hideTransitionTime := rule.transition_hide_time.getD o.hideTransitionTime }
  let o := { o with
    selectTransitionTime := rule.transition_selected_time.getD o.selectTransitionTime }
  let o := { o with showTransitionTime := rule.transition_show_time.getD o.showTransitionTime }
  { p with
    fill := rule.font_fill.getD p.fill
    strokeColor := rule.font_stroke_color.getD p.strokeColor
    strokeWidth := rule.font_stroke_width.getD p.strokeWidth
    maxLineWidth := rule.text_wrap.getD p.maxLineWidth
    labelOptions := o }

/-- The repeat group and repeat distance of `applyRule`. -/
def resolveRepeat (env : Env) (rule : DrawRule) (p : Parameters) : Parameters :=
  let repeatGroupHash : Nat :=
    match rule.repeat_group with
    | some repeatGroup => env.hash_combine 0 repeatGroup
    | none => rule.paramSetHash
  let repeatDistance : FloatVal :=
    match rule.repeat_distance with
    | some repeatDistance => repeatDistance
    | none => env.s_pixelsPerTile
  let repeatGroupHash := env.hash_combine repeatGroupHash p.text
  { p with
    labelOptions := { p.labelOptions with
      repeatGroup := repeatGroupHash
      repeatDistance := FloatVal.mul binary32 repeatDistance env.pixelScale } }

/-- The `interactive` block of `applyRule`. -/
def resolveInteractive (rule : DrawRule) (props : Properties) (p : Parameters) : Parameters :=
  let p := { p with interactive := rule.interactive.getD p.interactive }
  if rule.interactive.isSome && p.interactive then
    { p with labelOptions := { p.labelOptions with properties := some props } }
  else p

/-- The anchor, transform and align blocks of `applyRule`. -/
def resolveAnchorAlign (env : Env) (rule : DrawRule) (p : Parameters) : Parameters :=
  let p :=
    match rule.anchor with
    | some anchor => { p with anchor := (env.parseAnchor anchor).getD p.anchor }
    | none => p
  let p :=
    match rule.transform with
    | some transform => { p with transform := (env.parseTransform transform).getD p.transform }
    | none => p
  match rule.align with
  | some align =>
    match env.parseAlign align with
    | some a => { p with align := a }
    | none => { p with align := alignFromAnchor p.anchor p.align }
  | none => p

/-- The closing block of `applyRule`: pixel scale, blur spread, buffer and
parameter hash. -/
def resolveGlobal (env : Env) (p : Parameters) : Parameters :=
  let p := { p with fontSize := FloatVal.mul binary32 p.fontSize env.m_pixelScale }
  let p := { p with
    labelOptions := { p.labelOptions with offset := p.labelOptions.offset.scale env.m_pixelScale } }
  let emSize := FloatVal.div binary32 p.fontSize 16
  let p := { p with blurSpread := if env.m_sdf then FloatVal.mul binary32 emSize 5 else 0 }
  let boundingBoxBuffer := FloatVal.div binary32 p.fontSize.neg 2
  let p := { p with labelOptions := { p.labelOptions with buffer := boundingBoxBuffer } }
  { p with labelOptions := { p.labelOptions with paramHash := env.hashParameters p } }

/-- The function `TextStyleBuilder::applyRule`, as the sequence of its
blocks. -/
def applyRule (env : Env) (rule : DrawRule) (props : Properties) : Parameters :=
  let p := resolveText rule props (Parameters.default env)
  if p.text = [] then p
  else
    resolveGlobal env
      (resolveAnchorAlign env rule
        (resolveInteractive rule props
          (resolveRepeat env rule
            (resolveScalars rule
              (resolveFont env rule p)))))

/-! ## Shaping and label assembly -/

/-- The text `prepareLabel` hands to the shaper (`*renderText`): the
parameters' text, transformed unless the transform is `none`. -/
def renderText (params : Parameters) : Str :=
  if params.transform = Transform.none then params.text
  else applyTextTransform params params.text

/-- The drawing step of `prepareLabel`: with line wrapping for a point label
with word wrap, unwrapped at the origin otherwise. The result is the
`drawGlyph` calls made and the bounding box `wrap.metrics.aabb`. -/
def drawLine (env : Env) (params : Parameters) (type : LabelType) (layout : LineLayout) :
    List GlyphDraw × Vec4 :=
  if type = LabelType.point ∧ params.wordWrap then
    env.drawWithLineWrapping layout params.maxLineWidth 4 params.align env.pixelScale
  else
    env.draw layout ⟨0, 0⟩ env.defaultAabb

/-- The function `TextStyleBuilder::prepareLabel`: the return value and the
builder afterwards; `none` when the font handle is null at `font->size()`. -/
def prepareLabel (env : Env) (b : TextStyleBuilder) (params : Parameters) (type : LabelType) :
    Option (Bool × TextStyleBuilder) :=
  if params.text = [] ∨ params.fontSize ≤ 0 then some (false, b)
  else
    let scratch := b.m_scratch.reset env
    match params.font with
    | none => none
    | some font =>
      let fontScale :=
        FloatVal.div binary32 (FloatVal.mul binary32 params.fontSize env.pixelScale) font.size
      let strokeWidth := FloatVal.mul binary32 params.strokeWidth env.pixelScale
      let attrib := strokeAttrib strokeWidth env.maxStrokeWidth
      let scratch := { scratch with
        stroke := packStroke params.strokeColor attrib
        fill := params.fill
        fontScale := fontScaleAttrib fontScale }
      let layout := env.shape font (renderText params)
      if layout.shapes.length = 0 then some (false, { b with m_scratch := scratch })
      else
        let layout := { layout with scale := fontScale }
        let drawn := drawLine env params type layout
        let scratch := drawn.1.foldl (ScratchBuffer.drawGlyph env) scratch
        let aabb := drawn.2
        let scratch := { scratch with
          bbox := ⟨FloatVal.add binary32 aabb.x.abs aabb.z, FloatVal.add binary32 aabb.y.abs aabb.w⟩ }
        let scratch := { scratch with
          numLines := toInt32
            (FloatVal.toInt (FloatVal.div binary32 scratch.bbox.y (env.lineHeight layout))) }
        let scratch := { scratch with
          metrics :=
            { descender := (env.lineDescent layout).neg
              ascender := env.lineAscent layout
              lineHeight := env.lineHeight layout }
          quadsLocalOrigin := ⟨aabb.x, aabb.y⟩ }
        some (true, { b with m_scratch := scratch })

/-- The function `TextStyleBuilder::addLabel`. The offset is computed in
`size_t` and stored in an `int`. Forming the reference `*m_textLabels` reads
no memory, so a null `m_textLabels` is no failure here. -/
def addLabel (b : TextStyleBuilder) (params : Parameters) (type : LabelType)
    (transform : Vec2 × Vec2) : TextStyleBuilder :=
  let numQuads := b.m_scratch.numQuads
  let quadOffset := toInt32 (toSizeT ((b.m_scratch.quads.length : Int) - numQuads))
  { b with
    m_scratch := { b.m_scratch with
      labels := b.m_scratch.labels ++ [
        { transform := transform
          type := type
          options := params.labelOptions
          anchor := params.anchor
          fill := b.m_scratch.fill
          stroke := b.m_scratch.stroke
          fontScale := b.m_scratch.fontScale
          dim := b.m_scratch.bbox
          metrics := b.m_scratch.metrics
          nLines := b.m_scratch.numLines
          quadsLocalOrigin := b.m_scratch.quadsLocalOrigin
          quadRange := ⟨quadOffset, numQuads⟩ }] } }

/-! ## Per-tile lifecycle and per-geometry entry points -/

/-- The function `TextStyleBuilder::setup`; `tileSize` is
`_tile.getProjection()->TileSize()` as the `float` member `m_tileSize` holds
it. -/
def setup (b : TextStyleBuilder) (tileSize : FloatVal) : TextStyleBuilder :=
  { m_tileSize := tileSize
    m_scratch := b.m_scratch.clear
    m_textLabels := some ⟨[], []⟩ }

/-- Modelled from the spec: `setLabels` on the output mesh (declared in
`labels/textLabels.h`), "transfer labels ... into the output mesh". -/
def TextLabels.setLabels (t : TextLabels) (labels : List TextLabel) : TextLabels :=
  { t with labels := labels }

/-- Modelled from the spec: `setQuads` on the output mesh (declared in
`labels/textLabels.h`), "transfer ... quads into the output mesh". -/
def TextLabels.setQuads (t : TextLabels) (quads : List GlyphQuad) : TextLabels :=
  { t with quads := quads }

/-- The function `TextStyleBuilder::build`: the returned `unique_ptr` and the
builder afterwards; `none` when `m_textLabels` is null at `setLabels`. -/
def build (b : TextStyleBuilder) : Option (Option TextLabels × TextStyleBuilder) :=
  let out : Option (Option TextLabels) :=
    if b.m_scratch.labels ≠ [] then
      match b.m_textLabels with
      | none => none
      | some t => some (some ((t.setLabels b.m_scratch.labels).setQuads b.m_scratch.quads))
    else some b.m_textLabels
  match out with
  | none => none
  | some r => some (r, { b with m_scratch := b.m_scratch.clear, m_textLabels := none })

/-- The function `TextStyleBuilder::addPoint`. -/
def addPoint (env : Env) (b : TextStyleBuilder) (point : Point) (props : Properties)
    (rule : DrawRule) : Option TextStyleBuilder :=
  let params := applyRule env rule props
  match prepareLabel env b params LabelType.point with
  | none => none
  | some (false, b) => some b
  | some (true, b) => some (addLabel b params LabelType.point (point.toVec2, point.toVec2))

/-- The loop of `addLine`, with `n` iterations left and the index at `i`;
`none` when `_line[i]` or `_line[i + 1]` is read out of bounds. -/
def addLineLoop (env : Env) (params : Parameters) (_line : Line) (minLength : FloatVal) :
    Nat → Nat → TextStyleBuilder → Option TextStyleBuilder
  | 0, _, b => some b
  | n + 1, i, b =>
    match (_line[i]?), (_line[i + 1]?) with
    | some a, some c =>
      let p1 := a.toVec2
      let p2 := c.toVec2
      let b :=
        if env.length (p1.sub p2) > minLength then addLabel b params LabelType.line (p1, p2)
        else b
      addLineLoop env params _line minLength n (i + 1) b
    | _, _ => none

/-- The function `TextStyleBuilder::addLine`. The literals `2.0` and `0.2`
are `double`: the quotient and the last product are computed in `double` and
stored to `float`. The loop bound `_line.size() - 1` is computed in `size_t`. -/
def addLine (env : Env) (b : TextStyleBuilder) (_line : Line) (props : Properties)
    (rule : DrawRule) : Option TextStyleBuilder :=
  let params := applyRule env rule props
  match prepareLabel env b params LabelType.line with
  | none => none
  | some (false, b) => some b
  | some (true, b) =>
    let pixel := FloatVal.round binary32
      (FloatVal.div binary64 2 (FloatVal.mul binary32 b.m_tileSize env.pixelScale))
    let minLength := FloatVal.round binary32
      (FloatVal.mul binary64 (FloatVal.mul binary32 b.m_scratch.bbox.x pixel)
        (FloatVal.round binary64 (FloatVal.fin (1 / 5))))
    addLineLoop env params _line minLength (toSizeT ((_line.length : Int) - 1)) 0 b

/-- The function `TextStyleBuilder::addPolygon`. -/
def addPolygon (env : Env) (b : TextStyleBuilder) (polygon : Polygon) (props : Properties)
    (rule : DrawRule) : Option TextStyleBuilder :=
  let c := env.centroid polygon
  let p : Point := ⟨c.x, c.y, 0⟩
  addPoint env b p props rule

/-! ## Feature sequences -/

/-- One ingested feature: the arguments of `addPoint`, `addLine` or
`addPolygon`. -/
inductive Feature where
  | point (p : Point) (props : Properties) (rule : DrawRule)
  | line (l : Line) (props : Properties) (rule : DrawRule)
  | polygon (pg : Polygon) (props : Properties) (rule : DrawRule)
deriving DecidableEq, Repr

/-- The call the orchestrator makes for one feature. -/
def ingest (env : Env) (b : TextStyleBuilder) : Feature → Option TextStyleBuilder
  | Feature.point p props rule => addPoint env b p props rule
  | Feature.line l props rule => addLine env b l props rule
  | Feature.polygon pg props rule => addPolygon env b pg props rule

/-- A sequence of feature calls, in order. -/
def ingestAll (env : Env) (b : TextStyleBuilder) : List Feature → Option TextStyleBuilder
  | [] => some b
  | f :: fs =>
    match ingest env b f with
    | none => none
    | some b1 => ingestAll env b1 fs

/-! ## A concrete environment

A small, fully computable instance of `Env`, used to evaluate the builder on
concrete features. -/

/-- A string of `char` values from a Lean string literal (ASCII). -/
def str (s : String) : Str := s.toList.map Char.toNat

/-- Sample member initialisers of `TextStyle::Parameters`. -/
def sampleParameters : Parameters :=
  { font := none
    text := []
    interactive := false
    fontSize := 16
    blurSpread := 0
    labelOptions :=
      { offset := ⟨0, 0⟩
        priority := 4294967295
        collide := true
        hideTransitionTime := 0
        selectTransitionTime := 0
        showTransitionTime := 0
        repeatGroup := 0
        repeatDistance := 0
        properties := none
        buffer := 0
        paramHash := 0 }
    wordWrap := true
    maxLineWidth := 15
    transform := Transform.none
    align := Align.center
    anchor := Anchor.center
    fill := 0xff000000
    strokeColor := 0xffffffff
    strokeWidth := 0 }

/-- A sample shaper output: one shape per ASCII `char` (a byte above 127 has
no glyph in the sample font), unit metrics. -/
def sampleShape (_font : Font) (text : Str) : LineLayout :=
  { shapes := text.filter (fun c => c < 128), scale := 1, height := 1, ascent := 1, descent := 0 }

/-- A sample glyph batch: one `drawGlyph` call per shape that is not a space,
each glyph one unit wide, and the bounding box of the run. -/
def sampleDraw (layout : LineLayout) : List GlyphDraw × Vec4 :=
  ((layout.shapes.filter (fun c => c != 32)).map
      (fun c => { rect := ⟨0, 0, 1, 1⟩, glyph := ⟨0, c, 0, c + 1, 1⟩ }),
    ⟨0, 0, layout.shapes.length, 1⟩)

/-- A sample environment: pixel scale 1, tile constants of the stock style,
the sample shaper and batch, and a length that is exact on axis-parallel
vectors (the only ones the examples below use). -/
def sampleEnv : Env :=
  { pixelScale := 1
    m_pixelScale := 1
    m_sdf := true
    maxStrokeWidth := 3
    position_scale := 4
    s_pixelsPerTile := 256
    floatMax := 340282346638528859811704183484516925440
    defaultParameters := sampleParameters
    defaultAabb := ⟨0, 0, 0, 0⟩
    getFont := fun _ _ _ size => ⟨0, size⟩
    hash_combine := fun seed s => (seed * 31 + s.foldl (fun h c => h * 257 + c + 1) 7) % 2 ^ 64
    hashParameters := fun p => p.text.length
    parseAnchor := fun _ => none
    parseTransform := fun s =>
      if s = str "uppercase" then some Transform.uppercase
      else if s = str "lowercase" then some Transform.lowercase
      else if s = str "capitalize" then some Transform.capitalize
      else none
    parseAlign := fun _ => none
    shape := sampleShape
    lineHeight := fun l => FloatVal.mul binary32 l.height l.scale
    lineAscent := fun l => FloatVal.mul binary32 l.ascent l.scale
    lineDescent := fun l => FloatVal.mul binary32 l.descent l.scale
    draw := fun l _ _ => sampleDraw l
    drawWithLineWrapping := fun l _ _ _ _ => sampleDraw l
    length := fun v => FloatVal.stdMax v.x.abs v.y.abs
    centroid := fun _ => ⟨0, 0⟩ }

/-- A rule with only a text source key. -/
def sampleRule (textSource : Option Str) : DrawRule :=
  { text_source := textSource
    text_source_isJSFunction := false
    font_family := none
    font_weight := none
    font_style := none
    font_size := none
    font_fill := none
    offset := none
    font_stroke_color := none
    font_stroke_width := none
    priority := none
    collide := none
    transition_hide_time := none
    transition_selected_time := none
    transition_show_time := none
    text_wrap := none
    repeat_group := none
    repeat_distance := none
    interactive := none
    anchor := none
    transform := none
    align := none
    paramSetHash := 1 }

/-- A feature dictionary with the single property `name`. -/
def sampleProps (name : Str) : Properties := ⟨[(key_name, name)]⟩

/-- A freshly constructed builder: scratch members zero, no output mesh. -/
def freshBuilder : TextStyleBuilder :=
  { m_tileSize := 0
    m_scratch :=
      { quads := []
        labels := []
        bbox := ⟨0, 0⟩
        quadsLocalOrigin := ⟨0, 0⟩
        numLines := 0
        metrics := ⟨0, 0, 0⟩
        numQuads := 0
        fill := 0
        stroke := 0
        fontScale := 0
        yMin := 0
        xMin := 0 }
    m_textLabels := none }

/-! ## Specification-side definitions -/


/-- The character the spec prescribes at index `i` of the transformed text. -/
def transformedChar (tr : Transform) (s : Str) (i : Nat) : Nat :=
  match tr with
  | Transform.capitalize =>
    if i = 0 ∨ charAt s (i - 1) = 32 then toupper (charAt s i) else charAt s i
  | Transform.uppercase => toupper (charAt s i)
  | Transform.lowercase => tolower (charAt s i)
  | Transform.none => charAt s i

/-- The per-label quad counter after `k` further `drawGlyph` calls. -/
def bumpQuads (n : Int) : Nat → Int
  | 0 => n
  | k + 1 => bumpQuads (toInt32 (n + 1)) k

/-- The layout `prepareLabel` draws: the shaper's output at the font scale. -/
def shapedLayout (env : Env) (params : Parameters) (font : Font) : LineLayout :=
  { env.shape font (renderText params) with
    scale := FloatVal.div binary32 (FloatVal.mul binary32 params.fontSize env.pixelScale)
      font.size }

/-- The `drawGlyph` calls made while shaping `params` for a label of `type`. -/
def glyphDraws (env : Env) (params : Parameters) (type : LabelType) (font : Font) :
    List GlyphDraw :=
  (drawLine env params type (shapedLayout env params font)).1

/-- The bounding box `prepareLabel` leaves in the scratch buffer. -/
def shapedBBox (env : Env) (params : Parameters) (type : LabelType) (font : Font) : Vec2 :=
  let aabb := (drawLine env params type (shapedLayout env params font)).2
  ⟨FloatVal.add binary32 aabb.x.abs aabb.z, FloatVal.add binary32 aabb.y.abs aabb.w⟩

/-- The text `applyRule` resolves. -/
def resolvedText (env : Env) (rule : DrawRule) (props : Properties) : Str :=
  (resolveText rule props (Parameters.default env)).text

/-- The label `addLabel` builds from the scratch buffer `s`. -/
def labelOf (s : ScratchBuffer) (params : Parameters) (type : LabelType)
    (transform : Vec2 × Vec2) : TextLabel :=
  { transform := transform
    type := type
    options := params.labelOptions
    anchor := params.anchor
    fill := s.fill
    stroke := s.stroke
    fontScale := s.fontScale
    dim := s.bbox
    metrics := s.metrics
    nLines := s.numLines
    quadsLocalOrigin := s.quadsLocalOrigin
    quadRange := ⟨toInt32 (toSizeT ((s.quads.length : Int) - s.numQuads)), s.numQuads⟩ }

/-- The builder `b` with `ls` appended to its label sequence. -/
def withLabels (b : TextStyleBuilder) (ls : List TextLabel) : TextStyleBuilder :=
  { b with m_scratch := { b.m_scratch with labels := b.m_scratch.labels ++ ls } }

/-- The consecutive vertex pairs `(_line[i], _line[i + 1])`, in increasing `i`. -/
def segments (l : Line) : List (Point × Point) := l.zip l.tail

/-- The test of the `addLine` loop: the segment is longer than `minLength`. -/
def qualifies (env : Env) (minLength : FloatVal) (sg : Point × Point) : Bool :=
  decide (env.length (sg.1.toVec2.sub sg.2.toVec2) > minLength)

/-- The labels the `addLine` loop appends for the segments `sgs`, read off the
scratch buffer `s`. -/
def lineLabels (env : Env) (s : ScratchBuffer) (params : Parameters) (minLength : FloatVal)
    (sgs : List (Point × Point)) : List TextLabel :=
  (sgs.filter (qualifies env minLength)).map
    (fun sg => labelOf s params LabelType.line (sg.1.toVec2, sg.2.toVec2))

/-- The threshold `minLength` of `addLine`, from the builder after shaping. -/
def minLengthOf (env : Env) (b1 : TextStyleBuilder) : FloatVal :=
  FloatVal.round binary32
    (FloatVal.mul binary64
      (FloatVal.mul binary32 b1.m_scratch.bbox.x
        (FloatVal.round binary32
          (FloatVal.div binary64 2 (FloatVal.mul binary32 b1.m_tileSize env.pixelScale))))
      (FloatVal.round binary64 (FloatVal.fin (1 / 5))))

/-- Modelled from the spec: the threshold
`2 / (tileSize * pixelScale) * boundingBoxWidth * 0.2`, in the arithmetic of
`addLine`: the product `tileSize * pixelScale` and the product with the box
width are `float` operations, the quotient and the product with `0.2` are
`double` operations whose results are stored to `float`. -/
def lineThreshold (tileSize pixelScale boundingBoxWidth : FloatVal) : FloatVal :=
  FloatVal.round binary32
    (FloatVal.mul binary64
      (FloatVal.mul binary32
        (FloatVal.round binary32
          (FloatVal.div binary64 2 (FloatVal.mul binary32 tileSize pixelScale)))
        boundingBoxWidth)
      (FloatVal.round binary64 (FloatVal.fin (1 / 5))))

/-- Modelled from the spec: the font scale factor
`(fontSize * pixelScale) / glyphAtlasReferenceSize`, in `float` arithmetic. -/
def fontScaleOf (fontSize pixelScale referenceSize : FloatVal) : FloatVal :=
  FloatVal.div binary32 (FloatVal.mul binary32 fontSize pixelScale) referenceSize

/-- What one feature call does to the builder: tile size and output mesh are
kept, `k` quads and some labels are appended, and every new label carries the
range computed from the buffer size after shaping and the quad counter. -/
def StepEffect (b b' : TextStyleBuilder) : Prop :=
  b'.m_tileSize = b.m_tileSize ∧ b'.m_textLabels = b.m_textLabels ∧
  ∃ (k : Nat) (newLabels : List TextLabel),
    b'.m_scratch.quads.length = b.m_scratch.quads.length + k ∧
    b'.m_scratch.labels = b.m_scratch.labels ++ newLabels ∧
    ∀ l ∈ newLabels, l.quadRange =
      ⟨toInt32 (toSizeT (((b.m_scratch.quads.length + k : Nat) : Int) - bumpQuads 0 k)),
        bumpQuads 0 k⟩

/-- The order the quad ranges of two labels, the first created before the
second, are in: the same range, or the first ends where the second starts or
before it. -/
def RangeBefore (a c : TextLabel) : Prop :=
  a.quadRange = c.quadRange ∨ a.quadRange.start + a.quadRange.length ≤ c.quadRange.start

/-- Every label's quad range lies inside the quad buffer. -/
def RangesInside (b : TextStyleBuilder) : Prop :=
  ∀ l ∈ b.m_scratch.labels, 0 ≤ l.quadRange.start ∧ 0 ≤ l.quadRange.length ∧
    l.quadRange.start + l.quadRange.length ≤ b.m_scratch.quads.length

/-! ## Sample inputs -/

/-- The sample point feature: a point with the property `name = "ab c"`. -/
def samplePoint : Point := ⟨1, 2, 0⟩

/-- A three-vertex line with two axis-parallel unit segments. -/
def sampleLine : Line := [⟨0, 0, 0⟩, ⟨1, 0, 0⟩, ⟨1, 1, 0⟩]

/-- A builder after `setup` on a tile of size 256. -/
def sampleBuilder : TextStyleBuilder := setup freshBuilder 256

/-- The sample line feature after shaping: three quads, bounding box 4 wide. -/
def sampleShapedBuilder : TextStyleBuilder :=
  ((prepareLabel sampleEnv sampleBuilder
    (applyRule sampleEnv (sampleRule none) (sampleProps (str "ab c"))) LabelType.line).getD
      (false, sampleBuilder)).2

/-- The sample builder after a point feature and the sample line feature. -/
def sampleTwoFeatures : TextStyleBuilder :=
  (ingestAll sampleEnv sampleBuilder
    [Feature.point samplePoint (sampleProps (str "ab c")) (sampleRule none),
     Feature.line sampleLine (sampleProps (str "ab c")) (sampleRule none)]).getD sampleBuilder

/-- A feature dictionary without a `name` property. -/
def samplePropsNoName : Properties := ⟨[(str "kind", str "road")]⟩

/-- The sample builder after a one-vertex line feature: quads were emitted, no
segment qualified. -/
def sampleQuadsNoLabel : TextStyleBuilder :=
  (ingestAll sampleEnv sampleBuilder
    [Feature.line [⟨0, 0, 0⟩] (sampleProps (str "ab c")) (sampleRule none)]).getD freshBuilder

/-- A feature dictionary whose `name` is the two bytes of a non-ASCII
character, for which the sample shaper returns no shape. -/
def samplePropsNoGlyph : Properties := sampleProps [195, 169]

/-- The sample builder after `prepareLabel` failed at the shaper. -/
def sampleAfterShapingFailure : TextStyleBuilder :=
  ((prepareLabel sampleEnv sampleTwoFeatures
    (applyRule sampleEnv (sampleRule none) samplePropsNoGlyph) LabelType.point).getD
      (true, freshBuilder)).2

/-! ## Further specification-side definitions and sample inputs -/

/-- The seed of the repeat-group key: the hash of the explicit group name when
the rule has one, the rule's parameter-set hash otherwise. -/
def repeatSeed (env : Env) (rule : DrawRule) : Nat :=
  match rule.repeat_group with
  | some repeatGroup => env.hash_combine 0 repeatGroup
  | none => rule.paramSetHash

/-- The sample environment with parsers for the anchor and align keywords the
examples use. -/
def sampleEnvParsing : Env :=
  { sampleEnv with
    parseAnchor := fun s =>
      if s = str "left" then some Anchor.left
      else if s = str "right" then some Anchor.right
      else if s = str "top" then some Anchor.top
      else none
    parseAlign := fun s =>
      if s = str "left" then some Align.left
      else if s = str "right" then some Align.right
      else if s = str "center" then some Align.center
      else none }

/-- The sample rule with an anchor and, optionally, an align value. -/
def sampleRuleAnchored (anchor : Str) (align : Option Str) : DrawRule :=
  { sampleRule none with anchor := some anchor, align := align }

/-- A text whose sample hash equals that of `"Main Street"`. -/
def sampleCollidingText : Str := [77, 97, 106, 102, 60, 27, 186, 58, 129, 93, 117]

/-- The label a feature call builds after a successful shaping pass of `params`
with the font `font`, when the quad buffer held `n` quads before the pass:
every field comes from the parameters, the shaper and the batch. -/
def shapedLabel (env : Env) (params : Parameters) (type : LabelType) (font : Font) (n : Nat)
    (transform : Vec2 × Vec2) : TextLabel :=
  let layout := shapedLayout env params font
  let drawn := drawLine env params type layout
  let aabb := drawn.2
  let bbox : Vec2 :=
    ⟨FloatVal.add binary32 aabb.x.abs aabb.z, FloatVal.add binary32 aabb.y.abs aabb.w⟩
  { transform := transform
    type := type
    options := params.labelOptions
    anchor := params.anchor
    fill := params.fill
    stroke := packStroke params.strokeColor
      (strokeAttrib (FloatVal.mul binary32 params.strokeWidth env.pixelScale)
        env.maxStrokeWidth)
    fontScale := fontScaleAttrib
      (FloatVal.div binary32 (FloatVal.mul binary32 params.fontSize env.pixelScale) font.size)
    dim := bbox
    metrics :=
      { descender := (env.lineDescent layout).neg
        ascender := env.lineAscent layout
        lineHeight := env.lineHeight layout }
    nLines := toInt32 (FloatVal.toInt (FloatVal.div binary32 bbox.y (env.lineHeight layout)))
    quadsLocalOrigin := ⟨aabb.x, aabb.y⟩
    quadRange :=
      ⟨toInt32 (toSizeT (((n + drawn.1.length : Nat) : Int) - bumpQuads 0 drawn.1.length)),
        bumpQuads 0 drawn.1.length⟩ }

/-- One call on the builder: `setup`, a feature, or `build`. -/
inductive Op where
  | setup (tileSize : FloatVal)
  | feature (f : Feature)
  | build
deriving DecidableEq, Repr

/-- The builder after one call; the mesh `build` returns is dropped. -/
def applyOp (env : Env) (b : TextStyleBuilder) : Op → Option TextStyleBuilder
  | Op.setup tileSize => some (setup b tileSize)
  | Op.feature f => ingest env b f
  | Op.build => (build b).map (fun r => r.2)

/-- The builder after a sequence of calls, in any interleaving. -/
def runOps (env : Env) (b : TextStyleBuilder) : List Op → Option TextStyleBuilder
  | [] => some b
  | op :: ops =>
    match applyOp env b op with
    | none => none
    | some b1 => runOps env b1 ops

/-- The sample environment with a wrapping algorithm that reports its
arguments: no glyph is drawn, and the returned box holds the maximum line
width, the minimum and the pixel scale. -/
def sampleEnvProbe : Env :=
  { sampleEnv with
    drawWithLineWrapping := fun _ maxLineWidth minimum _ pixelScale =>
      ([], ⟨maxLineWidth, minimum, 0, pixelScale⟩) }

/-- The sample builder after `setup`, a point feature, `build` and a second
`setup`: both sequences are empty, the quad counter still holds 3. -/
def sampleSecondTile : TextStyleBuilder :=
  (runOps sampleEnv freshBuilder
    [Op.setup 256, Op.feature (Feature.point samplePoint (sampleProps (str "ab c"))
      (sampleRule none)), Op.build, Op.setup 256]).getD freshBuilder

/-- The sample builder of the second tile after the sample line feature. -/
def sampleSecondTileLine : TextStyleBuilder :=
  (ingest sampleEnv sampleSecondTile
    (Feature.line sampleLine (sampleProps (str "ab c")) (sampleRule none))).getD freshBuilder

theorem pow2_eq (k : Int) : pow2 k = (2 : ℚ) ^ k := by
  unfold pow2
  split_ifs with h
  · obtain ⟨n, rfl⟩ := Int.eq_ofNat_of_zero_le h
    simp
  · have hk : k < 0 := by omega
    obtain ⟨n, hn⟩ := Int.eq_ofNat_of_zero_le (show 0 ≤ -k by omega)
    have : k = -(n : Int) := by omega
    subst this
    simp [zpow_neg]

theorem pow2_pos (k : Int) : 0 < pow2 k := by
  rw [pow2_eq]; positivity

theorem pow2_le_pow2 {a b : Int} (h : a ≤ b) : pow2 a ≤ pow2 b := by
  rw [pow2_eq, pow2_eq]
  exact zpow_le_zpow_right₀ (by norm_num) h

theorem pow2_add (a b : Int) : pow2 (a + b) = pow2 a * pow2 b := by
  rw [pow2_eq, pow2_eq, pow2_eq, zpow_add₀ (by norm_num)]

theorem log2Fuel_eq (fuel : Nat) : ∀ n, n ≤ fuel → log2Fuel fuel n = Nat.log2 n := by
  induction fuel with
  | zero =>
    intro n hn
    have : n = 0 := by omega
    subst this
    simp [log2Fuel, Nat.log2]
  | succ k ih =>
    intro n hn
    rw [log2Fuel, Nat.log2]
    by_cases h : n < 2
    · simp [h, not_le.mpr h]
    · have h2 : n ≥ 2 := not_lt.mp h
      rw [if_neg h, if_pos h2, ih (n / 2) (by omega)]

theorem natLog2_eq (n : Nat) : natLog2 n = Nat.log2 n := log2Fuel_eq n n le_rfl

theorem floorLog2_spec (q : ℚ) (hq : 0 < q) :
    pow2 (floorLog2 q) ≤ q ∧ q < pow2 (floorLog2 q + 1) := by
  have hnum : 0 < q.num := Rat.num_pos.mpr hq
  have ha : q.num.natAbs ≠ 0 := by omega
  have hb : q.den ≠ 0 := q.den_nz
  have ha1 := Nat.log2_self_le ha
  have ha2 : q.num.natAbs < 2 ^ (q.num.natAbs.log2 + 1) := (Nat.log2_lt ha).1 (Nat.lt_succ_self _)
  have hb1 := Nat.log2_self_le hb
  have hb2 : q.den < 2 ^ (q.den.log2 + 1) := (Nat.log2_lt hb).1 (Nat.lt_succ_self _)
  have hqe : q = (q.num.natAbs : ℚ) / (q.den : ℚ) := by
    have h1 : ((q.num.natAbs : Int) : ℚ) = (q.num : ℚ) := by
      rw [Int.natAbs_of_nonneg hnum.le]
    have h2 : (q.num.natAbs : ℚ) = (q.num : ℚ) := by
      rw [← h1, Int.cast_natCast]
    rw [h2]
    exact (Rat.num_div_den q).symm
  have hbpos : (0 : ℚ) < q.den := by exact_mod_cast Nat.pos_of_ne_zero hb
  set la := q.num.natAbs.log2
  set lb := q.den.log2
  have hA1 : (2 : ℚ) ^ la ≤ (q.num.natAbs : ℚ) := by exact_mod_cast ha1
  have hA2 : (q.num.natAbs : ℚ) < (2 : ℚ) ^ (la + 1) := by exact_mod_cast ha2
  have hB1 : (2 : ℚ) ^ lb ≤ (q.den : ℚ) := by exact_mod_cast hb1
  have hB2 : (q.den : ℚ) < (2 : ℚ) ^ (lb + 1) := by exact_mod_cast hb2
  -- bounds on q in terms of d
  have hup : q < (2 : ℚ) ^ (((la : Int) - (lb : Int)) + 1) := by
    have e : (2 : ℚ) ^ (((la : Int) - (lb : Int)) + 1) = (2 : ℚ) ^ (la + 1) / (2 : ℚ) ^ lb := by
      rw [show ((la : Int) - (lb : Int)) + 1 = ((la + 1 : Nat) : Int) - ((lb : Nat) : Int) by
        push_cast; ring]
      rw [zpow_sub₀ (by norm_num), zpow_natCast, zpow_natCast]
    rw [e, hqe, div_lt_div_iff₀ hbpos (by positivity)]
    calc (q.num.natAbs : ℚ) * 2 ^ lb < 2 ^ (la + 1) * 2 ^ lb := by
          apply mul_lt_mul_of_pos_right hA2 (by positivity)
      _ ≤ 2 ^ (la + 1) * q.den := by
          apply mul_le_mul_of_nonneg_left hB1 (by positivity)
  have hlow : (2 : ℚ) ^ (((la : Int) - (lb : Int)) - 1) < q := by
    have e : (2 : ℚ) ^ (((la : Int) - (lb : Int)) - 1) = (2 : ℚ) ^ la / (2 : ℚ) ^ (lb + 1) := by
      rw [show ((la : Int) - (lb : Int)) - 1 = ((la : Nat) : Int) - ((lb + 1 : Nat) : Int) by
        push_cast; ring]
      rw [zpow_sub₀ (by norm_num), zpow_natCast, zpow_natCast]
    rw [e, hqe, div_lt_div_iff₀ (by positivity) hbpos]
    calc (2 : ℚ) ^ la * q.den < 2 ^ la * 2 ^ (lb + 1) := by
          apply mul_lt_mul_of_pos_left hB2 (by positivity)
      _ ≤ q.num.natAbs * 2 ^ (lb + 1) := by
          apply mul_le_mul_of_nonneg_right hA1 (by positivity)
  unfold floorLog2
  simp only [natLog2_eq]
  split_ifs with h
  · exact ⟨h, by rw [pow2_eq]; exact hup⟩
  · rw [pow2_eq] at h
    push_neg at h
    refine ⟨by rw [pow2_eq]; exact hlow.le, ?_⟩
    rw [pow2_eq, sub_add_cancel]
    exact h

theorem floorLog2_mono (a b : ℚ) (ha : 0 < a) (hab : a ≤ b) : floorLog2 a ≤ floorLog2 b := by
  by_contra h
  push_neg at h
  have h1 := (floorLog2_spec a ha).1
  have h2 := (floorLog2_spec b (lt_of_lt_of_le ha hab)).2
  have h3 : pow2 (floorLog2 b + 1) ≤ pow2 (floorLog2 a) := pow2_le_pow2 (by omega)
  linarith

theorem roundHalfEven_bounds (x : ℚ) : ⌊x⌋ ≤ roundHalfEven x ∧ roundHalfEven x ≤ ⌊x⌋ + 1 := by
  unfold roundHalfEven
  split_ifs <;> constructor <;> omega

theorem roundHalfEven_intCast (n : Int) : roundHalfEven (n : ℚ) = n := by
  unfold roundHalfEven
  simp

theorem roundHalfEven_mono (a b : ℚ) (h : a ≤ b) : roundHalfEven a ≤ roundHalfEven b := by
  have hf : ⌊a⌋ ≤ ⌊b⌋ := Int.floor_le_floor h
  rcases lt_or_eq_of_le hf with hlt | heq
  · have := (roundHalfEven_bounds a).2
    have := (roundHalfEven_bounds b).1
    omega
  · have hfr : a - ⌊a⌋ ≤ b - ⌊b⌋ := by rw [heq]; linarith
    unfold roundHalfEven
    rw [heq]
    rw [heq] at hfr
    split_ifs <;> first | omega | (exfalso; linarith)

theorem roundHalfEven_le_of_le (x : ℚ) (n : Int) (h : x ≤ n) : roundHalfEven x ≤ n := by
  have := roundHalfEven_mono x n h
  rwa [roundHalfEven_intCast] at this

theorem roundHalfEven_ge_of_ge (x : ℚ) (n : Int) (h : (n : ℚ) ≤ x) : n ≤ roundHalfEven x := by
  have := roundHalfEven_mono n x h
  rwa [roundHalfEven_intCast] at this


theorem roundMag_nonneg (fmt : FloatFormat) (m : ℚ) : 0 ≤ roundMag fmt m := by
  unfold roundMag
  split_ifs with h
  · exact le_rfl
  · push_neg at h
    simp only []
    have hu := pow2_pos (max (floorLog2 m) fmt.emin - ((fmt.prec : Int) - 1))
    have h0 : (0 : Int) ≤ roundHalfEven (m / pow2 (max (floorLog2 m) fmt.emin - ((fmt.prec : Int) - 1))) :=
      roundHalfEven_ge_of_ge _ 0 (by simpa using div_nonneg h.le hu.le)
    have : (0 : ℚ) ≤ (roundHalfEven (m / pow2 (max (floorLog2 m) fmt.emin - ((fmt.prec : Int) - 1))) : ℚ) := by
      exact_mod_cast h0
    exact mul_nonneg this hu.le

theorem pow2_natCast (n : Nat) : pow2 (n : Int) = ((2 ^ n : Int) : ℚ) := by
  rw [pow2_eq]; push_cast; rw [zpow_natCast]

/-- A positive magnitude rounds to at most the next power of two above it. -/
theorem roundMag_le (fmt : FloatFormat) (m : ℚ) (hm : 0 < m) :
    roundMag fmt m ≤ pow2 (max (floorLog2 m) fmt.emin + 1) := by
  unfold roundMag
  rw [if_neg (not_le.mpr hm)]
  simp only []
  set e := max (floorLog2 m) fmt.emin
  set u := pow2 (e - ((fmt.prec : Int) - 1))
  have hu : 0 < u := pow2_pos _
  have h1 : m < pow2 (e + 1) :=
    lt_of_lt_of_le (floorLog2_spec m hm).2 (pow2_le_pow2 (by have := le_max_left (floorLog2 m) fmt.emin; omega))
  have h2 : pow2 (e + 1) = ((2 ^ fmt.prec : Int) : ℚ) * u := by
    rw [← pow2_natCast, ← pow2_add]
    congr 1
    ring
  have h3 : m / u ≤ ((2 ^ fmt.prec : Int) : ℚ) := by
    rw [div_le_iff₀ hu, ← h2]
    exact h1.le
  have h4 := roundHalfEven_le_of_le _ _ h3
  rw [h2]
  apply mul_le_mul_of_nonneg_right _ hu.le
  exact_mod_cast h4

/-- A normal magnitude rounds to at least the power of two below it. -/
theorem roundMag_ge (fmt : FloatFormat) (hp : 1 ≤ fmt.prec) (m : ℚ) (hm : 0 < m)
    (hn : fmt.emin ≤ floorLog2 m) : pow2 (floorLog2 m) ≤ roundMag fmt m := by
  unfold roundMag
  rw [if_neg (not_le.mpr hm)]
  simp only []
  rw [max_eq_left hn]
  set e := floorLog2 m
  set u := pow2 (e - ((fmt.prec : Int) - 1))
  have hu : 0 < u := pow2_pos _
  have h1 : pow2 e ≤ m := (floorLog2_spec m hm).1
  have h2 : pow2 e = ((2 ^ (fmt.prec - 1) : Int) : ℚ) * u := by
    rw [← pow2_natCast, ← pow2_add]
    congr 1
    have : ((fmt.prec - 1 : Nat) : Int) = (fmt.prec : Int) - 1 := by omega
    rw [this]
    ring
  have h3 : ((2 ^ (fmt.prec - 1) : Int) : ℚ) ≤ m / u := by
    rw [le_div_iff₀ hu, ← h2]
    exact h1
  have h4 := roundHalfEven_ge_of_ge _ _ h3
  rw [h2]
  apply mul_le_mul_of_nonneg_right _ hu.le
  exact_mod_cast h4

theorem roundMag_mono (fmt : FloatFormat) (hp : 1 ≤ fmt.prec) (a b : ℚ) (hab : a ≤ b) :
    roundMag fmt a ≤ roundMag fmt b := by
  by_cases ha : a ≤ 0
  · have : roundMag fmt a = 0 := by unfold roundMag; rw [if_pos ha]
    rw [this]
    exact roundMag_nonneg fmt b
  · push_neg at ha
    have hb : 0 < b := lt_of_lt_of_le ha hab
    have hfl := floorLog2_mono a b ha hab
    by_cases he : max (floorLog2 a) fmt.emin = max (floorLog2 b) fmt.emin
    · unfold roundMag
      rw [if_neg (not_le.mpr ha), if_neg (not_le.mpr hb)]
      simp only []
      rw [he]
      have hu := pow2_pos (max (floorLog2 b) fmt.emin - ((fmt.prec : Int) - 1))
      apply mul_le_mul_of_nonneg_right _ hu.le
      have := roundHalfEven_mono _ _ (div_le_div_of_nonneg_right hab hu.le)
      exact_mod_cast this
    · have hlt : max (floorLog2 a) fmt.emin < floorLog2 b := by
        rcases le_total (floorLog2 a) fmt.emin with h1 | h1 <;>
        rcases le_total (floorLog2 b) fmt.emin with h2 | h2
        · rw [max_eq_right h1, max_eq_right h2] at he
          exact absurd rfl he
        · rw [max_eq_right h1, max_eq_left h2] at he
          rw [max_eq_right h1]
          omega
        · rw [max_eq_left h1, max_eq_right h2] at he
          rw [max_eq_left h1]
          omega
        · rw [max_eq_left h1, max_eq_left h2] at he
          rw [max_eq_left h1]
          omega
      have hn : fmt.emin ≤ floorLog2 b := by
        have := le_max_right (floorLog2 a) fmt.emin
        omega
      calc roundMag fmt a ≤ pow2 (max (floorLog2 a) fmt.emin + 1) := roundMag_le fmt a ha
        _ ≤ pow2 (floorLog2 b) := pow2_le_pow2 (by omega)
        _ ≤ roundMag fmt b := roundMag_ge fmt hp b hb hn

theorem roundRat_zero (fmt : FloatFormat) : roundRat fmt 0 = 0 := by
  simp [roundRat, roundMag]

theorem roundRat_nonneg (fmt : FloatFormat) (q : ℚ) (h : 0 ≤ q) : 0 ≤ roundRat fmt q := by
  unfold roundRat
  rw [if_neg (not_lt.mpr h)]
  exact roundMag_nonneg fmt q

theorem roundRat_nonpos (fmt : FloatFormat) (q : ℚ) (h : q ≤ 0) : roundRat fmt q ≤ 0 := by
  unfold roundRat
  split_ifs with hq
  · have := roundMag_nonneg fmt (-q)
    linarith
  · have : roundMag fmt q = 0 := by unfold roundMag; rw [if_pos h]
    rw [this]

theorem roundRat_mono (fmt : FloatFormat) (hp : 1 ≤ fmt.prec) (a b : ℚ) (hab : a ≤ b) :
    roundRat fmt a ≤ roundRat fmt b := by
  by_cases hb : b < 0
  · have ha : a < 0 := lt_of_le_of_lt hab hb
    unfold roundRat
    rw [if_pos ha, if_pos hb]
    have := roundMag_mono fmt hp (-b) (-a) (by linarith)
    linarith
  · push_neg at hb
    by_cases ha : a < 0
    · exact le_trans (roundRat_nonpos fmt a ha.le) (roundRat_nonneg fmt b hb)
    · push_neg at ha
      unfold roundRat
      rw [if_neg (not_lt.mpr ha), if_neg (not_lt.mpr hb)]
      exact roundMag_mono fmt hp a b hab

namespace FloatVal

theorem val_zero (s : Bool) : (zero s).val = 0 := by
  cases s <;> rfl

theorem zero_ne_nan (s : Bool) : zero s ≠ nan := by
  cases s <;> simp [zero]

theorem ofRat_ne_nan (fmt : FloatFormat) (s : Bool) (q : ℚ) : ofRat fmt s q ≠ nan := by
  unfold ofRat
  split_ifs
  · simp
  · exact zero_ne_nan s
  · simp

theorem le_inf_true (x : FloatVal) (hx : x ≠ nan) : le (inf true) x = true := by
  cases x <;> simp [le, isNaN, isInf, signBit] at hx ⊢

theorem le_inf_false (x : FloatVal) (hx : x ≠ nan) : le x (inf false) = true := by
  cases x <;> simp [le, isNaN, isInf, signBit] at hx ⊢

theorem ne_nan_of_le_left {a b : FloatVal} (h : le a b = true) : a ≠ nan := by
  rintro rfl
  simp [le, isNaN] at h

theorem ne_nan_of_le_right {a b : FloatVal} (h : le a b = true) : b ≠ nan := by
  rintro rfl
  cases a <;> simp [le, isNaN] at h

theorem le_refl_of_ne_nan (a : FloatVal) (h : a ≠ nan) : le a a = true := by
  cases a <;> simp [le, isNaN, isInf, signBit, val] at h ⊢

theorem le_zero_left (s : Bool) (x : FloatVal) : le (zero s) x = le (fin 0) x := by
  cases s <;> cases x <;> simp [le, zero, val, isNaN, isInf, signBit]

theorem le_zero_right (s : Bool) (x : FloatVal) : le x (zero s) = le x (fin 0) := by
  cases s <;> cases x <;> simp [le, zero, val, isNaN, isInf, signBit]

/-- Rounding is monotone, through overflow and the signed zeros. -/
theorem le_ofRat_ofRat (fmt : FloatFormat) (hp : 1 ≤ fmt.prec) (s t : Bool) (p q : ℚ)
    (h : p ≤ q) : le (ofRat fmt s p) (ofRat fmt t q) = true := by
  have hm := roundRat_mono fmt hp p q h
  have hH := pow2_pos (fmt.emax + 1)
  have hpn : p < 0 → roundRat fmt p ≤ 0 := fun hp0 => roundRat_nonpos fmt p hp0.le
  have hpp : ¬ p < 0 → 0 ≤ roundRat fmt p := fun hp0 => roundRat_nonneg fmt p (not_lt.mp hp0)
  have hqn : q < 0 → roundRat fmt q ≤ 0 := fun hq0 => roundRat_nonpos fmt q hq0.le
  have hqp : ¬ q < 0 → 0 ≤ roundRat fmt q := fun hq0 => roundRat_nonneg fmt q (not_lt.mp hq0)
  unfold ofRat
  by_cases h1 : pow2 (fmt.emax + 1) ≤ |roundRat fmt p|
  · rw [if_pos h1]
    have hpneg : p < 0 ∨ pow2 (fmt.emax + 1) ≤ roundRat fmt p := by
      by_cases hp0 : p < 0
      · exact Or.inl hp0
      · right
        rwa [abs_of_nonneg (hpp hp0)] at h1
    by_cases h2 : pow2 (fmt.emax + 1) ≤ |roundRat fmt q|
    · rw [if_pos h2]
      rcases hpneg with hp0 | hbig
      · simp [le, isNaN, isInf, signBit, hp0]
      · have hq0 : ¬ q < 0 := by
          intro hq0
          have := hqn hq0
          linarith
        have hp0 : ¬ p < 0 := by
          intro hp0
          have := hpn hp0
          linarith
        simp [le, isNaN, isInf, signBit, hp0, hq0]
    · rw [if_neg h2]
      have hp0 : p < 0 := by
        rcases hpneg with hp0 | hbig
        · exact hp0
        · exfalso
          apply h2
          have : 0 ≤ roundRat fmt q := by linarith
          rw [abs_of_nonneg this]
          linarith
      split_ifs
      · rw [le_zero_right]
        simp [le, isNaN, isInf, signBit, hp0]
      · simp [le, isNaN, isInf, signBit, hp0]
  · rw [if_neg h1]
    by_cases h2 : pow2 (fmt.emax + 1) ≤ |roundRat fmt q|
    · rw [if_pos h2]
      have hq0 : ¬ q < 0 := by
        intro hq0
        have hq1 := hqn hq0
        rw [abs_of_nonpos hq1] at h2
        apply h1
        have : roundRat fmt p ≤ 0 := by linarith
        rw [abs_of_nonpos this]
        linarith
      split_ifs
      · rw [le_zero_left]
        simp [le, isNaN, isInf, signBit, hq0]
      · simp [le, isNaN, isInf, signBit, hq0]
    · rw [if_neg h2]
      split_ifs with h3 h4 h4
      · rw [le_zero_left, le_zero_right]
        simp [le, isNaN, isInf, val]
      · rw [le_zero_left]
        simp only [le, isNaN, isInf, val, Bool.or_self, Bool.false_eq_true, if_false, decide_eq_true_eq]
        rw [← h3]; exact hm
      · rw [le_zero_right]
        simp only [le, isNaN, isInf, val, Bool.or_self, Bool.false_eq_true, if_false, decide_eq_true_eq]
        rw [← h4]; exact hm
      · simp only [le, isNaN, isInf, val, Bool.or_self, Bool.false_eq_true, if_false, decide_eq_true_eq]
        exact hm

theorem le_nzero_fin (q : ℚ) : le nzero (fin q) = decide (0 ≤ q) := by
  simp [le, isNaN, isInf, val]

theorem le_fin_nzero (q : ℚ) : le (fin q) nzero = decide (q ≤ 0) := by
  simp [le, isNaN, isInf, val]

theorem le_fin_fin (p q : ℚ) : le (fin p) (fin q) = decide (p ≤ q) := by
  simp [le, isNaN, isInf, val]

theorem le_inf_left (s : Bool) (x : FloatVal) (h : le (inf s) x = true) (hx : ∀ t, x ≠ inf t) :
    s = true := by
  cases x with
  | nan => simp [le, isNaN] at h
  | inf t => exact absurd rfl (hx t)
  | nzero => simpa [le, isNaN, isInf, signBit] using h
  | fin q => simpa [le, isNaN, isInf, signBit] using h

theorem le_inf_right (t : Bool) (x : FloatVal) (h : le x (inf t) = true) (hx : ∀ s, x ≠ inf s) :
    t = false := by
  cases x with
  | nan => simp [le, isNaN] at h
  | inf s => exact absurd rfl (hx s)
  | nzero => simpa [le, isNaN, isInf, signBit] using h
  | fin q => simpa [le, isNaN, isInf, signBit] using h

/-- An operation that keeps the infinities and rounds a monotone function of
the finite values is monotone. -/
theorem mono_of_shape (fmt : FloatFormat) (hp : 1 ≤ fmt.prec) (F : FloatVal → FloatVal)
    (g : ℚ → ℚ) (sg : FloatVal → Bool) (hg : ∀ x y, x ≤ y → g x ≤ g y)
    (hinf : ∀ s, F (inf s) = inf s)
    (hnz : F nzero = ofRat fmt (sg nzero) (g 0))
    (hfin : ∀ a, F (fin a) = ofRat fmt (sg (fin a)) (g a))
    (a b : FloatVal) (h : le a b = true) : le (F a) (F b) = true := by
  cases a with
  | nan => simp [le, isNaN] at h
  | inf s =>
    cases b with
    | nan => simp [le, isNaN] at h
    | inf t => rw [hinf, hinf]; exact h
    | nzero =>
      have hs := le_inf_left s nzero h (by simp)
      subst hs
      rw [hinf, hnz]
      exact le_inf_true _ (ofRat_ne_nan _ _ _)
    | fin q =>
      have hs := le_inf_left s (fin q) h (by simp)
      subst hs
      rw [hinf, hfin]
      exact le_inf_true _ (ofRat_ne_nan _ _ _)
  | nzero =>
    cases b with
    | nan => simp [le, isNaN] at h
    | inf t =>
      have ht := le_inf_right t nzero h (by simp)
      subst ht
      rw [hinf, hnz]
      exact le_inf_false _ (ofRat_ne_nan _ _ _)
    | nzero => rw [hnz]; exact le_ofRat_ofRat fmt hp _ _ _ _ le_rfl
    | fin q =>
      rw [le_nzero_fin, decide_eq_true_eq] at h
      rw [hnz, hfin]
      exact le_ofRat_ofRat fmt hp _ _ _ _ (hg _ _ h)
  | fin p =>
    cases b with
    | nan => simp [le, isNaN] at h
    | inf t =>
      have ht := le_inf_right t (fin p) h (by simp)
      subst ht
      rw [hinf, hfin]
      exact le_inf_false _ (ofRat_ne_nan _ _ _)
    | nzero =>
      rw [le_fin_nzero, decide_eq_true_eq] at h
      rw [hnz, hfin]
      exact le_ofRat_ofRat fmt hp _ _ _ _ (hg _ _ h)
    | fin q =>
      rw [le_fin_fin, decide_eq_true_eq] at h
      rw [hfin, hfin]
      exact le_ofRat_ofRat fmt hp _ _ _ _ (hg _ _ h)

theorem div_inf_fin (fmt : FloatFormat) (s : Bool) (m : ℚ) (hm : 0 < m) :
    div fmt (inf s) (fin m) = inf s := by
  simp [div, isNaN, isInf, signBit, not_lt.mpr hm.le]

theorem div_nzero_fin (fmt : FloatFormat) (m : ℚ) (hm : 0 < m) :
    div fmt nzero (fin m) = ofRat fmt true (0 / m) := by
  simp [div, isNaN, isInf, signBit, isZero, val, not_lt.mpr hm.le, hm.ne']

theorem div_fin_fin (fmt : FloatFormat) (a m : ℚ) (hm : 0 < m) :
    div fmt (fin a) (fin m) = ofRat fmt (decide (a < 0)) (a / m) := by
  simp [div, isNaN, isInf, signBit, isZero, not_lt.mpr hm.le, hm.ne', val]

theorem mul_inf_fin (fmt : FloatFormat) (s : Bool) (c : ℚ) (hc : 0 < c) :
    mul fmt (inf s) (fin c) = inf s := by
  simp [mul, isNaN, isInf, signBit, isZero, not_lt.mpr hc.le, hc.ne']

theorem mul_nzero_fin (fmt : FloatFormat) (c : ℚ) (hc : 0 < c) :
    mul fmt nzero (fin c) = ofRat fmt true (0 * c) := by
  simp [mul, isNaN, isInf, signBit, not_lt.mpr hc.le, val]

theorem mul_fin_fin (fmt : FloatFormat) (a c : ℚ) :
    mul fmt (fin a) (fin c) = ofRat fmt (xor (decide (a < 0)) (decide (c < 0))) (a * c) := by
  simp [mul, isNaN, isInf, signBit, val]

/-- Division by a positive finite number is monotone. -/
theorem div_mono (fmt : FloatFormat) (hp : 1 ≤ fmt.prec) (m : ℚ) (hm : 0 < m) (a b : FloatVal)
    (h : le a b = true) : le (div fmt a (fin m)) (div fmt b (fin m)) = true :=
  mono_of_shape fmt hp (fun x => div fmt x (fin m)) (fun x => x / m) signBit
    (fun _ _ hxy => div_le_div_of_nonneg_right hxy hm.le)
    (fun s => div_inf_fin fmt s m hm) (div_nzero_fin fmt m hm)
    (fun a => div_fin_fin fmt a m hm) a b h

/-- Multiplication by a positive finite number is monotone. -/
theorem mul_mono (fmt : FloatFormat) (hp : 1 ≤ fmt.prec) (c : ℚ) (hc : 0 < c) (a b : FloatVal)
    (h : le a b = true) : le (mul fmt a (fin c)) (mul fmt b (fin c)) = true :=
  mono_of_shape fmt hp (fun x => mul fmt x (fin c)) (fun x => x * c) signBit
    (fun _ _ hxy => mul_le_mul_of_nonneg_right hxy hc.le)
    (fun s => mul_inf_fin fmt s c hc) (mul_nzero_fin fmt c hc)
    (fun a => by
      show mul fmt (fin a) (fin c) = _
      rw [mul_fin_fin]
      simp [signBit, not_lt.mpr hc.le]) a b h

theorem mul_symm (fmt : FloatFormat) (a b : FloatVal) : mul fmt a b = mul fmt b a := by
  cases a <;> cases b <;> simp [mul, isNaN, isInf, isZero, signBit, val, Bool.xor_comm, mul_comm]

end FloatVal

theorem toupper_zero : toupper 0 = 0 := by decide

theorem tolower_zero : tolower 0 = 0 := by decide

theorem toupper_idem (c : Nat) : toupper (toupper c) = toupper c := by
  unfold toupper; split_ifs <;> omega

theorem tolower_idem (c : Nat) : tolower (tolower c) = tolower c := by
  unfold tolower; split_ifs <;> omega

theorem toupper_eq_space (c : Nat) : toupper c = 32 ↔ c = 32 := by
  unfold toupper; split_ifs <;> omega

theorem charAt_of_length_le (t : Str) (i : Nat) (h : t.length ≤ i) : charAt t i = 0 := by
  simp [charAt, List.getD_eq_getElem?_getD, List.getElem?_eq_none h]

/-- Writing `f (text[i])` at `i`, for an `f` fixing the terminator. -/
theorem charAt_set_map (f : Nat → Nat) (hf : f 0 = 0) (t : Str) (i j : Nat) :
    charAt (t.set i (f (charAt t i))) j = if i = j then f (charAt t j) else charAt t j := by
  by_cases hij : i = j
  · subst hij
    by_cases hi : i < t.length
    · simp [charAt, List.getD_eq_getElem?_getD, List.getElem?_set, hi]
    · have h1 : charAt t i = 0 := charAt_of_length_le t i (by omega)
      have h2 : charAt (t.set i (f (charAt t i))) i = 0 :=
        charAt_of_length_le _ i (by simp; omega)
      rw [h2, if_pos rfl, h1, hf]
  · simp [charAt, List.getD_eq_getElem?_getD, List.getElem?_set, hij]

theorem str_ext (a b : Str) (hl : a.length = b.length)
    (h : ∀ i, i < a.length → charAt a i = charAt b i) : a = b := by
  apply List.ext_getElem hl
  intro i h1 h2
  have := h i h1
  simpa [charAt, List.getD_eq_getElem?_getD, List.getElem?_eq_getElem, h1, h2] using this

/-- The uniform loops: every index in `[lo, lo + n)` is rewritten by `f`. -/
theorem mapLoop_spec (f : Nat → Nat) (hf : f 0 = 0) (n : Nat) :
    ∀ (lo : Nat) (t : Str),
      ((List.range' lo n).foldl (fun t i => t.set i (f (charAt t i))) t).length = t.length ∧
      ∀ j, charAt ((List.range' lo n).foldl (fun t i => t.set i (f (charAt t i))) t) j
        = if lo ≤ j ∧ j < lo + n then f (charAt t j) else charAt t j := by
  induction n with
  | zero =>
    intro lo t
    refine ⟨by simp, fun j => ?_⟩
    simp only [List.range', List.foldl_nil]
    rw [if_neg (by omega)]
  | succ n ih =>
    intro lo t
    simp only [List.range'_succ, List.foldl_cons]
    obtain ⟨h1, h2⟩ := ih (lo + 1) (t.set lo (f (charAt t lo)))
    refine ⟨by rw [h1]; simp, ?_⟩
    intro j
    rw [h2 j, charAt_set_map f hf]
    by_cases hj : lo = j
    · subst hj; simp
    · simp only [hj, if_false]
      have e : (lo + 1 ≤ j ∧ j < lo + 1 + n) ↔ (lo ≤ j ∧ j < lo + (n + 1)) := by omega
      simp only [e]

theorem capitalizeBody_length (t : Str) (i : Nat) : (capitalizeBody t i).length = t.length := by
  unfold capitalizeBody; split_ifs <;> simp

theorem charAt_capitalizeBody (t : Str) (i j : Nat) :
    charAt (capitalizeBody t i) j
      = if i = j ∧ charAt t (i - 1) = 32 then toupper (charAt t j) else charAt t j := by
  unfold capitalizeBody
  by_cases h : charAt t (i - 1) = 32
  · simp only [h, if_true, and_true]; exact charAt_set_map toupper toupper_zero t i j
  · simp [h]

/-- The capitalize loop from index `lo ≥ 1`: position `j` in `[lo, lo + n)` is
raised exactly when the input holds a space at `j - 1`. -/
theorem capitalizeLoop_spec (n : Nat) :
    ∀ (lo : Nat) (t : Str), 1 ≤ lo →
      ((List.range' lo n).foldl capitalizeBody t).length = t.length ∧
      ∀ j, charAt ((List.range' lo n).foldl capitalizeBody t) j
        = if lo ≤ j ∧ j < lo + n ∧ charAt t (j - 1) = 32 then toupper (charAt t j)
          else charAt t j := by
  induction n with
  | zero =>
    intro lo t _
    refine ⟨by simp, fun j => ?_⟩
    simp only [List.range', List.foldl_nil]
    rw [if_neg (by omega)]
  | succ n ih =>
    intro lo t hlo
    simp only [List.range'_succ, List.foldl_cons]
    obtain ⟨h1, h2⟩ := ih (lo + 1) (capitalizeBody t lo) (by omega)
    refine ⟨by rw [h1, capitalizeBody_length], ?_⟩
    intro j
    rw [h2 j, charAt_capitalizeBody, charAt_capitalizeBody]
    by_cases hj : lo = j
    · subst hj
      have : ¬ (lo + 1 ≤ lo) := by omega
      simp [this]
    · by_cases hlt : lo + 1 ≤ j ∧ j < lo + 1 + n
      · have hsp : (if lo = j - 1 ∧ charAt t (lo - 1) = 32 then toupper (charAt t (j - 1))
            else charAt t (j - 1)) = 32 ↔ charAt t (j - 1) = 32 := by
          split_ifs with hc
          · exact toupper_eq_space _
          · exact Iff.rfl
        have e1 : lo ≤ j ∧ j < lo + (n + 1) := by omega
        simp only [hj, false_and, if_false, hlt, e1, true_and, hsp]
      · have e1 : ¬ (lo ≤ j ∧ j < lo + (n + 1)) := by omega
        have e2 : ¬ (lo + 1 ≤ j ∧ j < lo + 1 + n ∧
            (if lo = j - 1 ∧ charAt t (lo - 1) = 32 then toupper (charAt t (j - 1))
              else charAt t (j - 1)) = 32) := by tauto
        have e3 : ¬ (lo ≤ j ∧ j < lo + (n + 1) ∧ charAt t (j - 1) = 32) := by tauto
        simp only [hj, false_and, if_false, e2, e3]

theorem applyTextTransform_char (p : Parameters) (s : Str) :
    (applyTextTransform p s).length = s.length ∧
    ∀ i, charAt (applyTextTransform p s) i = transformedChar p.transform s i := by
  unfold applyTextTransform transformedChar forRange
  cases htr : p.transform with
  | none => simp
  | uppercase =>
    obtain ⟨h1, h2⟩ := mapLoop_spec toupper toupper_zero (s.length - 0) 0 s
    refine ⟨h1, fun i => ?_⟩
    simp only []
    rw [h2 i]
    by_cases hi : i < s.length
    · rw [if_pos (by omega)]
    · rw [if_neg (by omega), charAt_of_length_le s i (by omega), toupper_zero]
  | lowercase =>
    obtain ⟨h1, h2⟩ := mapLoop_spec tolower tolower_zero (s.length - 0) 0 s
    refine ⟨h1, fun i => ?_⟩
    simp only []
    rw [h2 i]
    by_cases hi : i < s.length
    · rw [if_pos (by omega)]
    · rw [if_neg (by omega), charAt_of_length_le s i (by omega), tolower_zero]
  | capitalize =>
    simp only []
    have h0 := charAt_set_map toupper toupper_zero s 0
    have hl : (s.set 0 (toupper (charAt s 0))).length = s.length := by simp
    split_ifs with hlen
    · obtain ⟨h1, h2⟩ := capitalizeLoop_spec ((s.set 0 (toupper (charAt s 0))).length - 1) 1
        (s.set 0 (toupper (charAt s 0))) (le_refl 1)
      refine ⟨by rw [h1, hl], fun i => ?_⟩
      rw [h2 i, h0 i, h0 (i - 1), hl]
      by_cases hi0 : i = 0
      · subst hi0; simp
      · by_cases hi : i < s.length
        · have hsp : (if 0 = i - 1 then toupper (charAt s (i - 1)) else charAt s (i - 1)) = 32
              ↔ charAt s (i - 1) = 32 := by
            split_ifs
            · exact toupper_eq_space _
            · exact Iff.rfl
          have e1 : 1 ≤ i ∧ i < 1 + (s.length - 1) := by omega
          have e2 : ¬ (0 = i) := by omega
          simp only [e1, true_and, hsp, e2, if_false, hi0, false_or]
        · have hz := charAt_of_length_le s i (by omega)
          have e2 : ¬ (0 = i) := by omega
          simp only [hz, toupper_zero, e2, if_false, ite_self]
    · refine ⟨hl, fun i => ?_⟩
      rw [h0 i]
      by_cases hi0 : i = 0
      · subst hi0; simp
      · have hz := charAt_of_length_le s i (by rw [hl] at hlen; omega)
        have e2 : ¬ (0 = i) := by omega
        simp only [hz, toupper_zero, e2, if_false, ite_self]

theorem applyTextTransform_idem (p : Parameters) (s : Str) :
    applyTextTransform p (applyTextTransform p s) = applyTextTransform p s := by
  obtain ⟨l1, c1⟩ := applyTextTransform_char p s
  obtain ⟨l2, c2⟩ := applyTextTransform_char p (applyTextTransform p s)
  apply str_ext _ _ (by rw [l2])
  intro i _
  rw [c2 i, c1 i]
  unfold transformedChar
  cases htr : p.transform with
  | none => simp only []; rw [c1 i, htr]; rfl
  | uppercase => simp only []; rw [c1 i, htr]; simp only [transformedChar]; exact toupper_idem _
  | lowercase => simp only []; rw [c1 i, htr]; simp only [transformedChar]; exact tolower_idem _
  | capitalize =>
    simp only []
    rw [c1 i, c1 (i - 1), htr]
    simp only [transformedChar]
    have hsp : (if i - 1 = 0 ∨ charAt s (i - 1 - 1) = 32 then toupper (charAt s (i - 1))
        else charAt s (i - 1)) = 32 ↔ charAt s (i - 1) = 32 := by
      split_ifs
      · exact toupper_eq_space _
      · exact Iff.rfl
    simp only [hsp]
    split_ifs
    · exact toupper_idem _
    · rfl

theorem truncToInt_of_nonneg (q : ℚ) (h : 0 ≤ q) : truncToInt q = ⌊q⌋ := by
  simp [truncToInt, h]

theorem toUInt32_of_lt (n : Int) (h0 : 0 ≤ n) (h : n < 2 ^ 32) : (toUInt32 n : Int) = n := by
  unfold toUInt32
  rw [Int.emod_eq_of_lt h0 h, Int.toNat_of_nonneg h0]

theorem packStroke_props (c a : Nat) (ha : a ≤ 255) :
    (c &&& 0x00ffffff) + (a <<< 24) < 2 ^ 32 ∧
    packStroke c a = (c &&& 0x00ffffff) + (a <<< 24) ∧
    packStroke c a % 2 ^ 24 = c % 2 ^ 24 ∧
    packStroke c a / 2 ^ 24 = a := by
  have h1 : c &&& 0x00ffffff = c % 2 ^ 24 := by
    have := Nat.and_pow_two_sub_one_eq_mod c 24
    simpa using this
  have h2 : a <<< 24 = a * 2 ^ 24 := Nat.shiftLeft_eq a 24
  unfold packStroke
  rw [h1, h2]
  have h3 : c % 2 ^ 24 < 2 ^ 24 := Nat.mod_lt _ (by norm_num)
  norm_num at h3 ⊢
  omega

theorem toInt32_of_range (n : Int) (h0 : 0 ≤ n) (h : n < 2 ^ 31) : toInt32 n = n := by
  unfold toInt32; omega

theorem toSizeT_of_range (n : Int) (h0 : 0 ≤ n) (h : n < 2 ^ 64) : (toSizeT n : Int) = n := by
  unfold toSizeT
  rw [Int.emod_eq_of_lt h0 h, Int.toNat_of_nonneg h0]

theorem bumpQuads_of_range (k : Nat) : ∀ n : Int, 0 ≤ n → n + k < 2 ^ 31 →
    bumpQuads n k = n + k := by
  induction k with
  | zero => intro n _ _; simp [bumpQuads]
  | succ k ih =>
    intro n h0 h
    have h1 : toInt32 (n + 1) = n + 1 := toInt32_of_range _ (by omega) (by push_cast at h; omega)
    simp only [bumpQuads, h1]
    rw [ih (n + 1) (by omega) (by push_cast at h ⊢; omega)]
    push_cast; ring

theorem foldl_drawGlyph (env : Env) (draws : List GlyphDraw) : ∀ s : ScratchBuffer,
    draws.foldl (ScratchBuffer.drawGlyph env) s =
      { s with
        numQuads := bumpQuads s.numQuads draws.length
        quads := s.quads ++ draws.map (glyphQuad env) } := by
  induction draws with
  | nil => intro s; simp [bumpQuads]
  | cons d ds ih =>
    intro s
    simp only [List.foldl_cons, ih, ScratchBuffer.drawGlyph, List.length_cons, bumpQuads,
      List.map_cons, List.append_assoc, List.singleton_append]

theorem prepareLabel_early (env : Env) (b : TextStyleBuilder) (params : Parameters)
    (type : LabelType) (h : params.text = [] ∨ params.fontSize ≤ 0) :
    prepareLabel env b params type = some (false, b) := by
  unfold prepareLabel; rw [if_pos h]

theorem prepareLabel_noShapes (env : Env) (b : TextStyleBuilder) (params : Parameters)
    (type : LabelType) (font : Font) (hf : params.font = some font)
    (h : ¬ (params.text = [] ∨ params.fontSize ≤ 0))
    (hs : (env.shape font (renderText params)).shapes.length = 0) :
    ∃ b', prepareLabel env b params type = some (false, b') ∧
      b'.m_scratch.quads = b.m_scratch.quads ∧ b'.m_scratch.labels = b.m_scratch.labels ∧
      b'.m_tileSize = b.m_tileSize ∧ b'.m_textLabels = b.m_textLabels := by
  unfold prepareLabel
  rw [if_neg h]
  simp only [hf, hs, if_true]
  exact ⟨_, rfl, rfl, rfl, rfl, rfl⟩

theorem prepareLabel_shaped (env : Env) (b : TextStyleBuilder) (params : Parameters)
    (type : LabelType) (font : Font) (hf : params.font = some font)
    (h : ¬ (params.text = [] ∨ params.fontSize ≤ 0))
    (hs : (env.shape font (renderText params)).shapes.length ≠ 0) :
    ∃ b', prepareLabel env b params type = some (true, b') ∧
      b'.m_scratch.quads
        = b.m_scratch.quads ++ (glyphDraws env params type font).map (glyphQuad env) ∧
      b'.m_scratch.labels = b.m_scratch.labels ∧
      b'.m_scratch.numQuads = bumpQuads 0 (glyphDraws env params type font).length ∧
      b'.m_scratch.bbox = shapedBBox env params type font ∧
      b'.m_tileSize = b.m_tileSize ∧ b'.m_textLabels = b.m_textLabels := by
  unfold prepareLabel
  rw [if_neg h]
  simp only [hf, hs, if_false, foldl_drawGlyph]
  exact ⟨_, rfl, rfl, rfl, rfl, rfl, rfl, rfl⟩

theorem resolveScalars_text_font (rule : DrawRule) (p : Parameters) :
    (resolveScalars rule p).text = p.text ∧ (resolveScalars rule p).font = p.font := ⟨rfl, rfl⟩

theorem resolveRepeat_text_font (env : Env) (rule : DrawRule) (p : Parameters) :
    (resolveRepeat env rule p).text = p.text ∧ (resolveRepeat env rule p).font = p.font :=
  ⟨rfl, rfl⟩

theorem resolveInteractive_text_font (rule : DrawRule) (props : Properties) (p : Parameters) :
    (resolveInteractive rule props p).text = p.text ∧
    (resolveInteractive rule props p).font = p.font := by
  unfold resolveInteractive
  constructor <;> (simp only []; split_ifs <;> rfl)

theorem resolveAnchorAlign_text_font (env : Env) (rule : DrawRule) (p : Parameters) :
    (resolveAnchorAlign env rule p).text = p.text ∧
    (resolveAnchorAlign env rule p).font = p.font := by
  unfold resolveAnchorAlign
  cases rule.anchor <;> cases rule.transform <;> cases rule.align <;> simp only [] <;>
    first
    | exact ⟨rfl, rfl⟩
    | exact ⟨trivial, trivial⟩
    | (split <;> exact ⟨rfl, rfl⟩)

theorem resolveGlobal_text_font (env : Env) (p : Parameters) :
    (resolveGlobal env p).text = p.text ∧ (resolveGlobal env p).font = p.font := ⟨rfl, rfl⟩

theorem resolveFont_text_font (env : Env) (rule : DrawRule) (p : Parameters) :
    (resolveFont env rule p).text = p.text ∧ ∃ font, (resolveFont env rule p).font = some font :=
  ⟨rfl, _, rfl⟩

theorem applyRule_text (env : Env) (rule : DrawRule) (props : Properties) :
    (applyRule env rule props).text = resolvedText env rule props := by
  unfold applyRule resolvedText
  simp only []
  split_ifs with h
  · rfl
  · rw [(resolveGlobal_text_font _ _).1, (resolveAnchorAlign_text_font _ _ _).1,
      (resolveInteractive_text_font _ _ _).1, (resolveRepeat_text_font _ _ _).1,
      (resolveScalars_text_font _ _).1, (resolveFont_text_font _ _ _).1]

theorem applyRule_font (env : Env) (rule : DrawRule) (props : Properties)
    (h : (applyRule env rule props).text ≠ []) :
    ∃ font, (applyRule env rule props).font = some font := by
  rw [applyRule_text] at h
  unfold applyRule
  simp only []
  rw [if_neg (show ¬ (resolveText rule props (Parameters.default env)).text = [] from h)]
  rw [(resolveGlobal_text_font _ _).2, (resolveAnchorAlign_text_font _ _ _).2,
      (resolveInteractive_text_font _ _ _).2, (resolveRepeat_text_font _ _ _).2,
      (resolveScalars_text_font _ _).2]
  exact (resolveFont_text_font _ _ _).2

theorem addLabel_eq (b : TextStyleBuilder) (params : Parameters) (type : LabelType)
    (transform : Vec2 × Vec2) :
    addLabel b params type transform = withLabels b [labelOf b.m_scratch params type transform] :=
  rfl

theorem withLabels_nil (b : TextStyleBuilder) : withLabels b [] = b := by
  simp [withLabels]

theorem withLabels_withLabels (b : TextStyleBuilder) (l1 l2 : List TextLabel) :
    withLabels (withLabels b l1) l2 = withLabels b (l1 ++ l2) := by
  simp [withLabels]

theorem labelOf_withLabels (b : TextStyleBuilder) (ls : List TextLabel) (params : Parameters)
    (type : LabelType) (transform : Vec2 × Vec2) :
    labelOf (withLabels b ls).m_scratch params type transform
      = labelOf b.m_scratch params type transform := rfl

theorem segments_getElem? (l : Line) (i : Nat) (h : i + 1 < l.length) :
    ∃ a c, l[i]? = some a ∧ l[i + 1]? = some c ∧
      (segments l).drop i = (a, c) :: (segments l).drop (i + 1) := by
  have hi : i < l.length := by omega
  have hz : i < (segments l).length := by simp [segments]; omega
  refine ⟨l[i], l[i + 1], List.getElem?_eq_getElem hi, List.getElem?_eq_getElem h, ?_⟩
  rw [List.drop_eq_getElem_cons hz]
  congr 1
  simp [segments, List.getElem_zip]

theorem addLineLoop_spec (env : Env) (params : Parameters) (l : Line) (minLength : FloatVal) :
    ∀ (n i : Nat) (b : TextStyleBuilder), i + n < l.length →
      addLineLoop env params l minLength n i b
        = some (withLabels b
            (lineLabels env b.m_scratch params minLength (((segments l).drop i).take n))) := by
  intro n
  induction n with
  | zero => intro i b _; simp [addLineLoop, lineLabels, withLabels_nil]
  | succ n ih =>
    intro i b h
    obtain ⟨a, c, ha, hc, hd⟩ := segments_getElem? l i (by omega)
    simp only [addLineLoop, ha, hc]
    rw [ih (i + 1) _ (by omega), hd, List.take_succ_cons]
    by_cases hq : env.length (a.toVec2.sub c.toVec2) > minLength
    · have hq2 : qualifies env minLength (a, c) = true := by simp [qualifies, hq]
      simp only [hq, if_true, addLabel_eq, withLabels_withLabels, lineLabels,
        List.filter_cons, hq2, List.map_cons, List.singleton_append]
      rfl
    · have hq2 : qualifies env minLength (a, c) = false := by simp [qualifies, hq]
      simp only [hq, if_false, lineLabels, List.filter_cons, hq2]
      rfl

theorem addLineLoop_empty (env : Env) (params : Parameters) (minLength : FloatVal)
    (b : TextStyleBuilder) :
    addLineLoop env params [] minLength (toSizeT (((([] : Line).length : Nat) : Int) - 1)) 0 b
      = none := by
  have : toSizeT (((([] : Line).length : Nat) : Int) - 1) = (2 ^ 64 - 2) + 1 := by
    simp [toSizeT]
  rw [this]
  simp [addLineLoop]

theorem prepareLabel_effect (env : Env) (b : TextStyleBuilder) (params : Parameters)
    (type : LabelType) (r : Bool) (b1 : TextStyleBuilder)
    (h : prepareLabel env b params type = some (r, b1)) :
    b1.m_tileSize = b.m_tileSize ∧ b1.m_textLabels = b.m_textLabels ∧
    b1.m_scratch.labels = b.m_scratch.labels ∧
    ∃ draws : List GlyphDraw,
      b1.m_scratch.quads = b.m_scratch.quads ++ draws.map (glyphQuad env) ∧
      (r = true → b1.m_scratch.numQuads = bumpQuads 0 draws.length) := by
  by_cases he : params.text = [] ∨ params.fontSize ≤ 0
  · rw [prepareLabel_early env b params type he] at h
    simp only [Option.some.injEq, Prod.mk.injEq] at h
    obtain ⟨hr, hb⟩ := h
    subst hb
    refine ⟨rfl, rfl, rfl, [], by simp, ?_⟩
    intro hr2; rw [hr2] at hr; cases hr
  · cases hf : params.font with
    | none =>
      unfold prepareLabel at h
      rw [if_neg he] at h
      simp [hf] at h
    | some font =>
      by_cases hs : (env.shape font (renderText params)).shapes.length = 0
      · obtain ⟨b', hp, hq, hl, ht, hm⟩ := prepareLabel_noShapes env b params type font hf he hs
        rw [hp] at h
        simp only [Option.some.injEq, Prod.mk.injEq] at h
        obtain ⟨hr, hb⟩ := h
        subst hb
        refine ⟨ht, hm, hl, [], by simp [hq], ?_⟩
        intro hr2; rw [hr2] at hr; cases hr
      · obtain ⟨b', hp, hq, hl, hn, _, ht, hm⟩ :=
          prepareLabel_shaped env b params type font hf he hs
        rw [hp] at h
        simp only [Option.some.injEq, Prod.mk.injEq] at h
        obtain ⟨_, hb⟩ := h
        subst hb
        exact ⟨ht, hm, hl, _, hq, fun _ => hn⟩

theorem prepareLabel_applyRule_isSome (env : Env) (b : TextStyleBuilder) (rule : DrawRule)
    (props : Properties) (type : LabelType) :
    ∃ r b1, prepareLabel env b (applyRule env rule props) type = some (r, b1) := by
  by_cases he : (applyRule env rule props).text = [] ∨ (applyRule env rule props).fontSize ≤ 0
  · exact ⟨_, _, prepareLabel_early env b _ type he⟩
  · obtain ⟨font, hf⟩ := applyRule_font env rule props (fun h => he (Or.inl h))
    by_cases hs : (env.shape font (renderText (applyRule env rule props))).shapes.length = 0
    · obtain ⟨b', hp, _⟩ := prepareLabel_noShapes env b _ type font hf he hs
      exact ⟨_, _, hp⟩
    · obtain ⟨b', hp, _⟩ := prepareLabel_shaped env b _ type font hf he hs
      exact ⟨_, _, hp⟩

theorem addPoint_of_false (env : Env) (b b1 : TextStyleBuilder) (point : Point)
    (props : Properties) (rule : DrawRule)
    (h : prepareLabel env b (applyRule env rule props) LabelType.point = some (false, b1)) :
    addPoint env b point props rule = some b1 := by
  unfold addPoint; simp only [h]

theorem addPoint_of_true (env : Env) (b b1 : TextStyleBuilder) (point : Point)
    (props : Properties) (rule : DrawRule)
    (h : prepareLabel env b (applyRule env rule props) LabelType.point = some (true, b1)) :
    addPoint env b point props rule
      = some (withLabels b1 [labelOf b1.m_scratch (applyRule env rule props) LabelType.point
          (point.toVec2, point.toVec2)]) := by
  unfold addPoint; simp only [h, addLabel_eq]

theorem addLine_of_false (env : Env) (b b1 : TextStyleBuilder) (l : Line)
    (props : Properties) (rule : DrawRule)
    (h : prepareLabel env b (applyRule env rule props) LabelType.line = some (false, b1)) :
    addLine env b l props rule = some b1 := by
  unfold addLine; simp only [h]

theorem toSizeT_pred_length (l : Line) (hne : l ≠ []) :
    toSizeT ((l.length : Int) - 1) < l.length := by
  have hpos : 0 < l.length := List.length_pos.mpr hne
  unfold toSizeT
  omega

theorem addLine_of_true_take (env : Env) (b b1 : TextStyleBuilder) (l : Line)
    (props : Properties) (rule : DrawRule) (hne : l ≠ [])
    (h : prepareLabel env b (applyRule env rule props) LabelType.line = some (true, b1)) :
    addLine env b l props rule
      = some (withLabels b1 (lineLabels env b1.m_scratch (applyRule env rule props)
          (minLengthOf env b1) ((segments l).take (toSizeT ((l.length : Int) - 1))))) := by
  unfold addLine
  simp only [h]
  rw [addLineLoop_spec env _ l _ _ 0 b1 (by have := toSizeT_pred_length l hne; omega)]
  rw [List.drop_zero]
  rfl

theorem addLine_of_true (env : Env) (b b1 : TextStyleBuilder) (l : Line)
    (props : Properties) (rule : DrawRule) (hne : l ≠ []) (hlen : l.length < 2 ^ 64)
    (h : prepareLabel env b (applyRule env rule props) LabelType.line = some (true, b1)) :
    addLine env b l props rule
      = some (withLabels b1 (lineLabels env b1.m_scratch (applyRule env rule props)
          (minLengthOf env b1) (segments l))) := by
  have hpos : 0 < l.length := List.length_pos.mpr hne
  have hb : toSizeT ((l.length : Int) - 1) = l.length - 1 := by
    have h1 := toSizeT_of_range ((l.length : Int) - 1) (by omega) (by omega)
    omega
  have hz : (segments l).length = l.length - 1 := by simp [segments]
  rw [addLine_of_true_take env b b1 l props rule hne h, hb,
    List.take_of_length_le (by omega)]

theorem addLine_of_true_empty (env : Env) (b b1 : TextStyleBuilder)
    (props : Properties) (rule : DrawRule)
    (h : prepareLabel env b (applyRule env rule props) LabelType.line = some (true, b1)) :
    addLine env b [] props rule = none := by
  unfold addLine
  simp only [h]
  exact addLineLoop_empty env _ _ b1

theorem stepEffect_of_false (env : Env) (b b1 : TextStyleBuilder) (params : Parameters)
    (type : LabelType) (h : prepareLabel env b params type = some (false, b1)) :
    StepEffect b b1 := by
  obtain ⟨ht, hm, hl, draws, hq, _⟩ := prepareLabel_effect env b params type false b1 h
  refine ⟨ht, hm, draws.length, [], by simp [hq], by simp [hl], by simp⟩

theorem stepEffect_of_true (env : Env) (b b1 : TextStyleBuilder) (params : Parameters)
    (type : LabelType) (h : prepareLabel env b params type = some (true, b1))
    (ls : List TextLabel)
    (hls : ∀ l ∈ ls, l.quadRange = (labelOf b1.m_scratch params type (⟨0, 0⟩, ⟨0, 0⟩)).quadRange) :
    StepEffect b (withLabels b1 ls) := by
  obtain ⟨ht, hm, hl, draws, hq, hn⟩ := prepareLabel_effect env b params type true b1 h
  refine ⟨ht, hm, draws.length, ls, by simp [withLabels, hq], by simp [withLabels, hl], ?_⟩
  intro l hmem
  rw [hls l hmem]
  simp only [labelOf, hn rfl, hq, List.length_append, List.length_map]

theorem addPoint_effect (env : Env) (b b' : TextStyleBuilder) (point : Point)
    (props : Properties) (rule : DrawRule) (h : addPoint env b point props rule = some b') :
    StepEffect b b' := by
  obtain ⟨r, b1, hp⟩ := prepareLabel_applyRule_isSome env b rule props LabelType.point
  cases r with
  | false =>
    rw [addPoint_of_false env b b1 point props rule hp] at h
    have hb := Option.some.inj h
    subst hb
    exact stepEffect_of_false env b b1 _ _ hp
  | true =>
    rw [addPoint_of_true env b b1 point props rule hp] at h
    have hb := Option.some.inj h
    subst hb
    apply stepEffect_of_true env b b1 _ _ hp
    intro l hl
    simp only [List.mem_singleton] at hl
    subst hl; rfl

theorem addLine_effect (env : Env) (b b' : TextStyleBuilder) (l : Line)
    (props : Properties) (rule : DrawRule)
    (h : addLine env b l props rule = some b') :
    StepEffect b b' := by
  obtain ⟨r, b1, hp⟩ := prepareLabel_applyRule_isSome env b rule props LabelType.line
  cases r with
  | false =>
    rw [addLine_of_false env b b1 l props rule hp] at h
    have hb := Option.some.inj h
    subst hb
    exact stepEffect_of_false env b b1 _ _ hp
  | true =>
    by_cases hne : l = []
    · subst hne
      rw [addLine_of_true_empty env b b1 props rule hp] at h
      cases h
    · rw [addLine_of_true_take env b b1 l props rule hne hp] at h
      have hb := Option.some.inj h
      subst hb
      apply stepEffect_of_true env b b1 _ _ hp
      intro lb hl
      simp only [lineLabels, List.mem_map] at hl
      obtain ⟨sg, _, rfl⟩ := hl
      rfl

theorem ingest_effect (env : Env) (b b' : TextStyleBuilder) (f : Feature)
    (h : ingest env b f = some b') : StepEffect b b' := by
  cases f with
  | point p props rule => exact addPoint_effect env b b' p props rule h
  | line l props rule => exact addLine_effect env b b' l props rule h
  | polygon pg props rule => exact addPoint_effect env b b' _ props rule h

theorem stepEffect_quads_le (b b' : TextStyleBuilder) (h : StepEffect b b') :
    b.m_scratch.quads.length ≤ b'.m_scratch.quads.length := by
  obtain ⟨_, _, k, _, hq, _⟩ := h
  omega

theorem stepEffect_ranges (b b' : TextStyleBuilder) (h : StepEffect b b')
    (hsize : b'.m_scratch.quads.length < 2 ^ 31)
    (hin : RangesInside b) (hord : b.m_scratch.labels.Pairwise RangeBefore) :
    RangesInside b' ∧ b'.m_scratch.labels.Pairwise RangeBefore := by
  obtain ⟨_, _, k, newLabels, hq, hl, hr⟩ := h
  have hk : bumpQuads 0 k = k := by
    have := bumpQuads_of_range k 0 le_rfl (by omega)
    simpa using this
  have hnew : ∀ l ∈ newLabels, l.quadRange = ⟨b.m_scratch.quads.length, k⟩ := by
    intro l hm
    rw [hr l hm, hk]
    have h1 : (((b.m_scratch.quads.length + k : Nat) : Int) - (k : Int))
        = (b.m_scratch.quads.length : Int) := by push_cast; ring
    rw [h1]
    have h2 := toSizeT_of_range (b.m_scratch.quads.length : Int) (by omega) (by omega)
    rw [h2, toInt32_of_range _ (by omega) (by omega)]
  constructor
  · intro l hm
    rw [hl, List.mem_append] at hm
    rcases hm with hm | hm
    · obtain ⟨h1, h2, h3⟩ := hin l hm
      exact ⟨h1, h2, by omega⟩
    · rw [hnew l hm, hq]
      simp only
      refine ⟨by omega, by omega, by push_cast; omega⟩
  · rw [hl, List.pairwise_append]
    refine ⟨hord, ?_, ?_⟩
    · apply List.Pairwise.imp_of_mem (R := fun _ _ => True)
      · intro a c ha hc _
        exact Or.inl (by rw [hnew a ha, hnew c hc])
      · exact List.pairwise_of_forall (fun _ _ => trivial)
    · intro a ha c hc
      obtain ⟨_, _, h3⟩ := hin a ha
      right
      rw [hnew c hc]
      exact h3

theorem ingestAll_effect (env : Env) (fs : List Feature) :
    ∀ (b b' : TextStyleBuilder), ingestAll env b fs = some b' →
      b'.m_textLabels = b.m_textLabels ∧ b'.m_tileSize = b.m_tileSize ∧
      b.m_scratch.quads.length ≤ b'.m_scratch.quads.length ∧
      (b'.m_scratch.quads.length < 2 ^ 31 → RangesInside b →
        b.m_scratch.labels.Pairwise RangeBefore →
        RangesInside b' ∧ b'.m_scratch.labels.Pairwise RangeBefore) := by
  induction fs with
  | nil =>
    intro b b' h
    simp only [ingestAll, Option.some.injEq] at h
    subst h
    exact ⟨rfl, rfl, le_rfl, fun _ h1 h2 => ⟨h1, h2⟩⟩
  | cons f fs ih =>
    intro b b' h
    simp only [ingestAll] at h
    cases h1 : ingest env b f with
    | none => rw [h1] at h; cases h
    | some b1 =>
      rw [h1] at h
      have he := ingest_effect env b b1 f h1
      obtain ⟨i1, i2, i3, i4⟩ := ih b1 b' h
      have hle := stepEffect_quads_le b b1 he
      refine ⟨by rw [i1, he.2.1], by rw [i2, he.1], by omega, ?_⟩
      intro hsize hin hord
      obtain ⟨j1, j2⟩ := stepEffect_ranges b b1 he (by omega) hin hord
      exact i4 hsize j1 j2

theorem prepareLabel_false_keeps (env : Env) (b b1 : TextStyleBuilder) (params : Parameters)
    (type : LabelType) (h : prepareLabel env b params type = some (false, b1)) :
    b1.m_scratch.labels = b.m_scratch.labels ∧ b1.m_scratch.quads = b.m_scratch.quads := by
  by_cases he : params.text = [] ∨ params.fontSize ≤ 0
  · rw [prepareLabel_early env b params type he] at h
    simp only [Option.some.injEq, Prod.mk.injEq, true_and] at h
    rw [h]
    exact ⟨rfl, rfl⟩
  · cases hf : params.font with
    | none =>
      unfold prepareLabel at h
      rw [if_neg he] at h
      simp [hf] at h
    | some font =>
      by_cases hs : (env.shape font (renderText params)).shapes.length = 0
      · obtain ⟨b', hp, hq, hl, _⟩ := prepareLabel_noShapes env b params type font hf he hs
        rw [hp] at h
        simp only [Option.some.injEq, Prod.mk.injEq, true_and] at h
        rw [← h]
        exact ⟨hl, hq⟩
      · obtain ⟨b', hp, _⟩ := prepareLabel_shaped env b params type font hf he hs
        rw [hp] at h
        simp at h

theorem resolveText_rest (rule : DrawRule) (props : Properties) (p : Parameters) :
    (resolveText rule props p).anchor = p.anchor ∧ (resolveText rule props p).align = p.align ∧
    resolveText rule props p = { p with text := (resolveText rule props p).text } := by
  unfold resolveText
  simp only []
  split_ifs <;> exact ⟨rfl, rfl, rfl⟩

theorem resolveInteractive_rest (rule : DrawRule) (props : Properties) (p : Parameters) :
    (resolveInteractive rule props p).anchor = p.anchor ∧
    (resolveInteractive rule props p).align = p.align ∧
    (resolveInteractive rule props p).transform = p.transform ∧
    (resolveInteractive rule props p).labelOptions.repeatGroup = p.labelOptions.repeatGroup := by
  unfold resolveInteractive
  simp only []
  split_ifs <;> exact ⟨rfl, rfl, rfl, rfl⟩

theorem resolveAnchorAlign_anchor (env : Env) (rule : DrawRule) (p : Parameters) :
    (resolveAnchorAlign env rule p).anchor
      = match rule.anchor with
        | some a => (env.parseAnchor a).getD p.anchor
        | none => p.anchor := by
  unfold resolveAnchorAlign
  cases rule.anchor <;> cases rule.transform <;> cases rule.align <;> simp only [] <;>
    first
    | rfl
    | (split <;> rfl)

theorem resolveAnchorAlign_align (env : Env) (rule : DrawRule) (p : Parameters) :
    (resolveAnchorAlign env rule p).align
      = match rule.align with
        | some s =>
          match env.parseAlign s with
          | some a => a
          | none => alignFromAnchor (resolveAnchorAlign env rule p).anchor p.align
        | none => p.align := by
  unfold resolveAnchorAlign
  cases rule.anchor <;> cases rule.transform <;> cases rule.align <;> simp only [] <;>
    first
    | rfl
    | (split <;> rename_i h <;> simp only [h])

theorem resolveAnchorAlign_repeatGroup (env : Env) (rule : DrawRule) (p : Parameters) :
    (resolveAnchorAlign env rule p).labelOptions.repeatGroup = p.labelOptions.repeatGroup := by
  unfold resolveAnchorAlign
  cases rule.anchor <;> cases rule.transform <;> cases rule.align <;> simp only [] <;>
    first
    | rfl
    | (split <;> rfl)

theorem applyRule_of_text (env : Env) (rule : DrawRule) (props : Properties)
    (h : (applyRule env rule props).text ≠ []) :
    applyRule env rule props
      = resolveGlobal env
          (resolveAnchorAlign env rule
            (resolveInteractive rule props
              (resolveRepeat env rule
                (resolveScalars rule
                  (resolveFont env rule (resolveText rule props (Parameters.default env))))))) := by
  rw [applyRule_text] at h
  unfold applyRule
  simp only []
  rw [if_neg (show ¬ (resolveText rule props (Parameters.default env)).text = [] from h)]

theorem applyRule_of_empty (env : Env) (rule : DrawRule) (props : Properties)
    (h : (applyRule env rule props).text = []) :
    applyRule env rule props = Parameters.default env := by
  rw [applyRule_text] at h
  unfold applyRule
  simp only []
  rw [if_pos (show (resolveText rule props (Parameters.default env)).text = [] from h)]
  rw [(resolveText_rest rule props _).2.2]
  unfold resolvedText at h
  rw [h]
  rfl

theorem applyRule_anchor (env : Env) (rule : DrawRule) (props : Properties)
    (h : (applyRule env rule props).text ≠ []) :
    (applyRule env rule props).anchor
      = match rule.anchor with
        | some a => (env.parseAnchor a).getD (Parameters.default env).anchor
        | none => (Parameters.default env).anchor := by
  rw [applyRule_of_text env rule props h]
  show (resolveAnchorAlign env rule _).anchor = _
  rw [resolveAnchorAlign_anchor, (resolveInteractive_rest _ _ _).1]
  show _ = match rule.anchor with
    | some a => (env.parseAnchor a).getD (Parameters.default env).anchor
    | none => (Parameters.default env).anchor
  have : (resolveRepeat env rule (resolveScalars rule (resolveFont env rule
      (resolveText rule props (Parameters.default env))))).anchor
        = (Parameters.default env).anchor := (resolveText_rest rule props _).1
  rw [this]

theorem applyRule_align_eq (env : Env) (rule : DrawRule) (props : Properties)
    (h : (applyRule env rule props).text ≠ []) :
    (applyRule env rule props).align
      = match rule.align with
        | some s =>
          match env.parseAlign s with
          | some a => a
          | none => alignFromAnchor (applyRule env rule props).anchor (Parameters.default env).align
        | none => (Parameters.default env).align := by
  rw [applyRule_of_text env rule props h]
  show (resolveAnchorAlign env rule _).align
    = match rule.align with
      | some s =>
        match env.parseAlign s with
        | some a => a
        | none => alignFromAnchor (resolveAnchorAlign env rule _).anchor (Parameters.default env).align
      | none => (Parameters.default env).align
  rw [resolveAnchorAlign_align, (resolveInteractive_rest _ _ _).2.1]
  have : (resolveRepeat env rule (resolveScalars rule (resolveFont env rule
      (resolveText rule props (Parameters.default env))))).align
        = (Parameters.default env).align := (resolveText_rest rule props _).2.1
  rw [this]

theorem applyRule_repeatGroup (env : Env) (rule : DrawRule) (props : Properties)
    (h : (applyRule env rule props).text ≠ []) :
    (applyRule env rule props).labelOptions.repeatGroup
      = env.hash_combine (repeatSeed env rule) (applyRule env rule props).text := by
  rw [applyRule_text]
  rw [applyRule_of_text env rule props h]
  show (resolveAnchorAlign env rule _).labelOptions.repeatGroup = _
  rw [resolveAnchorAlign_repeatGroup, (resolveInteractive_rest _ _ _).2.2.2]
  unfold resolveRepeat repeatSeed resolvedText
  cases rule.repeat_group <;> rfl

theorem resolveText_text (rule : DrawRule) (props : Properties) (p : Parameters) :
    (resolveText rule props p).text
      = if rule.text_source_isJSFunction then rule.text_source.getD p.text
        else props.getString
          (if rule.text_source.getD p.text = [] then key_name else rule.text_source.getD p.text) := by
  unfold resolveText
  cases rule.text_source_isJSFunction <;> simp only [] <;> simp
  split_ifs <;> rfl

theorem prepareLabel_shaped_labelOf (env : Env) (b : TextStyleBuilder) (params : Parameters)
    (type : LabelType) (font : Font) (hf : params.font = some font)
    (h : ¬ (params.text = [] ∨ params.fontSize ≤ 0))
    (hs : (env.shape font (renderText params)).shapes.length ≠ 0) :
    ∃ b', prepareLabel env b params type = some (true, b') ∧
      (∀ tr, labelOf b'.m_scratch params type tr
        = shapedLabel env params type font b.m_scratch.quads.length tr) ∧
      b'.m_scratch.bbox = shapedBBox env params type font ∧
      b'.m_scratch.fontScale = fontScaleAttrib
        (FloatVal.div binary32 (FloatVal.mul binary32 params.fontSize env.pixelScale) font.size) ∧
      b'.m_scratch.labels = b.m_scratch.labels ∧
      b'.m_tileSize = b.m_tileSize := by
  unfold prepareLabel
  rw [if_neg h]
  simp only [hf, hs, if_false, foldl_drawGlyph]
  refine ⟨_, rfl, ?_, rfl, rfl, rfl, rfl⟩
  intro tr
  simp only [labelOf, shapedLabel, shapedLayout, List.length_append, List.length_map,
    ScratchBuffer.reset]

theorem prepareLabel_true_inv (env : Env) (b b1 : TextStyleBuilder) (params : Parameters)
    (type : LabelType) (h : prepareLabel env b params type = some (true, b1)) :
    ∃ font, params.font = some font ∧ ¬ (params.text = [] ∨ params.fontSize ≤ 0) ∧
      (env.shape font (renderText params)).shapes.length ≠ 0 := by
  by_cases he : params.text = [] ∨ params.fontSize ≤ 0
  · rw [prepareLabel_early env b params type he] at h
    simp at h
  · cases hf : params.font with
    | none =>
      unfold prepareLabel at h
      rw [if_neg he] at h
      simp [hf] at h
    | some font =>
      refine ⟨font, rfl, he, ?_⟩
      intro hs
      obtain ⟨b', hp, _⟩ := prepareLabel_noShapes env b params type font hf he hs
      rw [hp] at h
      simp at h

theorem stepEffect_newRanges (b b' : TextStyleBuilder) (h : StepEffect b b')
    (hsize : b'.m_scratch.quads.length < 2 ^ 31) :
    ∃ (k : Nat) (newLabels : List TextLabel),
      b'.m_scratch.quads.length = b.m_scratch.quads.length + k ∧
      b'.m_scratch.labels = b.m_scratch.labels ++ newLabels ∧
      ∀ l ∈ newLabels, l.quadRange = ⟨b.m_scratch.quads.length, k⟩ := by
  obtain ⟨_, _, k, newLabels, hq, hl, hr⟩ := h
  refine ⟨k, newLabels, hq, hl, ?_⟩
  have hk : bumpQuads 0 k = k := by
    have := bumpQuads_of_range k 0 le_rfl (by omega)
    simpa using this
  intro l hm
  rw [hr l hm, hk]
  have h1 : (((b.m_scratch.quads.length + k : Nat) : Int) - (k : Int))
      = (b.m_scratch.quads.length : Int) := by push_cast; ring
  rw [h1]
  have h2 := toSizeT_of_range (b.m_scratch.quads.length : Int) (by omega) (by omega)
  rw [h2, toInt32_of_range _ (by omega) (by omega)]

namespace FloatVal

theorem ofNat_eq (n : Nat) : (OfNat.ofNat n : FloatVal) = fin (n : ℚ) := rfl

theorem lit_255 : (255 : FloatVal) = fin 255 := by
  rw [ofNat_eq]; norm_num

theorem lit_64 : (64 : FloatVal) = fin 64 := by
  rw [ofNat_eq]; norm_num

theorem lit_0 : (0 : FloatVal) = fin 0 := by
  rw [ofNat_eq]; norm_num

theorem le_def (a b : FloatVal) : a ≤ b ↔ le a b = true := Iff.rfl

theorem lt_def (a b : FloatVal) : a < b ↔ lt a b = true := Iff.rfl

theorem not_le_of_lt (a b : FloatVal) (h : a < b) : ¬ b ≤ a := by
  rw [lt_def] at h
  rw [le_def]
  cases a <;> cases b <;> simp [lt, le, isNaN, isInf, signBit, val] at h ⊢ <;>
    first | exact h | (simp [h])

theorem ofRat_zero (fmt : FloatFormat) (s : Bool) : ofRat fmt s 0 = zero s := by
  unfold ofRat
  have := pow2_pos (fmt.emax + 1)
  rw [roundRat_zero, abs_zero, if_neg (not_le.mpr this), if_pos rfl]

/-- A non-negative exact result rounds to a non-negative datum. -/
theorem le_zero_ofRat (fmt : FloatFormat) (hp : 1 ≤ fmt.prec) (s : Bool) (q : ℚ) (h : 0 ≤ q) :
    le (fin 0) (ofRat fmt s q) = true := by
  have := le_ofRat_ofRat fmt hp false s 0 q h
  rwa [ofRat_zero] at this

theorem div_zero_fin (fmt : FloatFormat) (m : ℚ) (hm : 0 < m) :
    div fmt (fin 0) (fin m) = fin 0 := by
  rw [div_fin_fin fmt 0 m hm, zero_div, ofRat_zero]
  simp [zero]

theorem mul_zero_fin (fmt : FloatFormat) (c : ℚ) (hc : 0 < c) :
    mul fmt (fin 0) (fin c) = fin 0 := by
  rw [mul_fin_fin, zero_mul, ofRat_zero]
  simp [zero, not_lt.mpr hc.le]

theorem lt_fin_fin (p q : ℚ) : lt (fin p) (fin q) = decide (p < q) := by
  simp [lt, isNaN, isInf, val]

theorem lt_fin_nzero (p : ℚ) : lt (fin p) nzero = decide (p < 0) := by
  simp [lt, isNaN, isInf, val]

theorem lt_nzero_fin (q : ℚ) : lt nzero (fin q) = decide (0 < q) := by
  simp [lt, isNaN, isInf, val]

theorem lt_fin_inf (p : ℚ) (t : Bool) : lt (fin p) (inf t) = !t := by
  simp [lt, isNaN, isInf, signBit]

theorem lt_inf_fin (s : Bool) (q : ℚ) : lt (inf s) (fin q) = s := by
  simp [lt, isNaN, isInf, signBit]

theorem lt_nan_right (a : FloatVal) : lt a nan = false := by
  cases a <;> simp [lt, isNaN]

theorem lt_nan_left (a : FloatVal) : lt nan a = false := by
  simp [lt, isNaN]

/-- The value of the clamp `std::max(std::min(x, 255.f), 0.f)`. -/
theorem clamp_val (x : FloatVal) :
    (stdMax (stdMin x (fin 255)) (fin 0)).val =
      match x with
      | nan => 0
      | inf s => if s then 0 else 255
      | nzero => 0
      | fin q => max (min q 255) 0 := by
  cases x with
  | nan => simp [stdMin, stdMax, lt_nan_right, lt_nan_left, val]
  | inf s =>
    cases s with
    | true => simp [stdMin, stdMax, lt_fin_inf, lt_inf_fin, val]
    | false =>
      have : ¬ (255 : ℚ) < 0 := by norm_num
      simp [stdMin, stdMax, lt_fin_inf, lt_fin_fin, val, this]
  | nzero =>
    have : ¬ (255 : ℚ) < 0 := by norm_num
    simp [stdMin, stdMax, lt_fin_nzero, lt_nzero_fin, val, this]
  | fin q =>
    show (stdMax (stdMin (fin q) (fin 255)) (fin 0)).val = max (min q 255) 0
    have e1 : stdMin (fin q) (fin 255) = if 255 < q then fin 255 else fin q := by
      simp [stdMin, lt_fin_fin]
    have e2 : ∀ r : ℚ, stdMax (fin r) (fin 0) = if r < 0 then fin 0 else fin r := by
      intro r
      simp [stdMax, lt_fin_fin]
    rw [e1]
    by_cases h1 : (255 : ℚ) < q
    · rw [if_pos h1, e2, if_neg (by norm_num), min_eq_right h1.le, max_eq_left (by norm_num)]
      rfl
    · rw [if_neg h1, e2, min_eq_left (not_lt.mp h1)]
      by_cases h2 : q < 0
      · rw [if_pos h2, max_eq_right h2.le]; rfl
      · rw [if_neg h2, max_eq_left (not_lt.mp h2)]; rfl

/-- The clamp `std::max(std::min(x, 255.f), 0.f)` lands in `[0, 255]`. -/
theorem clamp_range (x : FloatVal) :
    0 ≤ (stdMax (stdMin x (fin 255)) (fin 0)).val ∧
      (stdMax (stdMin x (fin 255)) (fin 0)).val ≤ 255 := by
  rw [clamp_val]
  cases x with
  | nan => norm_num
  | inf s => cases s <;> norm_num
  | nzero => norm_num
  | fin q => exact ⟨le_max_right _ _, max_le (min_le_right _ _) (by norm_num)⟩

theorem clamp_mono (x y : FloatVal) (h : le x y = true) :
    (stdMax (stdMin x (fin 255)) (fin 0)).val ≤ (stdMax (stdMin y (fin 255)) (fin 0)).val := by
  have hy := clamp_range y
  have hx := clamp_range x
  rw [clamp_val x] at hx ⊢
  rw [clamp_val y] at hy ⊢
  cases x with
  | nan => simp [le, isNaN] at h
  | inf s =>
    cases s with
    | true => simpa using hy.1
    | false =>
      cases y with
      | nan => simp [le, isNaN] at h
      | inf t => cases t <;> simp [le, isNaN, isInf, signBit] at h ⊢
      | nzero => simp [le, isNaN, isInf, signBit] at h
      | fin q => simp [le, isNaN, isInf, signBit] at h
  | nzero => simpa using hy.1
  | fin p =>
    cases y with
    | nan => simp [le, isNaN] at h
    | inf t =>
      cases t with
      | true => simp [le, isNaN, isInf, signBit] at h
      | false => simp at hx ⊢
    | nzero =>
      rw [le_fin_nzero, decide_eq_true_eq] at h
      simp only []
      exact max_le ((min_le_left _ _).trans h) le_rfl
    | fin q =>
      rw [le_fin_fin, decide_eq_true_eq] at h
      simp only []
      exact max_le_max (min_le_min h le_rfl) le_rfl

theorem clamp_top (x : FloatVal) (h : le (fin 255) x = true) :
    (stdMax (stdMin x (fin 255)) (fin 0)).val = 255 := by
  have h1 := clamp_mono _ _ h
  have h2 := (clamp_range x).2
  have h3 : (stdMax (stdMin (fin 255) (fin 255)) (fin 0)).val = 255 := by
    rw [clamp_val]; norm_num
  linarith

theorem clamp_bot (x : FloatVal) (h : le x (fin 0) = true) :
    (stdMax (stdMin x (fin 255)) (fin 0)).val = 0 := by
  have h1 := clamp_mono _ _ h
  have h2 := (clamp_range x).1
  have h3 : (stdMax (stdMin (fin 0) (fin 255)) (fin 0)).val = 0 := by
    rw [clamp_val]; norm_num
  linarith

theorem clamp_id (x : FloatVal) (h0 : le (fin 0) x = true) (h1 : le x (fin 255) = true) :
    (stdMax (stdMin x (fin 255)) (fin 0)).val = x.val := by
  rw [clamp_val]
  cases x with
  | nan => simp [le, isNaN] at h1
  | inf s => cases s <;> simp [le, isNaN, isInf, signBit] at h0 h1
  | nzero => rfl
  | fin q =>
    rw [le_fin_fin, decide_eq_true_eq] at h0 h1
    simp only [val]
    rw [min_eq_left h1, max_eq_left h0]

end FloatVal

theorem truncToInt_unit (v : ℚ) (h0 : 0 ≤ v) (h1 : v ≤ 255) :
    0 ≤ truncToInt v ∧ truncToInt v ≤ 255 := by
  rw [truncToInt_of_nonneg v h0]
  constructor
  · exact Int.floor_nonneg.mpr h0
  · have := Int.floor_le_floor h1
    have h255 : ⌊(255 : ℚ)⌋ = 255 := by norm_num
    omega

theorem truncToInt_mono_nonneg (u v : ℚ) (h0 : 0 ≤ u) (h : u ≤ v) :
    truncToInt u ≤ truncToInt v := by
  rw [truncToInt_of_nonneg u h0, truncToInt_of_nonneg v (le_trans h0 h)]
  exact Int.floor_le_floor h

theorem toUInt32_byte (n : Int) (h0 : 0 ≤ n) (h1 : n ≤ 255) : (toUInt32 n : Int) = n := by
  unfold toUInt32; omega

theorem toUInt8_byte (n : Int) (h0 : 0 ≤ n) (h1 : n ≤ 255) : (toUInt8 n : Int) = n := by
  unfold toUInt8; omega

/-- The stroke attribute is the truncation of the clamped value. -/
theorem strokeAttrib_eq (w m : FloatVal) :
    (strokeAttrib w m : Int) = truncToInt (FloatVal.stdMax (FloatVal.stdMin
      (FloatVal.mul binary32 (FloatVal.div binary32 w m) (FloatVal.fin 255)) (FloatVal.fin 255))
        (FloatVal.fin 0)).val := by
  unfold strokeAttrib FloatVal.toInt
  rw [FloatVal.lit_255, FloatVal.lit_0]
  obtain ⟨h0, h1⟩ := FloatVal.clamp_range
    (FloatVal.mul binary32 (FloatVal.div binary32 w m) (FloatVal.fin 255))
  obtain ⟨g0, g1⟩ := truncToInt_unit _ h0 h1
  exact toUInt32_byte _ g0 g1

theorem binary32_prec : 1 ≤ binary32.prec := by decide

/-- The scaled quotient `w / m * 255.f` is monotone in `w`. -/
theorem strokeScaled_mono (m : ℚ) (hm : 0 < m) (w1 w2 : FloatVal) (h : FloatVal.le w1 w2 = true) :
    FloatVal.le (FloatVal.mul binary32 (FloatVal.div binary32 w1 (FloatVal.fin m)) (FloatVal.fin 255))
      (FloatVal.mul binary32 (FloatVal.div binary32 w2 (FloatVal.fin m)) (FloatVal.fin 255)) = true :=
  FloatVal.mul_mono binary32 binary32_prec 255 (by norm_num) _ _
    (FloatVal.div_mono binary32 binary32_prec m hm _ _ h)

theorem strokeScaled_zero (m : ℚ) (hm : 0 < m) :
    FloatVal.mul binary32 (FloatVal.div binary32 (FloatVal.fin 0) (FloatVal.fin m)) (FloatVal.fin 255)
      = FloatVal.fin 0 := by
  rw [FloatVal.div_zero_fin binary32 m hm, FloatVal.mul_zero_fin binary32 255 (by norm_num)]

theorem ofRat_one (s : Bool) : FloatVal.ofRat binary32 s 1 = FloatVal.fin 1 := by
  have h1 : roundRat binary32 1 = 1 := by decide!
  have h2 : ¬ pow2 (binary32.emax + 1) ≤ |(1 : ℚ)| := by decide!
  unfold FloatVal.ofRat
  rw [h1, if_neg h2, if_neg (by norm_num)]

theorem ofRat_255 (s : Bool) : FloatVal.ofRat binary32 s 255 = FloatVal.fin 255 := by
  have h1 : roundRat binary32 255 = 255 := by decide!
  have h2 : ¬ pow2 (binary32.emax + 1) ≤ |(255 : ℚ)| := by decide!
  unfold FloatVal.ofRat
  rw [h1, if_neg h2, if_neg (by norm_num)]

theorem strokeScaled_max (m : ℚ) (hm : 0 < m) :
    FloatVal.mul binary32 (FloatVal.div binary32 (FloatVal.fin m) (FloatVal.fin m)) (FloatVal.fin 255)
      = FloatVal.fin 255 := by
  rw [FloatVal.div_fin_fin binary32 m m hm, div_self hm.ne', ofRat_one, FloatVal.mul_fin_fin,
    one_mul, ofRat_255]

/-- The properties of the stroke attribute for a positive, finite maximal
stroke width. -/
theorem strokeAttrib_props (m : ℚ) (hm : 0 < m) :
    (∀ w, FloatVal.le (FloatVal.fin m) w = true → strokeAttrib w (FloatVal.fin m) = 255) ∧
    (∀ w, FloatVal.le w (FloatVal.fin 0) = true → strokeAttrib w (FloatVal.fin m) = 0) ∧
    (∀ w, FloatVal.le (FloatVal.fin 0) w = true → FloatVal.le w (FloatVal.fin m) = true →
      (strokeAttrib w (FloatVal.fin m) : Int)
        = (FloatVal.mul binary32 (FloatVal.div binary32 w (FloatVal.fin m)) (FloatVal.fin 255)).toInt) ∧
    (∀ w, strokeAttrib w (FloatVal.fin m) ≤ 255) ∧
    (∀ w1 w2, FloatVal.le w1 w2 = true →
      strokeAttrib w1 (FloatVal.fin m) ≤ strokeAttrib w2 (FloatVal.fin m)) := by
  refine ⟨?_, ?_, ?_, ?_, ?_⟩
  · intro w h
    have h1 := strokeScaled_mono m hm _ _ h
    rw [strokeScaled_max m hm] at h1
    have h2 := strokeAttrib_eq w (FloatVal.fin m)
    rw [FloatVal.clamp_top _ h1] at h2
    have : truncToInt 255 = 255 := by
      rw [truncToInt_of_nonneg _ (by norm_num)]; norm_num
    omega
  · intro w h
    have h1 := strokeScaled_mono m hm _ _ h
    rw [strokeScaled_zero m hm] at h1
    have h2 := strokeAttrib_eq w (FloatVal.fin m)
    rw [FloatVal.clamp_bot _ h1] at h2
    have : truncToInt 0 = 0 := by
      rw [truncToInt_of_nonneg _ le_rfl]; norm_num
    omega
  · intro w h0 h1
    have g0 := strokeScaled_mono m hm _ _ h0
    rw [strokeScaled_zero m hm] at g0
    have g1 := strokeScaled_mono m hm _ _ h1
    rw [strokeScaled_max m hm] at g1
    rw [strokeAttrib_eq, FloatVal.clamp_id _ g0 g1]
    rfl
  · intro w
    have h2 := strokeAttrib_eq w (FloatVal.fin m)
    obtain ⟨h0, h1⟩ := FloatVal.clamp_range
      (FloatVal.mul binary32 (FloatVal.div binary32 w (FloatVal.fin m)) (FloatVal.fin 255))
    have := (truncToInt_unit _ h0 h1).2
    omega
  · intro w1 w2 h
    have h1 := FloatVal.clamp_mono _ _ (strokeScaled_mono m hm _ _ h)
    have e1 := strokeAttrib_eq w1 (FloatVal.fin m)
    have e2 := strokeAttrib_eq w2 (FloatVal.fin m)
    have := truncToInt_mono_nonneg _ _ (FloatVal.clamp_range _).1 h1
    omega


/-- The value of `std::min(y, 255.f)`. -/
theorem min255_val (y : FloatVal) :
    (FloatVal.stdMin y (FloatVal.fin 255)).val =
      match y with
      | FloatVal.nan => 0
      | FloatVal.inf s => if s then 0 else 255
      | FloatVal.nzero => 0
      | FloatVal.fin q => min q 255 := by
  cases y with
  | nan => simp [FloatVal.stdMin, FloatVal.lt_nan_right, FloatVal.val]
  | inf s => cases s <;> simp [FloatVal.stdMin, FloatVal.lt_fin_inf, FloatVal.val]
  | nzero =>
    have : ¬ (255 : ℚ) < 0 := by norm_num
    simp [FloatVal.stdMin, FloatVal.lt_fin_nzero, FloatVal.val, this]
  | fin q =>
    show (FloatVal.stdMin (FloatVal.fin q) (FloatVal.fin 255)).val = min q 255
    have e1 : FloatVal.stdMin (FloatVal.fin q) (FloatVal.fin 255)
        = if 255 < q then FloatVal.fin 255 else FloatVal.fin q := by
      simp [FloatVal.stdMin, FloatVal.lt_fin_fin]
    rw [e1]
    by_cases h1 : (255 : ℚ) < q
    · rw [if_pos h1, min_eq_right h1.le]; rfl
    · rw [if_neg h1, min_eq_left (not_lt.mp h1)]; rfl

theorem fontScaleAttrib_eq (scale : FloatVal) :
    fontScaleAttrib scale = toUInt8 (truncToInt
      (FloatVal.stdMin (FloatVal.mul binary32 scale (FloatVal.fin 64)) (FloatVal.fin 255)).val) := by
  unfold fontScaleAttrib FloatVal.toInt
  rw [FloatVal.lit_255, FloatVal.lit_64]

/-- The properties of the font scale attribute when the scaled value
`fontScale * 64.f` is not negative. -/
theorem fontScaleAttrib_props (scale : FloatVal)
    (h : FloatVal.le (FloatVal.fin 0) (FloatVal.mul binary32 scale (FloatVal.fin 64)) = true) :
    (FloatVal.le (FloatVal.fin 255) (FloatVal.mul binary32 scale (FloatVal.fin 64)) = true →
      fontScaleAttrib scale = 255) ∧
    (FloatVal.lt (FloatVal.mul binary32 scale (FloatVal.fin 64)) (FloatVal.fin 255) = true →
      (fontScaleAttrib scale : Int)
        = (FloatVal.mul binary32 scale (FloatVal.fin 64)).toInt) ∧
    fontScaleAttrib scale ≤ 255 := by
  rw [fontScaleAttrib_eq]
  generalize FloatVal.mul binary32 scale (FloatVal.fin 64) = y at h ⊢
  have hv := min255_val y
  cases y with
  | nan => simp [FloatVal.le, FloatVal.isNaN] at h
  | inf s =>
    cases s with
    | true => simp [FloatVal.le, FloatVal.isNaN, FloatVal.isInf, FloatVal.signBit] at h
    | false =>
      simp only [Bool.false_eq_true, if_false] at hv
      rw [hv]
      have e : truncToInt 255 = 255 := by
        rw [truncToInt_of_nonneg _ (by norm_num)]; norm_num
      rw [e]
      refine ⟨fun _ => by decide, fun h2 => ?_, by decide⟩
      simp [FloatVal.lt, FloatVal.isNaN, FloatVal.isInf, FloatVal.signBit] at h2
  | nzero =>
    simp only [] at hv
    rw [hv]
    have e : truncToInt 0 = 0 := by
      rw [truncToInt_of_nonneg _ le_rfl]; norm_num
    rw [e]
    refine ⟨fun h2 => ?_, fun _ => ?_, by decide⟩
    · rw [FloatVal.le_fin_nzero, decide_eq_true_eq] at h2
      norm_num at h2
    · show ((toUInt8 0 : Nat) : Int) = truncToInt 0
      rw [e]; decide
  | fin q =>
    simp only [] at hv
    rw [hv]
    rw [FloatVal.le_fin_fin, decide_eq_true_eq] at h
    have hmin0 : 0 ≤ min q 255 := le_min h (by norm_num)
    obtain ⟨g0, g1⟩ := truncToInt_unit _ hmin0 (min_le_right _ _)
    have hb := toUInt8_byte _ g0 g1
    refine ⟨fun h2 => ?_, fun h2 => ?_, by omega⟩
    · rw [FloatVal.le_fin_fin, decide_eq_true_eq] at h2
      rw [min_eq_right h2]
      have e : truncToInt 255 = 255 := by
        rw [truncToInt_of_nonneg _ (by norm_num)]; norm_num
      rw [e]
      decide
    · rw [FloatVal.lt_fin_fin, decide_eq_true_eq] at h2
      rw [min_eq_left h2.le] at hb ⊢
      exact hb

/-- With positive finite inputs the scaled font scale is not negative (and
not a NaN). -/
theorem fontScale_nonneg (fontSize pixelScale referenceSize : ℚ) (h1 : 0 < fontSize)
    (h2 : 0 < pixelScale) (h3 : 0 < referenceSize) :
    FloatVal.le (FloatVal.fin 0)
      (FloatVal.mul binary32
        (FloatVal.div binary32
          (FloatVal.mul binary32 (FloatVal.fin fontSize) (FloatVal.fin pixelScale))
          (FloatVal.fin referenceSize))
        (FloatVal.fin 64)) = true := by
  have a1 : FloatVal.le (FloatVal.fin 0)
      (FloatVal.mul binary32 (FloatVal.fin fontSize) (FloatVal.fin pixelScale)) = true := by
    rw [FloatVal.mul_fin_fin]
    exact FloatVal.le_zero_ofRat binary32 binary32_prec _ _ (mul_pos h1 h2).le
  have a2 := FloatVal.div_mono binary32 binary32_prec referenceSize h3 _ _ a1
  rw [FloatVal.div_zero_fin binary32 referenceSize h3] at a2
  have a3 := FloatVal.mul_mono binary32 binary32_prec 64 (by norm_num) _ _ a2
  rwa [FloatVal.mul_zero_fin binary32 64 (by norm_num)] at a3

theorem roundHalfEven_err (x : ℚ) : |(roundHalfEven x : ℚ) - x| ≤ 1 / 2 := by
  have h1 := Int.floor_le x
  have h2 := Int.lt_floor_add_one x
  unfold roundHalfEven
  split_ifs with c1 c2 c3
  · rw [abs_le]; constructor <;> linarith
  · rw [abs_le]; push_cast; constructor <;> linarith
  · rw [abs_le]; constructor <;> linarith
  · rw [abs_le]; push_cast; constructor <;> linarith

theorem floorLog2_lt (q : ℚ) (hq : 0 < q) (k : Int) (hk : q < pow2 (k + 1)) :
    floorLog2 q ≤ k := by
  by_contra h
  push_neg at h
  have h1 := (floorLog2_spec q hq).1
  have h2 : pow2 (k + 1) ≤ pow2 (floorLog2 q) := pow2_le_pow2 (by omega)
  linarith

/-- Rounding a magnitude below `2 ^ (k + 1)` moves it by at most half a unit in
the last place of that binade. -/
theorem roundMag_err (fmt : FloatFormat) (q : ℚ) (hq : 0 < q) (k : Int)
    (hk : q < pow2 (k + 1)) (hke : fmt.emin ≤ k) :
    |roundMag fmt q - q| ≤ pow2 (k - fmt.prec) := by
  unfold roundMag
  rw [if_neg (not_le.mpr hq)]
  simp only []
  set e := max (floorLog2 q) fmt.emin with he
  have hek : e ≤ k := max_le (floorLog2_lt q hq k hk) hke
  set u := pow2 (e - ((fmt.prec : Int) - 1)) with hu
  have hupos : 0 < u := pow2_pos _
  have herr := roundHalfEven_err (q / u)
  have e1 : (roundHalfEven (q / u) : ℚ) * u - q = ((roundHalfEven (q / u) : ℚ) - q / u) * u := by
    field_simp
  rw [e1, abs_mul, abs_of_pos hupos]
  have hu2 : u = 2 * pow2 (e - fmt.prec) := by
    rw [hu, show e - ((fmt.prec : Int) - 1) = 1 + (e - fmt.prec) by ring, pow2_add]
    congr 1
  calc |(roundHalfEven (q / u) : ℚ) - q / u| * u ≤ 1 / 2 * u :=
        mul_le_mul_of_nonneg_right herr hupos.le
    _ = pow2 (e - fmt.prec) := by rw [hu2]; ring
    _ ≤ pow2 (k - fmt.prec) := pow2_le_pow2 (by omega)

theorem roundRat_err (fmt : FloatFormat) (q : ℚ) (hq : 0 ≤ q) (k : Int)
    (hk : q < pow2 (k + 1)) (hke : fmt.emin ≤ k) :
    |roundRat fmt q - q| ≤ pow2 (k - fmt.prec) := by
  rcases hq.eq_or_lt with h0 | hpos
  · subst h0
    rw [roundRat_zero, sub_zero, abs_zero]
    exact (pow2_pos _).le
  · unfold roundRat
    rw [if_neg (not_lt.mpr hq)]
    exact roundMag_err fmt q hpos k hk hke

/-- The value an operation delivers when the rounded result is in range. -/
theorem val_ofRat (fmt : FloatFormat) (s : Bool) (q : ℚ)
    (h : |roundRat fmt q| < pow2 (fmt.emax + 1)) :
    (FloatVal.ofRat fmt s q).val = roundRat fmt q := by
  unfold FloatVal.ofRat
  rw [if_neg (not_le.mpr h)]
  split_ifs with h0
  · rw [FloatVal.val_zero, h0]
  · rfl

theorem roundRat_one : roundRat binary32 1 = 1 := by decide!

theorem roundRat_255 : roundRat binary32 255 = 255 := by decide!

/-- Between zero and the maximal stroke width the scaled quotient computed in
`float` is within `2 ^ (-15)` of the real number `w / m * 255`. -/
theorem strokeScaled_near (m : ℚ) (hm : 0 < m) (w : ℚ) (h0 : 0 ≤ w) (h1 : w ≤ m) :
    |(FloatVal.mul binary32 (FloatVal.div binary32 (FloatVal.fin w) (FloatVal.fin m))
        (FloatVal.fin 255)).val - w / m * 255| ≤ 1 / 2 ^ 15 := by
  have hq0 : 0 ≤ w / m := div_nonneg h0 hm.le
  have hq1 : w / m ≤ 1 := (div_le_one hm).mpr h1
  have hH : (256 : ℚ) < pow2 (binary32.emax + 1) := by decide!
  -- the quotient
  have ht0 : 0 ≤ roundRat binary32 (w / m) := roundRat_nonneg _ _ hq0
  have ht1 : roundRat binary32 (w / m) ≤ 1 := by
    have := roundRat_mono binary32 binary32_prec _ _ hq1
    rwa [roundRat_one] at this
  have hterr : |roundRat binary32 (w / m) - w / m| ≤ pow2 (0 - binary32.prec) :=
    roundRat_err binary32 (w / m) hq0 0 (lt_of_le_of_lt hq1 (by decide!)) (by decide)
  have hdiv : (FloatVal.div binary32 (FloatVal.fin w) (FloatVal.fin m)).val
      = roundRat binary32 (w / m) := by
    rw [FloatVal.div_fin_fin binary32 w m hm]
    apply val_ofRat
    rw [abs_of_nonneg ht0]
    linarith
  -- the product
  have hp0 : 0 ≤ roundRat binary32 (w / m) * 255 := by positivity
  have hp1 : roundRat binary32 (w / m) * 255 ≤ 255 := by linarith
  have hy0 : 0 ≤ roundRat binary32 (roundRat binary32 (w / m) * 255) :=
    roundRat_nonneg _ _ hp0
  have hy1 : roundRat binary32 (roundRat binary32 (w / m) * 255) ≤ 255 := by
    have := roundRat_mono binary32 binary32_prec _ _ hp1
    rwa [roundRat_255] at this
  have hyerr : |roundRat binary32 (roundRat binary32 (w / m) * 255)
      - roundRat binary32 (w / m) * 255| ≤ pow2 (7 - binary32.prec) :=
    roundRat_err binary32 _ hp0 7 (lt_of_le_of_lt hp1 (by decide!)) (by decide)
  have hmul : (FloatVal.mul binary32 (FloatVal.div binary32 (FloatVal.fin w) (FloatVal.fin m))
      (FloatVal.fin 255)).val
      = roundRat binary32 (roundRat binary32 (w / m) * 255) := by
    have hshape : ∀ x : FloatVal, x.isNaN = false → x.isInf = false →
        FloatVal.mul binary32 x (FloatVal.fin 255)
          = FloatVal.ofRat binary32 (xor x.signBit false) (x.val * 255) := by
      intro x hx1 hx2
      have g1 : (FloatVal.fin 255).isNaN = false := rfl
      have g2 : (FloatVal.fin 255).isInf = false := rfl
      have g3 : (FloatVal.fin 255).signBit = false := by
        simp [FloatVal.signBit]
      have g4 : (FloatVal.fin 255).val = 255 := rfl
      unfold FloatVal.mul
      simp only [hx1, hx2, g1, g2, g3, g4, Bool.or_self, Bool.false_eq_true, if_false]
    have hfinite : ∀ (s : Bool) (q : ℚ), |roundRat binary32 q| < pow2 (binary32.emax + 1) →
        (FloatVal.ofRat binary32 s q).isNaN = false ∧
          (FloatVal.ofRat binary32 s q).isInf = false := by
      intro s q hq
      unfold FloatVal.ofRat
      rw [if_neg (not_le.mpr hq)]
      split_ifs
      · cases s <;> simp [FloatVal.zero, FloatVal.isNaN, FloatVal.isInf]
      · simp [FloatVal.isNaN, FloatVal.isInf]
    have hrange : |roundRat binary32 (w / m)| < pow2 (binary32.emax + 1) := by
      rw [abs_of_nonneg ht0]; linarith
    rw [FloatVal.div_fin_fin binary32 w m hm] at hdiv ⊢
    obtain ⟨f1, f2⟩ := hfinite (decide (w < 0)) (w / m) hrange
    rw [hshape _ f1 f2, hdiv]
    apply val_ofRat
    rw [abs_of_nonneg hy0]
    linarith
  rw [hmul]
  have e1 : pow2 (0 - binary32.prec) = 1 / 2 ^ 24 := by decide!
  have e2 : pow2 (7 - binary32.prec) = 1 / 2 ^ 17 := by decide!
  rw [e1] at hterr
  rw [e2] at hyerr
  have hsplit : roundRat binary32 (roundRat binary32 (w / m) * 255) - w / m * 255
      = (roundRat binary32 (roundRat binary32 (w / m) * 255) - roundRat binary32 (w / m) * 255)
        + (roundRat binary32 (w / m) - w / m) * 255 := by ring
  rw [hsplit]
  have h3 : |(roundRat binary32 (w / m) - w / m) * 255| ≤ 1 / 2 ^ 24 * 255 := by
    rw [abs_mul, abs_of_pos (by norm_num : (0 : ℚ) < 255)]
    exact mul_le_mul_of_nonneg_right hterr (by norm_num)
  calc |(roundRat binary32 (roundRat binary32 (w / m) * 255) - roundRat binary32 (w / m) * 255)
        + (roundRat binary32 (w / m) - w / m) * 255|
      ≤ |roundRat binary32 (roundRat binary32 (w / m) * 255) - roundRat binary32 (w / m) * 255|
        + |(roundRat binary32 (w / m) - w / m) * 255| := abs_add _ _
    _ ≤ 1 / 2 ^ 17 + 1 / 2 ^ 24 * 255 := add_le_add hyerr h3
    _ ≤ 1 / 2 ^ 15 := by norm_num

/-! ## Claims -/

/-- C1: for a valid point feature (resolved text non-empty, font size positive,
at least one glyph shape), `addPoint` appends exactly one label; both endpoints
of its transform are the point, and the length of its quad range is the number
of `drawGlyph` calls made while shaping the text (a count below `2 ^ 31`, the
range of the `int` counter). -/
theorem addPoint_appends_one_label (env : Env) (b : TextStyleBuilder) (point : Point)
    (props : Properties) (rule : DrawRule) (font : Font)
    (hfont : (applyRule env rule props).font = some font)
    (htext : (applyRule env rule props).text ≠ [])
    (hsize : 0 < (applyRule env rule props).fontSize)
    (hshape : (env.shape font (renderText (applyRule env rule props))).shapes.length ≠ 0)
    (hfit : (glyphDraws env (applyRule env rule props) LabelType.point font).length < 2 ^ 31) :
    ∃ b' l, addPoint env b point props rule = some b' ∧
      b'.m_scratch.labels = b.m_scratch.labels ++ [l] ∧
      l.transform = (point.toVec2, point.toVec2) ∧
      l.quadRange.length
        = ((glyphDraws env (applyRule env rule props) LabelType.point font).length : Int) := by
  have he : ¬ ((applyRule env rule props).text = [] ∨
      (applyRule env rule props).fontSize ≤ 0) := by
    rintro (h | h)
    · exact htext h
    · exact FloatVal.not_le_of_lt _ _ hsize h
  obtain ⟨b1, hp, _, hl, hn, _⟩ :=
    prepareLabel_shaped env b _ LabelType.point font hfont he hshape
  refine ⟨_, labelOf b1.m_scratch (applyRule env rule props) LabelType.point
    (point.toVec2, point.toVec2), addPoint_of_true env b b1 point props rule hp, ?_, rfl, ?_⟩
  · simp [withLabels, hl]
  · simp only [labelOf, hn]
    have := bumpQuads_of_range _ 0 le_rfl (by simpa using hfit)
    simpa using this

theorem addPoint_appends_one_label_witness :
    ∃ b' l, addPoint sampleEnv sampleBuilder samplePoint (sampleProps (str "ab c"))
        (sampleRule none) = some b' ∧
      b'.m_scratch.labels = sampleBuilder.m_scratch.labels ++ [l] ∧
      l.transform = (samplePoint.toVec2, samplePoint.toVec2) ∧
      l.quadRange.length
        = ((glyphDraws sampleEnv (applyRule sampleEnv (sampleRule none) (sampleProps (str "ab c")))
            LabelType.point ⟨0, 16⟩).length : Int) :=
  addPoint_appends_one_label sampleEnv sampleBuilder samplePoint (sampleProps (str "ab c"))
    (sampleRule none) ⟨0, 16⟩ (by decide!) (by decide!) (by decide!) (by decide!) (by decide!)

/-- C2: for a line feature with at least one vertex whose parameters resolve and
shape successfully (`prepareLabel` returns true, leaving the builder `b1`),
`addLine` appends one label per consecutive vertex pair whose distance is
strictly greater than `2 / (tileSize * pixelScale) * bbox.x * 0.2`, in
increasing index order and with that pair as transform; every such label
carries the bounding box and the line count of the one shaping pass. The
threshold is evaluated in the arithmetic of the program, `lineThreshold`: each
product and the quotient is rounded, the quotient and the product with `0.2` in
`double` and then to `float`, and a zero product `tileSize * pixelScale` makes
it infinite. Here `l.zip l.tail` lists the pairs `(l[i], l[i + 1])` in
increasing `i`. -/
theorem addLine_labels_per_long_segment (env : Env) (b b1 : TextStyleBuilder) (l : Line)
    (props : Properties) (rule : DrawRule) (hne : l ≠ []) (hlen : l.length < 2 ^ 64)
    (hprep : prepareLabel env b (applyRule env rule props) LabelType.line = some (true, b1)) :
    ∃ b' newLabels, addLine env b l props rule = some b' ∧
      b'.m_scratch.labels = b.m_scratch.labels ++ newLabels ∧
      newLabels.length = ((l.zip l.tail).filter (fun sg =>
        decide (env.length (sg.1.toVec2.sub sg.2.toVec2)
          > lineThreshold b.m_tileSize env.pixelScale b1.m_scratch.bbox.x))).length ∧
      newLabels.map (fun x => x.transform) = ((l.zip l.tail).filter (fun sg =>
        decide (env.length (sg.1.toVec2.sub sg.2.toVec2)
          > lineThreshold b.m_tileSize env.pixelScale b1.m_scratch.bbox.x))).map
            (fun sg => (sg.1.toVec2, sg.2.toVec2)) ∧
      ∀ x ∈ newLabels, x.dim = b1.m_scratch.bbox ∧ x.nLines = b1.m_scratch.numLines := by
  obtain ⟨ht, _, hl, _⟩ := prepareLabel_effect env b _ _ _ _ hprep
  have hthr : minLengthOf env b1
      = lineThreshold b.m_tileSize env.pixelScale b1.m_scratch.bbox.x := by
    unfold minLengthOf lineThreshold
    rw [ht, FloatVal.mul_symm binary32 b1.m_scratch.bbox.x]
  have hq : qualifies env (minLengthOf env b1) = (fun sg : Point × Point =>
      decide (env.length (sg.1.toVec2.sub sg.2.toVec2)
        > lineThreshold b.m_tileSize env.pixelScale b1.m_scratch.bbox.x)) := by
    funext sg; simp only [qualifies, hthr]
  refine ⟨_, lineLabels env b1.m_scratch (applyRule env rule props) (minLengthOf env b1)
    (segments l), addLine_of_true env b b1 l props rule hne hlen hprep, ?_, ?_, ?_, ?_⟩
  · simp [withLabels, hl]
  · simp only [lineLabels, List.length_map, hq, segments]
  · simp only [lineLabels, List.map_map, hq, segments]
    rfl
  · intro x hx
    simp only [lineLabels, List.mem_map] at hx
    obtain ⟨sg, _, rfl⟩ := hx
    exact ⟨rfl, rfl⟩

theorem addLine_labels_per_long_segment_witness :
    lineThreshold 256 1 4 = FloatVal.fin (13421773 / 2147483648) ∧
    lineThreshold 0 1 4 = FloatVal.inf false ∧
    ∃ b' newLabels, addLine sampleEnv sampleBuilder sampleLine (sampleProps (str "ab c"))
        (sampleRule none) = some b' ∧
      b'.m_scratch.labels = sampleBuilder.m_scratch.labels ++ newLabels ∧
      newLabels.length = ((sampleLine.zip sampleLine.tail).filter (fun sg =>
        decide (sampleEnv.length (sg.1.toVec2.sub sg.2.toVec2)
          > lineThreshold sampleBuilder.m_tileSize sampleEnv.pixelScale
              sampleShapedBuilder.m_scratch.bbox.x))).length ∧
      newLabels.map (fun x => x.transform) = ((sampleLine.zip sampleLine.tail).filter (fun sg =>
        decide (sampleEnv.length (sg.1.toVec2.sub sg.2.toVec2)
          > lineThreshold sampleBuilder.m_tileSize sampleEnv.pixelScale
              sampleShapedBuilder.m_scratch.bbox.x))).map
            (fun sg => (sg.1.toVec2, sg.2.toVec2)) ∧
      ∀ x ∈ newLabels, x.dim = sampleShapedBuilder.m_scratch.bbox ∧
        x.nLines = sampleShapedBuilder.m_scratch.numLines :=
  ⟨by decide!, by decide!,
    addLine_labels_per_long_segment sampleEnv sampleBuilder sampleShapedBuilder sampleLine
      (sampleProps (str "ab c")) (sampleRule none) (by decide) (by decide) (by decide!)⟩

/-- C4: when the resolved text of a feature is empty, `addPoint`, `addLine` and
`addPolygon` return with the builder as it was: no label is appended and the
quad buffer is unchanged. -/
theorem empty_text_leaves_builder (env : Env) (b : TextStyleBuilder) (props : Properties)
    (rule : DrawRule) (h : (applyRule env rule props).text = []) :
    (∀ point, addPoint env b point props rule = some b) ∧
    (∀ l, addLine env b l props rule = some b) ∧
    (∀ polygon, addPolygon env b polygon props rule = some b) := by
  refine ⟨fun point => ?_, fun l => ?_, fun polygon => ?_⟩
  · exact addPoint_of_false env b b point props rule (prepareLabel_early env b _ _ (Or.inl h))
  · exact addLine_of_false env b b l props rule (prepareLabel_early env b _ _ (Or.inl h))
  · exact addPoint_of_false env b b _ props rule (prepareLabel_early env b _ _ (Or.inl h))

theorem empty_text_leaves_builder_witness :
    (∀ point, addPoint sampleEnv sampleTwoFeatures point samplePropsNoName (sampleRule none)
      = some sampleTwoFeatures) ∧
    (∀ l, addLine sampleEnv sampleTwoFeatures l samplePropsNoName (sampleRule none)
      = some sampleTwoFeatures) ∧
    (∀ polygon, addPolygon sampleEnv sampleTwoFeatures polygon samplePropsNoName
      (sampleRule none) = some sampleTwoFeatures) :=
  empty_text_leaves_builder sampleEnv sampleTwoFeatures samplePropsNoName (sampleRule none)
    (by decide!)

/-- C5: `prepareLabel` returns false exactly when the text is empty, or the font
size is not positive, or the shaper returns no glyph shape for the (transformed)
text. With parameters from `applyRule` it always returns, and whenever it
returns false the calling `addPoint`, `addLine` or `addPolygon` appends no
label and no quad. -/
theorem prepareLabel_false_iff (env : Env) (b : TextStyleBuilder) :
    (∀ (params : Parameters) (type : LabelType),
      (∃ b1, prepareLabel env b params type = some (false, b1)) ↔
        (params.text = [] ∨ params.fontSize ≤ 0 ∨
          ∃ font, params.font = some font ∧
            (env.shape font (renderText params)).shapes.length = 0)) ∧
    (∀ (rule : DrawRule) (props : Properties) (type : LabelType),
      ∃ r b1, prepareLabel env b (applyRule env rule props) type = some (r, b1)) ∧
    (∀ (rule : DrawRule) (props : Properties) (b1 : TextStyleBuilder),
      prepareLabel env b (applyRule env rule props) LabelType.point = some (false, b1) →
      (∀ point, ∃ b2, addPoint env b point props rule = some b2 ∧
        b2.m_scratch.labels = b.m_scratch.labels ∧ b2.m_scratch.quads = b.m_scratch.quads) ∧
      (∀ polygon, ∃ b2, addPolygon env b polygon props rule = some b2 ∧
        b2.m_scratch.labels = b.m_scratch.labels ∧ b2.m_scratch.quads = b.m_scratch.quads)) ∧
    (∀ (rule : DrawRule) (props : Properties) (b1 : TextStyleBuilder),
      prepareLabel env b (applyRule env rule props) LabelType.line = some (false, b1) →
      ∀ l, ∃ b2, addLine env b l props rule = some b2 ∧
        b2.m_scratch.labels = b.m_scratch.labels ∧ b2.m_scratch.quads = b.m_scratch.quads) := by
  refine ⟨?_, ?_, ?_, ?_⟩
  · intro params type
    constructor
    · rintro ⟨b1, h⟩
      by_cases he : params.text = [] ∨ params.fontSize ≤ 0
      · rcases he with he | he
        · exact Or.inl he
        · exact Or.inr (Or.inl he)
      · right; right
        cases hf : params.font with
        | none =>
          unfold prepareLabel at h
          rw [if_neg he] at h
          simp [hf] at h
        | some font =>
          refine ⟨font, rfl, ?_⟩
          by_contra hs
          obtain ⟨b', hp, _⟩ := prepareLabel_shaped env b params type font hf he hs
          rw [hp] at h
          simp at h
    · intro h
      by_cases he : params.text = [] ∨ params.fontSize ≤ 0
      · exact ⟨b, prepareLabel_early env b params type he⟩
      · rcases h with h | h | ⟨font, hf, hs⟩
        · exact absurd (Or.inl h) he
        · exact absurd (Or.inr h) he
        · obtain ⟨b', hp, _⟩ := prepareLabel_noShapes env b params type font hf he hs
          exact ⟨b', hp⟩
  · intro rule props type
    exact prepareLabel_applyRule_isSome env b rule props type
  · intro rule props b1 h
    obtain ⟨hl, hq⟩ := prepareLabel_false_keeps env b b1 _ _ h
    exact ⟨fun point => ⟨b1, addPoint_of_false env b b1 point props rule h, hl, hq⟩,
      fun polygon => ⟨b1, addPoint_of_false env b b1 _ props rule h, hl, hq⟩⟩
  · intro rule props b1 h l
    obtain ⟨hl, hq⟩ := prepareLabel_false_keeps env b b1 _ _ h
    exact ⟨b1, addLine_of_false env b b1 l props rule h, hl, hq⟩

theorem prepareLabel_false_iff_witness :
    sampleAfterShapingFailure ≠ sampleTwoFeatures ∧
    ((∀ point, ∃ b2, addPoint sampleEnv sampleTwoFeatures point samplePropsNoGlyph
        (sampleRule none) = some b2 ∧
      b2.m_scratch.labels = sampleTwoFeatures.m_scratch.labels ∧
      b2.m_scratch.quads = sampleTwoFeatures.m_scratch.quads) ∧
    (∀ polygon, ∃ b2, addPolygon sampleEnv sampleTwoFeatures polygon samplePropsNoGlyph
        (sampleRule none) = some b2 ∧
      b2.m_scratch.labels = sampleTwoFeatures.m_scratch.labels ∧
      b2.m_scratch.quads = sampleTwoFeatures.m_scratch.quads)) :=
  ⟨by decide!, (prepareLabel_false_iff sampleEnv sampleTwoFeatures).2.2.1 (sampleRule none)
    samplePropsNoGlyph sampleAfterShapingFailure (by decide!)⟩

/-- C6: with a finite `maxStrokeWidth > 0` and `w` the pixel-scaled stroke
width (any `float` but a NaN), the stroke attribute is 255 for every
`w ≥ maxStrokeWidth`, 0 for every `w ≤ 0`, the truncation of
`w / maxStrokeWidth * 255` in between, never above 255, and non-decreasing in
`w`. The quotient and the product are the `float` operations of the program,
each rounded to nearest; in between, their result is within `2 ^ (-15)` of the
real number `w / maxStrokeWidth * 255`. The attribute is the high byte
`prepareLabel` packs into the stroke of the scratch buffer. -/
theorem strokeAttrib_clamped_monotone (maxStrokeWidth : ℚ) (hm : 0 < maxStrokeWidth) :
    (∀ w : FloatVal, FloatVal.fin maxStrokeWidth ≤ w →
      strokeAttrib w (FloatVal.fin maxStrokeWidth) = 255) ∧
    (∀ w : FloatVal, w ≤ 0 → strokeAttrib w (FloatVal.fin maxStrokeWidth) = 0) ∧
    (∀ w : FloatVal, 0 ≤ w → w ≤ FloatVal.fin maxStrokeWidth →
      (strokeAttrib w (FloatVal.fin maxStrokeWidth) : Int)
        = (FloatVal.mul binary32
            (FloatVal.div binary32 w (FloatVal.fin maxStrokeWidth)) 255).toInt) ∧
    (∀ w : ℚ, 0 ≤ w → w ≤ maxStrokeWidth →
      |(FloatVal.mul binary32
          (FloatVal.div binary32 (FloatVal.fin w) (FloatVal.fin maxStrokeWidth)) 255).val
        - w / maxStrokeWidth * 255| ≤ 1 / 2 ^ 15) ∧
    (∀ w : FloatVal, w ≠ FloatVal.nan →
      0 ≤ strokeAttrib w (FloatVal.fin maxStrokeWidth) ∧
        strokeAttrib w (FloatVal.fin maxStrokeWidth) ≤ 255) ∧
    (∀ w1 w2 : FloatVal, w1 ≤ w2 →
      strokeAttrib w1 (FloatVal.fin maxStrokeWidth)
        ≤ strokeAttrib w2 (FloatVal.fin maxStrokeWidth)) ∧
    (∀ (env : Env) (b b1 : TextStyleBuilder) (params : Parameters) (type : LabelType),
      env.maxStrokeWidth = FloatVal.fin maxStrokeWidth →
      prepareLabel env b params type = some (true, b1) →
      b1.m_scratch.stroke = packStroke params.strokeColor
        (strokeAttrib (FloatVal.mul binary32 params.strokeWidth env.pixelScale)
          (FloatVal.fin maxStrokeWidth))) := by
  obtain ⟨h1, h2, h3, h4, h5⟩ := strokeAttrib_props maxStrokeWidth hm
  refine ⟨h1, ?_, ?_, ?_, fun w _ => ⟨Nat.zero_le _, h4 w⟩, h5, ?_⟩
  · intro w hw
    rw [FloatVal.le_def, FloatVal.lit_0] at hw
    exact h2 w hw
  · intro w hw0 hw1
    rw [FloatVal.le_def, FloatVal.lit_0] at hw0
    rw [FloatVal.lit_255]
    exact h3 w hw0 hw1
  · intro w hw0 hw1
    rw [FloatVal.lit_255]
    exact strokeScaled_near maxStrokeWidth hm w hw0 hw1
  · intro env b b1 params type hmax hprep
    obtain ⟨font, hf, he, hs⟩ := prepareLabel_true_inv env b b1 params type hprep
    obtain ⟨b', hp, hlab, _⟩ := prepareLabel_shaped_labelOf env b params type font hf he hs
    rw [hp] at hprep
    simp only [Option.some.injEq, Prod.mk.injEq, true_and] at hprep
    subst hprep
    have := congrArg TextLabel.stroke (hlab (⟨0, 0⟩, ⟨0, 0⟩))
    simp only [labelOf, shapedLabel] at this
    rw [this, hmax]

theorem strokeAttrib_clamped_monotone_witness :
    (0 : ℚ) < 3 ∧ strokeAttrib (FloatVal.fin 4) (FloatVal.fin 3) = 255 ∧
    strokeAttrib (FloatVal.inf false) (FloatVal.fin 3) = 255 ∧
    strokeAttrib (FloatVal.fin (-1)) (FloatVal.fin 3) = 0 ∧
    (strokeAttrib (FloatVal.fin (11744051 / 8388608)) (FloatVal.fin 3) : Int)
      = (FloatVal.mul binary32
          (FloatVal.div binary32 (FloatVal.fin (11744051 / 8388608)) (FloatVal.fin 3)) 255).toInt ∧
    strokeAttrib (FloatVal.fin (11744051 / 8388608)) (FloatVal.fin 3) = 119 ∧
    truncToInt (11744051 / 8388608 / 3 * 255) = 118 ∧
    |(FloatVal.mul binary32
        (FloatVal.div binary32 (FloatVal.fin (11744051 / 8388608)) (FloatVal.fin 3)) 255).val
      - 11744051 / 8388608 / 3 * 255| ≤ 1 / 2 ^ 15 ∧
    (0 ≤ strokeAttrib (FloatVal.inf true) (FloatVal.fin 3) ∧
      strokeAttrib (FloatVal.inf true) (FloatVal.fin 3) ≤ 255) ∧
    strokeAttrib (FloatVal.fin 1) (FloatVal.fin 3) ≤ strokeAttrib (FloatVal.fin 2) (FloatVal.fin 3) ∧
    sampleShapedBuilder.m_scratch.stroke = packStroke 0xffffffff
      (strokeAttrib (FloatVal.mul binary32 0 1) (FloatVal.fin 3)) :=
  ⟨by norm_num,
    (strokeAttrib_clamped_monotone 3 (by norm_num)).1 (FloatVal.fin 4) (by decide!),
    (strokeAttrib_clamped_monotone 3 (by norm_num)).1 (FloatVal.inf false) (by decide!),
    (strokeAttrib_clamped_monotone 3 (by norm_num)).2.1 (FloatVal.fin (-1)) (by decide!),
    (strokeAttrib_clamped_monotone 3 (by norm_num)).2.2.1 (FloatVal.fin (11744051 / 8388608))
      (by decide!) (by decide!),
    by decide!,
    by decide!,
    (strokeAttrib_clamped_monotone 3 (by norm_num)).2.2.2.1 (11744051 / 8388608) (by norm_num)
      (by norm_num),
    (strokeAttrib_clamped_monotone 3 (by norm_num)).2.2.2.2.1 (FloatVal.inf true) (by decide),
    (strokeAttrib_clamped_monotone 3 (by norm_num)).2.2.2.2.2.1 (FloatVal.fin 1) (FloatVal.fin 2)
      (by decide!),
    (strokeAttrib_clamped_monotone 3 (by norm_num)).2.2.2.2.2.2 sampleEnv sampleBuilder
      sampleShapedBuilder (applyRule sampleEnv (sampleRule none) (sampleProps (str "ab c")))
      LabelType.line (by decide!) (by decide!)⟩

/-- C7: for every stroke color `c` and every stroke attribute `a ≤ 255`, the sum
`(c & 0x00ffffff) + (a << 24)` stays below `2 ^ 32`, so the packed stroke is
that sum; its low 24 bits are the low 24 bits of `c` and its high byte is `a`
(the alpha byte of `c` is dropped). Two packed values are equal only for equal
attributes and colors equal in their low 24 bits. -/
theorem packStroke_roundtrip (c a : Nat) (ha : a ≤ 255) :
    (c &&& 0x00ffffff) + (a <<< 24) < 2 ^ 32 ∧
    packStroke c a = (c &&& 0x00ffffff) + (a <<< 24) ∧
    packStroke c a % 2 ^ 24 = c % 2 ^ 24 ∧
    packStroke c a / 2 ^ 24 = a ∧
    (∀ c2 a2, a2 ≤ 255 → packStroke c2 a2 = packStroke c a →
      a2 = a ∧ c2 % 2 ^ 24 = c % 2 ^ 24) := by
  obtain ⟨h1, h2, h3, h4⟩ := packStroke_props c a ha
  refine ⟨h1, h2, h3, h4, ?_⟩
  intro c2 a2 ha2 heq
  obtain ⟨_, _, g3, g4⟩ := packStroke_props c2 a2 ha2
  rw [heq] at g3 g4
  exact ⟨by rw [← g4, h4], by rw [← g3, h3]⟩

theorem packStroke_roundtrip_witness :
    packStroke 0xff123456 127 = 0x7f123456 ∧
    packStroke 0xff123456 127 % 2 ^ 24 = 0xff123456 % 2 ^ 24 ∧
    packStroke 0xff123456 127 / 2 ^ 24 = 127 :=
  ⟨by decide, (packStroke_roundtrip 0xff123456 127 (by decide)).2.2.1,
    (packStroke_roundtrip 0xff123456 127 (by decide)).2.2.2.1⟩

/-- C8: `applyTextTransform` keeps the length of the string, and its `i`-th
character is: for capitalize, `toupper(s[i])` when `i = 0` or `s[i - 1]` is a
space and `s[i]` otherwise; for uppercase, `toupper(s[i])`; for lowercase,
`tolower(s[i])`; for none, `s[i]`. Capitalize maps "hello world" to
"Hello World", lowercase maps "HELLO" to "hello", uppercase maps
"Main Street" to "MAIN STREET". -/
theorem applyTextTransform_chars (params : Parameters) (s : Str) :
    (applyTextTransform params s).length = s.length ∧
    (∀ i, i < s.length →
      charAt (applyTextTransform params s) i =
        match params.transform with
        | Transform.capitalize =>
          if i = 0 ∨ charAt s (i - 1) = 32 then toupper (charAt s i) else charAt s i
        | Transform.uppercase => toupper (charAt s i)
        | Transform.lowercase => tolower (charAt s i)
        | Transform.none => charAt s i) ∧
    applyTextTransform { sampleParameters with transform := Transform.capitalize }
      (str "hello world") = str "Hello World" ∧
    applyTextTransform { sampleParameters with transform := Transform.lowercase }
      (str "HELLO") = str "hello" ∧
    applyTextTransform { sampleParameters with transform := Transform.uppercase }
      (str "Main Street") = str "MAIN STREET" := by
  obtain ⟨h1, h2⟩ := applyTextTransform_char params s
  refine ⟨h1, fun i _ => ?_, by decide, by decide, by decide⟩
  rw [h2 i]
  rfl

theorem applyTextTransform_chars_witness :
    charAt (applyTextTransform { sampleParameters with transform := Transform.capitalize }
      (str "a b")) 2 = 66 :=
  ((applyTextTransform_chars { sampleParameters with transform := Transform.capitalize }
    (str "a b")).2.1 2 (by decide)).trans (by decide)

/-- C9: the text transform is idempotent for every string and every transform
kind: applying it to its own result gives that result. -/
theorem applyTextTransform_idempotent (params : Parameters) (s : Str) :
    applyTextTransform params (applyTextTransform params s) = applyTextTransform params s :=
  applyTextTransform_idem params s

/-- C10: in a state reached from `setup` by feature calls in which no label
has been produced, `build` returns the container `setup` created, with an
empty label sequence and an empty quad buffer; and whenever `build` returns,
the scratch label and quad sequences are empty afterwards. -/
theorem build_without_labels (env : Env) (b0 b : TextStyleBuilder) (tileSize : FloatVal)
    (fs : List Feature) (hrun : ingestAll env (setup b0 tileSize) fs = some b)
    (hno : b.m_scratch.labels = []) :
    (setup b0 tileSize).m_textLabels = some ⟨[], []⟩ ∧
    (∃ b', build b = some (some ⟨[], []⟩, b') ∧
      b'.m_scratch.labels = [] ∧ b'.m_scratch.quads = []) ∧
    (∀ (c c' : TextStyleBuilder) (r : Option TextLabels), build c = some (r, c') →
      c'.m_scratch.labels = [] ∧ c'.m_scratch.quads = []) := by
  have hm : b.m_textLabels = some ⟨[], []⟩ := by
    rw [(ingestAll_effect env fs _ b hrun).1]; rfl
  refine ⟨rfl, ?_, ?_⟩
  · refine ⟨{ b with m_scratch := b.m_scratch.clear, m_textLabels := none }, ?_, rfl, rfl⟩
    unfold build
    simp [hno, hm]
  · intro c c' r h
    unfold build at h
    by_cases hl : c.m_scratch.labels = []
    · simp [hl] at h
      rw [← h.2]
      exact ⟨rfl, rfl⟩
    · cases ht : c.m_textLabels with
      | none => simp [hl, ht] at h
      | some t =>
        simp [hl, ht] at h
        rw [← h.2]
        exact ⟨rfl, rfl⟩

theorem build_without_labels_witness :
    sampleQuadsNoLabel.m_scratch.quads.length = 3 ∧
    (setup freshBuilder 256).m_textLabels = some ⟨[], []⟩ ∧
    (∃ b', build sampleQuadsNoLabel = some (some ⟨[], []⟩, b') ∧
      b'.m_scratch.labels = [] ∧ b'.m_scratch.quads = []) ∧
    (∀ (c c' : TextStyleBuilder) (r : Option TextLabels), build c = some (r, c') →
      c'.m_scratch.labels = [] ∧ c'.m_scratch.quads = []) :=
  ⟨by decide!, build_without_labels sampleEnv freshBuilder sampleQuadsNoLabel 256
    [Feature.line [⟨0, 0, 0⟩] (sampleProps (str "ab c")) (sampleRule none)]
    (by decide!) (by decide!)⟩

/-- C11, as stated, fails: with the anchor `left` and no align key the
alignment stays at its default `center`; it is not derived from the anchor. -/
theorem align_kept_when_key_absent :
    (applyRule sampleEnvParsing (sampleRuleAnchored (str "left") none)
      (sampleProps (str "ab c"))).anchor = Anchor.left ∧
    (applyRule sampleEnvParsing (sampleRuleAnchored (str "left") none)
      (sampleProps (str "ab c"))).align = Align.center ∧
    Align.center ≠ Align.right := by
  refine ⟨by decide!, by decide!, by decide⟩

/-- C11, amended: for a rule whose text resolves, when the align key is present
but not parseable the alignment is derived from the resolved anchor (top-left,
left, bottom-left give right; top-right, right, bottom-right give left; center,
top, bottom leave the default alignment); when the align key is absent the
alignment stays at its default value, whatever the anchor. -/
theorem applyRule_align_fallback (env : Env) (rule : DrawRule) (props : Properties)
    (htext : (applyRule env rule props).text ≠ []) :
    (∀ s, rule.align = some s → env.parseAlign s = none →
      ((applyRule env rule props).anchor = Anchor.top_left ∨
        (applyRule env rule props).anchor = Anchor.left ∨
        (applyRule env rule props).anchor = Anchor.bottom_left →
          (applyRule env rule props).align = Align.right) ∧
      ((applyRule env rule props).anchor = Anchor.top_right ∨
        (applyRule env rule props).anchor = Anchor.right ∨
        (applyRule env rule props).anchor = Anchor.bottom_right →
          (applyRule env rule props).align = Align.left) ∧
      ((applyRule env rule props).anchor = Anchor.center ∨
        (applyRule env rule props).anchor = Anchor.top ∨
        (applyRule env rule props).anchor = Anchor.bottom →
          (applyRule env rule props).align = (Parameters.default env).align)) ∧
    (rule.align = none → (applyRule env rule props).align = (Parameters.default env).align) := by
  have ha := applyRule_align_eq env rule props htext
  constructor
  · intro s hs hp
    rw [hs] at ha
    simp only [hp] at ha
    refine ⟨?_, ?_, ?_⟩
    · rintro (h | h | h) <;> rw [ha, h] <;> rfl
    · rintro (h | h | h) <;> rw [ha, h] <;> rfl
    · rintro (h | h | h) <;> rw [ha, h] <;> rfl
  · intro hn
    rw [hn] at ha
    exact ha

theorem applyRule_align_fallback_witness :
    (applyRule sampleEnvParsing (sampleRuleAnchored (str "left") (some (str "middle")))
      (sampleProps (str "ab c"))).align = Align.right ∧
    (applyRule sampleEnvParsing (sampleRuleAnchored (str "left") none)
      (sampleProps (str "ab c"))).align = (Parameters.default sampleEnvParsing).align :=
  ⟨((applyRule_align_fallback sampleEnvParsing
      (sampleRuleAnchored (str "left") (some (str "middle"))) (sampleProps (str "ab c"))
      (by decide!)).1 (str "middle") (by decide) (by decide)).1 (Or.inr (Or.inl (by decide!))),
    (applyRule_align_fallback sampleEnvParsing (sampleRuleAnchored (str "left") none)
      (sampleProps (str "ab c")) (by decide!)).2 (by decide)⟩

/-- C12: when the text source is not a function, the resolved text is
`props.getString(k)` for the rule's text-source key `k`, or for `"name"` when
the rule gives no key or an empty one; when it is a function the rule's value
is the text; and whenever the resolved text is empty `applyRule` returns a
default-constructed `Parameters` value. -/
theorem applyRule_resolves_text (env : Env) (rule : DrawRule) (props : Properties) :
    (rule.text_source_isJSFunction = false →
      (applyRule env rule props).text
        = props.getString
            (if rule.text_source.getD [] = [] then str "name" else rule.text_source.getD [])) ∧
    (rule.text_source_isJSFunction = true →
      (applyRule env rule props).text = rule.text_source.getD []) ∧
    ((applyRule env rule props).text = [] →
      applyRule env rule props = Parameters.default env) := by
  have ht : (applyRule env rule props).text
      = (resolveText rule props (Parameters.default env)).text := applyRule_text env rule props
  have hk : key_name = str "name" := by decide
  refine ⟨?_, ?_, applyRule_of_empty env rule props⟩
  · intro h
    rw [ht, resolveText_text, h, ← hk]
    rfl
  · intro h
    rw [ht, resolveText_text, h]
    rfl

theorem applyRule_resolves_text_witness :
    (applyRule sampleEnv (sampleRule (some (str "kind"))) samplePropsNoName).text = str "road" ∧
    applyRule sampleEnv (sampleRule none) samplePropsNoName = Parameters.default sampleEnv :=
  ⟨((applyRule_resolves_text sampleEnv (sampleRule (some (str "kind"))) samplePropsNoName).1
      (by decide)).trans (by decide),
    (applyRule_resolves_text sampleEnv (sampleRule none) samplePropsNoName).2.2 (by decide!)⟩

/-- C13, as stated, fails: under the sample hash the two different texts
`"Main Street"` and `sampleCollidingText` of one rule get the same repeat-group
key; and no function into `size_t` separates all texts. -/
theorem repeatGroup_collision :
    (applyRule sampleEnv (sampleRule none) (sampleProps (str "Main Street"))).text
      = str "Main Street" ∧
    (applyRule sampleEnv (sampleRule none) (sampleProps sampleCollidingText)).text
      = sampleCollidingText ∧
    str "Main Street" ≠ sampleCollidingText ∧
    (applyRule sampleEnv (sampleRule none)
        (sampleProps (str "Main Street"))).labelOptions.repeatGroup
      = (applyRule sampleEnv (sampleRule none)
        (sampleProps sampleCollidingText)).labelOptions.repeatGroup ∧
    ¬ ∃ h : Nat → Str → Nat, (∀ seed t, h seed t < 2 ^ 64) ∧
      ∀ seed t1 t2, t1 ≠ t2 → h seed t1 ≠ h seed t2 := by
  refine ⟨by decide!, by decide!, by decide, by decide!, ?_⟩
  rintro ⟨h, hb, hinj⟩
  obtain ⟨t1, t2, hne, heq⟩ :=
    Finite.exists_ne_map_eq_of_infinite (fun t : Str => (⟨h 0 t, hb 0 t⟩ : Fin (2 ^ 64)))
  exact hinj 0 t1 t2 hne (by simpa using heq)

/-- C13, amended: for a rule whose text resolves, the repeat-group key is
`hash_combine` of a seed (the hash of the explicit group name if the rule has
one, otherwise the rule's parameter-set hash) and the resolved text, and of
nothing else: two rules and features that agree on the group name (or, without
one, on the parameter-set hash) and on the resolved text get the same key.
Different texts are not promised different keys. -/
theorem repeatGroup_deterministic (env : Env) (rule : DrawRule) (props : Properties)
    (htext : (applyRule env rule props).text ≠ []) :
    (applyRule env rule props).labelOptions.repeatGroup
      = env.hash_combine
          (match rule.repeat_group with
            | some repeatGroup => env.hash_combine 0 repeatGroup
            | none => rule.paramSetHash)
          (applyRule env rule props).text ∧
    ∀ (rule2 : DrawRule) (props2 : Properties),
      rule2.repeat_group = rule.repeat_group →
      (rule.repeat_group = none → rule2.paramSetHash = rule.paramSetHash) →
      (applyRule env rule2 props2).text = (applyRule env rule props).text →
      (applyRule env rule2 props2).labelOptions.repeatGroup
        = (applyRule env rule props).labelOptions.repeatGroup := by
  refine ⟨applyRule_repeatGroup env rule props htext, ?_⟩
  intro rule2 props2 hg hp ht
  rw [applyRule_repeatGroup env rule props htext,
    applyRule_repeatGroup env rule2 props2 (by rw [ht]; exact htext), ht]
  congr 1
  unfold repeatSeed
  rw [hg]
  cases hr : rule.repeat_group with
  | none => exact hp hr
  | some g => rfl

theorem repeatGroup_deterministic_witness :
    (applyRule sampleEnv (sampleRule (some (str "name")))
        (sampleProps (str "Main Street"))).labelOptions.repeatGroup
      = (applyRule sampleEnv (sampleRule none)
        (sampleProps (str "Main Street"))).labelOptions.repeatGroup :=
  (repeatGroup_deterministic sampleEnv (sampleRule none) (sampleProps (str "Main Street"))
    (by decide!)).2 (sampleRule (some (str "name"))) (sampleProps (str "Main Street"))
    (by decide) (fun _ => by decide) (by decide!)

/-- C14: in every builder state `b` reached by any interleaving of `setup`,
feature calls and `build`, every label a feature call creates has a quad range
with `offset ≥ 0`, `offset` the size of the quad buffer before the call's
shaping pass, and `offset + count` the size of the quad buffer at label
creation, whatever the quad counter held before (fewer than `2 ^ 31` quads in
the buffer). -/
theorem label_range_at_creation (env : Env) (b0 b b' : TextStyleBuilder) (ops : List Op)
    (f : Feature) (_hreach : runOps env b0 ops = some b) (hstep : ingest env b f = some b')
    (hsize : b'.m_scratch.quads.length < 2 ^ 31) :
    ∃ newLabels, b'.m_scratch.labels = b.m_scratch.labels ++ newLabels ∧
      ∀ l ∈ newLabels, 0 ≤ l.quadRange.start ∧
        l.quadRange.start = b.m_scratch.quads.length ∧
        l.quadRange.start + l.quadRange.length = b'.m_scratch.quads.length := by
  obtain ⟨k, newLabels, hq, hl, hr⟩ :=
    stepEffect_newRanges b b' (ingest_effect env b b' f hstep) hsize
  refine ⟨newLabels, hl, ?_⟩
  intro l hm
  rw [hr l hm, hq]
  refine ⟨?_, rfl, ?_⟩
  · show (0 : Int) ≤ (b.m_scratch.quads.length : Int)
    omega
  · show (b.m_scratch.quads.length : Int) + (k : Int)
      = ((b.m_scratch.quads.length + k : Nat) : Int)
    push_cast; ring

theorem label_range_at_creation_witness :
    sampleSecondTile.m_scratch.numQuads = 3 ∧ sampleSecondTile.m_scratch.quads = [] ∧
    ∃ newLabels, sampleSecondTileLine.m_scratch.labels
        = sampleSecondTile.m_scratch.labels ++ newLabels ∧
      ∀ l ∈ newLabels, 0 ≤ l.quadRange.start ∧
        l.quadRange.start = sampleSecondTile.m_scratch.quads.length ∧
        l.quadRange.start + l.quadRange.length = sampleSecondTileLine.m_scratch.quads.length :=
  ⟨by decide!, by decide!,
    label_range_at_creation sampleEnv freshBuilder sampleSecondTile sampleSecondTileLine
      [Op.setup 256, Op.feature (Feature.point samplePoint (sampleProps (str "ab c"))
        (sampleRule none)), Op.build, Op.setup 256]
      (Feature.line sampleLine (sampleProps (str "ab c")) (sampleRule none))
      (by decide!) (by decide!) (by decide!)⟩

/-- C15: for positive (finite) font size, pixel scale and atlas reference
size, the stored font scale is `scale = fontSize * pixelScale / referenceSize`
times 64, clamped: 255 whenever `64 * scale ≥ 255`, the truncation of
`64 * scale` otherwise, and never above 255; it is the value a successful
`prepareLabel` leaves in the scratch buffer for the label. The products and
the quotient are the `float` operations of the program, each rounded to
nearest (`fontScaleOf` is the scale, `FloatVal.mul binary32 scale 64` its
multiple). -/
theorem fontScale_clamped (fontSize pixelScale referenceSize : ℚ) (h1 : 0 < fontSize)
    (h2 : 0 < pixelScale) (h3 : 0 < referenceSize) :
    (255 ≤ FloatVal.mul binary32
        (fontScaleOf (FloatVal.fin fontSize) (FloatVal.fin pixelScale)
          (FloatVal.fin referenceSize)) 64 →
      fontScaleAttrib (fontScaleOf (FloatVal.fin fontSize) (FloatVal.fin pixelScale)
        (FloatVal.fin referenceSize)) = 255) ∧
    (FloatVal.mul binary32
        (fontScaleOf (FloatVal.fin fontSize) (FloatVal.fin pixelScale)
          (FloatVal.fin referenceSize)) 64 < 255 →
      (fontScaleAttrib (fontScaleOf (FloatVal.fin fontSize) (FloatVal.fin pixelScale)
        (FloatVal.fin referenceSize)) : Int)
        = (FloatVal.mul binary32
            (fontScaleOf (FloatVal.fin fontSize) (FloatVal.fin pixelScale)
              (FloatVal.fin referenceSize)) 64).toInt) ∧
    0 ≤ fontScaleAttrib (fontScaleOf (FloatVal.fin fontSize) (FloatVal.fin pixelScale)
      (FloatVal.fin referenceSize)) ∧
    fontScaleAttrib (fontScaleOf (FloatVal.fin fontSize) (FloatVal.fin pixelScale)
      (FloatVal.fin referenceSize)) ≤ 255 ∧
    ∀ (env : Env) (b b1 : TextStyleBuilder) (params : Parameters) (type : LabelType)
      (font : Font), params.fontSize = FloatVal.fin fontSize →
      env.pixelScale = FloatVal.fin pixelScale →
      font.size = FloatVal.fin referenceSize → params.font = some font →
      prepareLabel env b params type = some (true, b1) →
      b1.m_scratch.fontScale = fontScaleAttrib
        (fontScaleOf (FloatVal.fin fontSize) (FloatVal.fin pixelScale)
          (FloatVal.fin referenceSize)) := by
  have hnn := fontScale_nonneg fontSize pixelScale referenceSize h1 h2 h3
  obtain ⟨g1, g2, g3⟩ := fontScaleAttrib_props
    (fontScaleOf (FloatVal.fin fontSize) (FloatVal.fin pixelScale) (FloatVal.fin referenceSize))
    hnn
  refine ⟨?_, ?_, Nat.zero_le _, g3, ?_⟩
  · intro h
    rw [FloatVal.le_def, FloatVal.lit_255, FloatVal.lit_64] at h
    exact g1 h
  · intro h
    rw [FloatVal.lt_def, FloatVal.lit_255, FloatVal.lit_64] at h
    rw [FloatVal.lit_64]
    exact g2 h
  · intro env b b1 params type font hp1 hp2 hp3 hf hprep
    obtain ⟨font2, hf2, he, hs⟩ := prepareLabel_true_inv env b b1 params type hprep
    rw [hf] at hf2
    simp only [Option.some.injEq] at hf2
    subst hf2
    obtain ⟨b', hp, _, _, hfs, _⟩ := prepareLabel_shaped_labelOf env b params type font hf he hs
    rw [hp] at hprep
    simp only [Option.some.injEq, Prod.mk.injEq, true_and] at hprep
    rw [← hprep, hfs, hp1, hp2, hp3]
    rfl

theorem fontScale_clamped_witness :
    fontScaleAttrib (fontScaleOf (FloatVal.fin 16) (FloatVal.fin 1) (FloatVal.fin 2)) = 255 ∧
    (fontScaleAttrib (fontScaleOf (FloatVal.fin (15099494 / 1048576)) (FloatVal.fin (5 / 4))
        (FloatVal.fin 16)) : Int)
      = (FloatVal.mul binary32 (fontScaleOf (FloatVal.fin (15099494 / 1048576))
          (FloatVal.fin (5 / 4)) (FloatVal.fin 16)) 64).toInt ∧
    fontScaleAttrib (fontScaleOf (FloatVal.fin (15099494 / 1048576)) (FloatVal.fin (5 / 4))
      (FloatVal.fin 16)) = 72 ∧
    truncToInt (64 * (15099494 / 1048576 * (5 / 4) / 16)) = 71 ∧
    sampleShapedBuilder.m_scratch.fontScale
      = fontScaleAttrib (fontScaleOf (FloatVal.fin 16) (FloatVal.fin 1) (FloatVal.fin 16)) :=
  ⟨(fontScale_clamped 16 1 2 (by norm_num) (by norm_num) (by norm_num)).1 (by decide!),
    (fontScale_clamped (15099494 / 1048576) (5 / 4) 16 (by norm_num) (by norm_num)
      (by norm_num)).2.1 (by decide!),
    by decide!,
    by decide!,
    (fontScale_clamped 16 1 16 (by norm_num) (by norm_num) (by norm_num)).2.2.2.2 sampleEnv
      sampleBuilder sampleShapedBuilder
      (applyRule sampleEnv (sampleRule none) (sampleProps (str "ab c"))) LabelType.line ⟨0, 16⟩
      (by decide!) (by decide!) (by decide!) (by decide!) (by decide!)⟩

/-- C16: `addLine` shapes the text once, however many segments qualify, on
every line feature but one. The call fails exactly on the empty line after a
successful shaping pass, where the loop bound `_line.size() - 1` wraps to
`2 ^ 64 - 1` and `_line[0]` is read out of bounds. On every other line feature
the call returns, the quad buffer has grown by exactly the `drawGlyph` calls of
one shaping pass (by nothing when the feature is skipped), also when no label
is emitted, and all labels emitted for the line carry the same quad range. -/
theorem addLine_shapes_once (env : Env) (b : TextStyleBuilder) (l : Line)
    (props : Properties) (rule : DrawRule) :
    (addLine env b l props rule = none ↔
      l = [] ∧ ∃ b1, prepareLabel env b (applyRule env rule props) LabelType.line
        = some (true, b1)) ∧
    (¬ (l = [] ∧ ∃ b1, prepareLabel env b (applyRule env rule props) LabelType.line
        = some (true, b1)) →
      ∃ b' newLabels, addLine env b l props rule = some b' ∧
        b'.m_scratch.labels = b.m_scratch.labels ++ newLabels ∧
        (∀ x ∈ newLabels, ∀ y ∈ newLabels, x.quadRange = y.quadRange) ∧
        (∀ font, (applyRule env rule props).font = some font →
          ¬ ((applyRule env rule props).text = [] ∨ (applyRule env rule props).fontSize ≤ 0) →
          (env.shape font (renderText (applyRule env rule props))).shapes.length ≠ 0 →
          b'.m_scratch.quads = b.m_scratch.quads ++
            (glyphDraws env (applyRule env rule props) LabelType.line font).map
              (glyphQuad env)) ∧
        (∀ b1, prepareLabel env b (applyRule env rule props) LabelType.line = some (false, b1) →
          b'.m_scratch.quads = b.m_scratch.quads ∧ newLabels = [])) := by
  obtain ⟨r, b1, hp⟩ := prepareLabel_applyRule_isSome env b rule props LabelType.line
  cases r with
  | false =>
    have hnot : ¬ ∃ b2, prepareLabel env b (applyRule env rule props) LabelType.line
        = some (true, b2) := by
      rintro ⟨b2, hp2⟩
      rw [hp2] at hp
      simp at hp
    refine ⟨⟨fun h => ?_, fun h => absurd h.2 hnot⟩, fun _ => ?_⟩
    · rw [addLine_of_false env b b1 l props rule hp] at h
      simp at h
    · obtain ⟨hl, hq⟩ := prepareLabel_false_keeps env b b1 _ _ hp
      refine ⟨b1, [], addLine_of_false env b b1 l props rule hp, by simp [hl], by simp, ?_,
        fun _ _ => ⟨hq, rfl⟩⟩
      intro font hf he hs
      obtain ⟨b2, hp2, _⟩ := prepareLabel_shaped env b _ LabelType.line font hf he hs
      rw [hp2] at hp
      simp at hp
  | true =>
    by_cases hne : l = []
    · subst hne
      have hfail := addLine_of_true_empty env b b1 props rule hp
      exact ⟨⟨fun _ => ⟨rfl, b1, hp⟩, fun _ => hfail⟩, fun h => absurd ⟨rfl, b1, hp⟩ h⟩
    · refine ⟨⟨fun h => ?_, fun h => absurd h.1 hne⟩, fun _ => ?_⟩
      · rw [addLine_of_true_take env b b1 l props rule hne hp] at h
        simp at h
      · obtain ⟨_, _, hl, _⟩ := prepareLabel_effect env b _ _ _ _ hp
        refine ⟨_, lineLabels env b1.m_scratch (applyRule env rule props) (minLengthOf env b1)
          ((segments l).take (toSizeT ((l.length : Int) - 1))),
          addLine_of_true_take env b b1 l props rule hne hp,
          by simp only [withLabels, hl], ?_, ?_, ?_⟩
        · intro x hx y hy
          simp only [lineLabels, List.mem_map] at hx hy
          obtain ⟨_, _, rfl⟩ := hx
          obtain ⟨_, _, rfl⟩ := hy
          rfl
        · intro font hf he hs
          obtain ⟨b2, hp2, hq2, _⟩ := prepareLabel_shaped env b _ LabelType.line font hf he hs
          rw [hp2] at hp
          simp only [Option.some.injEq, Prod.mk.injEq, true_and] at hp
          subst hp
          exact hq2
        · intro b2 hp2
          rw [hp2] at hp
          simp at hp

theorem addLine_shapes_once_witness :
    addLine sampleEnv sampleBuilder [] (sampleProps (str "ab c")) (sampleRule none) = none ∧
    ∃ b' newLabels, addLine sampleEnv sampleBuilder sampleLine (sampleProps (str "ab c"))
        (sampleRule none) = some b' ∧
      b'.m_scratch.labels = sampleBuilder.m_scratch.labels ++ newLabels ∧
      (∀ x ∈ newLabels, ∀ y ∈ newLabels, x.quadRange = y.quadRange) ∧
      (∀ font, (applyRule sampleEnv (sampleRule none) (sampleProps (str "ab c"))).font
          = some font →
        ¬ ((applyRule sampleEnv (sampleRule none) (sampleProps (str "ab c"))).text = [] ∨
          (applyRule sampleEnv (sampleRule none) (sampleProps (str "ab c"))).fontSize ≤ 0) →
        (sampleEnv.shape font (renderText
          (applyRule sampleEnv (sampleRule none) (sampleProps (str "ab c"))))).shapes.length
            ≠ 0 →
        b'.m_scratch.quads = sampleBuilder.m_scratch.quads ++
          (glyphDraws sampleEnv (applyRule sampleEnv (sampleRule none)
            (sampleProps (str "ab c"))) LabelType.line font).map (glyphQuad sampleEnv)) ∧
      (∀ b1, prepareLabel sampleEnv sampleBuilder
          (applyRule sampleEnv (sampleRule none) (sampleProps (str "ab c"))) LabelType.line
            = some (false, b1) →
        b'.m_scratch.quads = sampleBuilder.m_scratch.quads ∧ newLabels = []) :=
  ⟨(addLine_shapes_once sampleEnv sampleBuilder [] (sampleProps (str "ab c"))
      (sampleRule none)).1.mpr ⟨rfl, sampleShapedBuilder, by decide!⟩,
    (addLine_shapes_once sampleEnv sampleBuilder sampleLine (sampleProps (str "ab c"))
      (sampleRule none)).2 (fun h => absurd h.1 (by decide))⟩

/-- C17, as stated, fails: the wrapping algorithm receives the minimum 4, not
1; the probe environment reports the minimum it was called with. -/
theorem wrap_minimum_is_four :
    (drawLine sampleEnvProbe sampleParameters LabelType.point
      (sampleShape ⟨0, 16⟩ (str "ab c"))).2.y = 4 ∧
    (sampleEnvProbe.drawWithLineWrapping (sampleShape ⟨0, 16⟩ (str "ab c"))
      sampleParameters.maxLineWidth 1 sampleParameters.align sampleEnvProbe.pixelScale).2.y
        = 1 ∧
    drawLine sampleEnvProbe sampleParameters LabelType.point (sampleShape ⟨0, 16⟩ (str "ab c"))
      ≠ sampleEnvProbe.drawWithLineWrapping (sampleShape ⟨0, 16⟩ (str "ab c"))
          sampleParameters.maxLineWidth 1 sampleParameters.align sampleEnvProbe.pixelScale := by
  refine ⟨by decide!, by decide!, by decide!⟩

/-- C17, amended: `prepareLabel` draws through the wrapping algorithm exactly
when the label type is point and word wrap is enabled, and then with the
arguments `maxLineWidth`, the fixed minimum 4, the resolved alignment and the
pixel scale; for a line label, or a point label without word wrap, the shaped
line is drawn unwrapped at the local origin `(0, 0)`. The quads a successful
`prepareLabel` appends are those of that drawing step. -/
theorem drawLine_wrap_policy (env : Env) (params : Parameters) (type : LabelType) :
    (∀ layout, type = LabelType.point ∧ params.wordWrap = true →
      drawLine env params type layout
        = env.drawWithLineWrapping layout params.maxLineWidth 4 params.align env.pixelScale) ∧
    (∀ layout, ¬ (type = LabelType.point ∧ params.wordWrap = true) →
      drawLine env params type layout = env.draw layout ⟨0, 0⟩ env.defaultAabb) ∧
    (∀ (b b1 : TextStyleBuilder), prepareLabel env b params type = some (true, b1) →
      ∃ font, params.font = some font ∧
        b1.m_scratch.quads = b.m_scratch.quads ++
          (drawLine env params type (shapedLayout env params font)).1.map (glyphQuad env)) := by
  refine ⟨?_, ?_, ?_⟩
  · intro layout h
    unfold drawLine
    rw [if_pos h]
  · intro layout h
    unfold drawLine
    rw [if_neg h]
  · intro b b1 hp
    obtain ⟨font, hf, he, hs⟩ := prepareLabel_true_inv env b b1 params type hp
    obtain ⟨b2, hp2, hq, _⟩ := prepareLabel_shaped env b params type font hf he hs
    rw [hp2] at hp
    simp only [Option.some.injEq, Prod.mk.injEq, true_and] at hp
    subst hp
    exact ⟨font, hf, hq⟩

theorem drawLine_wrap_policy_witness :
    drawLine sampleEnvProbe sampleParameters LabelType.point (sampleShape ⟨0, 16⟩ (str "ab c"))
      = ([], ⟨15, 4, 0, 1⟩) ∧
    drawLine sampleEnvProbe sampleParameters LabelType.line (sampleShape ⟨0, 16⟩ (str "ab c"))
      = sampleEnvProbe.draw (sampleShape ⟨0, 16⟩ (str "ab c")) ⟨0, 0⟩
          sampleEnvProbe.defaultAabb :=
  ⟨((drawLine_wrap_policy sampleEnvProbe sampleParameters LabelType.point).1
      (sampleShape ⟨0, 16⟩ (str "ab c")) ⟨rfl, rfl⟩).trans (by decide!),
    (drawLine_wrap_policy sampleEnvProbe sampleParameters LabelType.line).2.1
      (sampleShape ⟨0, 16⟩ (str "ab c")) (by decide)⟩

/-- C18: on the empty line with parameters that resolve and shape, the loop
bound `_line.size() - 1` is `2 ^ 64 - 1` and the first iteration reads
`_line[0]` out of bounds, so `addLine` fails; on a one-vertex line the bound is
0 and no label is appended. -/
theorem addLine_empty_line_out_of_bounds :
    toSizeT ((([] : Line).length : Int) - 1) = 2 ^ 64 - 1 ∧
    (prepareLabel sampleEnv sampleBuilder
      (applyRule sampleEnv (sampleRule none) (sampleProps (str "ab c"))) LabelType.line).map
        (fun r => r.1) = some true ∧
    addLine sampleEnv sampleBuilder [] (sampleProps (str "ab c")) (sampleRule none) = none ∧
    (addLine sampleEnv sampleBuilder [⟨0, 0, 0⟩] (sampleProps (str "ab c"))
      (sampleRule none)).map (fun c => c.m_scratch.labels) = some [] := by
  refine ⟨by decide, by decide!, ?_, by decide!⟩
  exact addLine_of_true_empty sampleEnv sampleBuilder sampleShapedBuilder
    (sampleProps (str "ab c")) (sampleRule none) (by decide!)

end Tangram
